import Mathlib

/-!
# MatrixMFD: mimetic finite-difference block operator

A shallow embedding of `src/operators/divgrad/matrix_mfd.cc`.

* `double` values are modelled by rational numbers (exact arithmetic).
* `std::vector`, `Epetra_SerialDenseVector`, `Epetra_Vector` are functions `Nat → ℚ`;
  dense and sparse matrices are functions `Nat → Nat → ℚ`.  Only the entries inside
  the extent of the C++ object are meaningful.
* A counted loop `for (int i = 0; i != n; ++i) body` is `forLoop n body`.
* The mesh is a single-process mesh: there are no ghost entities and the
  collective operations (`GlobalAssemble`, `GatherGhostedToMaster`) are the identity.
-/

namespace Amanzi
namespace Operators

open Finset

/-- A vector of doubles. -/
abbrev Vec := Nat → ℚ

/-- A matrix of doubles, `A i j` is the entry in row `i`, column `j`. -/
abbrev Mat := Nat → Nat → ℚ

/-- The loop `for (int i = 0; i != n; ++i) body(i)` run on the state `s`. -/
def forLoop {σ : Type} : Nat → (Nat → σ → σ) → σ → σ
  | 0, _, s => s
  | k + 1, body, s => body k (forLoop k body s)

/-- The assignment `v[i] = x`. -/
def Vec.set (v : Vec) (i : Nat) (x : ℚ) : Vec :=
  fun k => if k = i then x else v k

/-- The assignment `A(i, j) = x`. -/
def Mat.set (A : Mat) (i j : Nat) (x : ℚ) : Mat :=
  fun a b => if a = i ∧ b = j then x else A a b

/-- Modelled from the spec: the enumeration `Matrix_bc` of `matrix_mfd.hh`, the per-face
boundary marker (none / Dirichlet / flux). -/
inductive Matrix_bc where
  | MATRIX_BC_NULL
  | MATRIX_BC_DIRICHLET
  | MATRIX_BC_FLUX
  deriving DecidableEq, Repr

/-- Modelled from the spec: the enumeration of discretization methods of `matrix_mfd.hh`. -/
inductive MFD_method where
  | MFD3D_NULL
  | MFD3D_POLYHEDRA
  | MFD3D_POLYHEDRA_SCALED
  | MFD3D_OPTIMIZED
  | MFD3D_OPTIMIZED_SCALED
  | MFD3D_HEXAHEDRA_MONOTONE
  | MFD3D_TWO_POINT_FLUX
  | MFD3D_SUPPORT_OPERATOR
  deriving DecidableEq, Repr

/-- Modelled from the spec: the enumeration of preconditioner variants of `matrix_mfd.hh`. -/
inductive Prec_method where
  | PREC_METHOD_NULL
  | TRILINOS_ML
  | TRILINOS_ILU
  | TRILINOS_BLOCK_ILU
  | HYPRE_AMG
  | HYPRE_EUCLID
  | HYPRE_PARASAILS
  deriving DecidableEq, Repr

/-- The mesh collaborator, as far as `MatrixMFD` uses it. -/
structure Mesh where
  /-- `num_entities(CELL, OWNED)` -/
  ncells : Nat
  /-- `num_entities(FACE, OWNED)` -/
  nfaces_owned : Nat
  /-- The faces returned by `cell_get_faces_and_dirs(c, &faces, &dirs)`. -/
  cell_faces : Nat → List Nat
  /-- The orientation signs returned by `cell_get_faces_and_dirs(c, &faces, &dirs)`. -/
  cell_dirs : Nat → List Int
  /-- `face_area(f)` -/
  face_area : Nat → ℚ
  /-- `space_dimension()` -/
  space_dimension : Nat
  /-- The component `face_normal(f)[i]` of the normal of face `f`. -/
  face_normal : Nat → Nat → ℚ

/-- The value `faces[n]` after `cell_get_faces_and_dirs(c, &faces, &dirs)`. -/
def Mesh.face (mesh : Mesh) (c n : Nat) : Nat := (mesh.cell_faces c).getD n 0

/-- The value `faces.size()` after `cell_get_faces_and_dirs(c, &faces, &dirs)`. -/
def Mesh.nfaces (mesh : Mesh) (c : Nat) : Nat := (mesh.cell_faces c).length

/-- The value `dirs[n]` after `cell_get_faces_and_dirs(c, &faces, &dirs)`. -/
def Mesh.dir (mesh : Mesh) (c n : Nat) : Int := (mesh.cell_dirs c).getD n 0

/-- A single-process mesh: the faces of every owned cell are pairwise distinct and owned. -/
def Mesh.WF (mesh : Mesh) : Prop :=
  ∀ c, c < mesh.ncells →
    (mesh.cell_faces c).Nodup ∧ ∀ f ∈ mesh.cell_faces c, f < mesh.nfaces_owned

instance (mesh : Mesh) : Decidable mesh.WF := by
  unfold Mesh.WF; infer_instance

/-- A `CompositeVector` with a "cell" and a "face" component. -/
structure CompositeVector where
  cell : Vec
  face : Vec

/-- The relative-conductivity argument of `CreateMFDstiffnessMatrices`: a `CompositeVector`
that may or may not have a "cell" and a "face" component. -/
structure KrelVector where
  cell : Option Vec
  face : Option Vec

/-- The data members of `MatrixMFD`. -/
structure MatrixMFD where
  mesh_ : Mesh
  flag_symmetry_ : Bool
  method_ : MFD_method
  prec_method_ : Prec_method
  /-- `Mff_cells_[c](n, m)` -/
  Mff_cells_ : Nat → Mat
  /-- `Aff_cells_[c](n, m)` -/
  Aff_cells_ : Nat → Mat
  /-- `Afc_cells_[c](n)` -/
  Afc_cells_ : Nat → Vec
  /-- `Acf_cells_[c](n)` -/
  Acf_cells_ : Nat → Vec
  /-- `Acc_cells_[c]` -/
  Acc_cells_ : Vec
  /-- `Ff_cells_[c][n]` -/
  Ff_cells_ : Nat → Vec
  /-- `Fc_cells_[c]` -/
  Fc_cells_ : Vec
  /-- The global face-face matrix `*Aff_`. -/
  Aff_ : Mat
  /-- The face Schur complement `*Sff_`. -/
  Sff_ : Mat
  /-- The global cell-face matrix `*Acf_`, entry `(c, f)`. -/
  Acf_ : Mat
  /-- The matrix allocated for `Afc_` by `CreateMatrices_` when `flag_symmetry_` is false. -/
  Afc_alloc : Mat
  /-- The diagonal `*Acc_`. -/
  Acc_ : Vec
  /-- The "cell" component of `*rhs_`. -/
  rhs_cell : Vec
  /-- The "face" component of `*rhs_`. -/
  rhs_face : Vec
  /-- The face multiplier `*Krel_`. -/
  Krel_ : Vec
  /-- The action `ApplyInverse(Tf, Yf)` of the preconditioner object built on `Sff_`. -/
  prec_ApplyInverse : Vec → Vec
  /-- Whether the build defines the preprocessor symbol `HAVE_HYPRE`. -/
  HAVE_HYPRE : Bool

/-- The matrix the pointer `Afc_` refers to: `CreateMatrices_` sets `Afc_ = Acf_` when
`flag_symmetry_` holds and allocates a matrix of its own otherwise. -/
def MatrixMFD.Afc_ (s : MatrixMFD) : Mat :=
  if s.flag_symmetry_ then s.Acf_ else s.Afc_alloc

/-! ## InitializeFromPList_ -/

/-- The entries of the `Teuchos::ParameterList` `plist_` that `InitializeFromPList_` reads;
`none` is an entry that is not in the list. -/
structure ParameterList where
  /-- The entry "MFD method". -/
  entry_MFD_method : Option String
  /-- The entry "preconditioner". -/
  entry_preconditioner : Option String

/-- The chain of comparisons of `methodstring` in `InitializeFromPList_`; `none` is the
final `else` branch. -/
def methodFromString (methodstring : String) : Option MFD_method :=
  if methodstring = "polyhedra" then some MFD_method.MFD3D_POLYHEDRA
  else if methodstring = "polyhedra scaled" then some MFD_method.MFD3D_POLYHEDRA_SCALED
  else if methodstring = "optimized" then some MFD_method.MFD3D_OPTIMIZED
  else if methodstring = "optimized scaled" then some MFD_method.MFD3D_OPTIMIZED_SCALED
  else if methodstring = "hexahedra monotone" then some MFD_method.MFD3D_HEXAHEDRA_MONOTONE
  else if methodstring = "two point flux" then some MFD_method.MFD3D_TWO_POINT_FLUX
  else if methodstring = "support operator" then some MFD_method.MFD3D_SUPPORT_OPERATOR
  else none

/-- The chain of comparisons of `precmethodstring` in `InitializeFromPList_`, with the three
HYPRE branches compiled in when `have_hypre` holds; `none` is the final `else` branch. -/
def precFromString (have_hypre : Bool) (precmethodstring : String) : Option Prec_method :=
  if precmethodstring = "ML" then some Prec_method.TRILINOS_ML
  else if precmethodstring = "ILU" then some Prec_method.TRILINOS_ILU
  else if precmethodstring = "Block ILU" then some Prec_method.TRILINOS_BLOCK_ILU
  else if have_hypre = true ∧ precmethodstring = "HYPRE AMG" then some Prec_method.HYPRE_AMG
  else if have_hypre = true ∧ precmethodstring = "HYPRE Euclid" then
    some Prec_method.HYPRE_EUCLID
  else if have_hypre = true ∧ precmethodstring = "HYPRE ParaSails" then
    some Prec_method.HYPRE_EUCLID
  else none

/-- The message of the error raised for a preconditioner name without a branch. -/
def precErrorMessage (have_hypre : Bool) (precmethodstring : String) : String :=
  if have_hypre then
    "Matrix_MFD: The specified preconditioner " ++ precmethodstring
      ++ " is not supported, we only support ML, ILU, HYPRE AMG, HYPRE Euclid, and HYPRE ParaSails"
  else
    "Matrix_MFD: The specified preconditioner " ++ precmethodstring
      ++ " is not supported, we only support ML, and ILU"

/-- `MatrixMFD::InitializeFromPList_()`, which both constructors run: the values given to
`method_` and `prec_method_`, or the error that ends the construction.  `get<string>` of an
entry that is not in the list throws in Teuchos. -/
def InitializeFromPList_ (have_hypre : Bool) (plist_ : ParameterList) :
    Except String (MFD_method × Prec_method) :=
  match plist_.entry_MFD_method with
  | none => Except.error "Teuchos::Exceptions::InvalidParameterName"
  | some methodstring =>
    match methodFromString methodstring with
    | none => Except.error "MatrixMFD: unexpected discretization methods"
    | some method_ =>
      match plist_.entry_preconditioner with
      | none => Except.ok (method_, Prec_method.PREC_METHOD_NULL)
      | some precmethodstring =>
        match precFromString have_hypre precmethodstring with
        | none => Except.error (precErrorMessage have_hypre precmethodstring)
        | some prec_method_ => Except.ok (method_, prec_method_)

/-- The seven names of discretization methods. -/
def methodNames : List String :=
  ["polyhedra", "polyhedra scaled", "optimized", "optimized scaled", "hexahedra monotone",
    "two point flux", "support operator"]

/-- The preconditioner names that have a branch in `InitializeFromPList_`. -/
def precNames (have_hypre : Bool) : List String :=
  if have_hypre then ["ML", "ILU", "Block ILU", "HYPRE AMG", "HYPRE Euclid", "HYPRE ParaSails"]
  else ["ML", "ILU", "Block ILU"]

/-- `MatrixMFD::InitPreconditioner()`: the name of the sublist of `plist_` that is read for
the preconditioner variant, if any; the HYPRE branches are compiled in when `have_hypre`
holds. -/
def InitPreconditioner_sublist (have_hypre : Bool) (prec_method_ : Prec_method) :
    Option String :=
  if prec_method_ = Prec_method.TRILINOS_ML then some "ML Parameters"
  else if prec_method_ = Prec_method.TRILINOS_ILU then some "ILU Parameters"
  else if prec_method_ = Prec_method.TRILINOS_BLOCK_ILU then some "Block ILU Parameters"
  else if have_hypre = true ∧ prec_method_ = Prec_method.HYPRE_AMG then
    some "HYPRE AMG Parameters"
  else if have_hypre = true ∧ prec_method_ = Prec_method.HYPRE_EUCLID then
    some "HYPRE Euclid Parameters"
  else if have_hypre = true ∧ prec_method_ = Prec_method.HYPRE_PARASAILS then
    some "HYPRE ParaSails Parameters"
  else none

/-! ## CreateMFDstiffnessMatrices -/

/-- The matrix `Bff` of `CreateMFDstiffnessMatrices` for cell `c`:
`Bff(m, n) = Mff(m, n) * (Krel_cell == Teuchos::null ? 1. : (*Krel_cell)[0][c])`. -/
def stiffnessBff (Krel_cell : Option Vec) (Mff : Mat) (c : Nat) : Mat :=
  fun m n =>
    Mff m n * (match Krel_cell with
      | none => 1
      | some k => k c)

/-- The value of `colsum` when the inner loop of `CreateMFDstiffnessMatrices` ends, for the
local face `n` of cell `c`. -/
def stiffnessColsum (Krel_face : Option Vec) (mesh : Mesh) (c : Nat) (Bff : Mat)
    (n : Nat) : ℚ :=
  ∑ m in range (mesh.nfaces c),
    (match Krel_face with
      | none => Bff m n
      | some k => Bff m n * k (mesh.face c m))

/-- The value of `rowsum` when the inner loop of `CreateMFDstiffnessMatrices` ends, for the
local face `n` of cell `c`. -/
def stiffnessRowsum (mesh : Mesh) (c : Nat) (Bff : Mat) (n : Nat) : ℚ :=
  ∑ m in range (mesh.nfaces c), Bff n m

/-- The body of the cell loop of `CreateMFDstiffnessMatrices`, where `Krel_cell` and
`Krel_face` are the two views taken from `Krel` (`none` is `Teuchos::null`). -/
def CreateMFDstiffnessMatrices_cell (Krel_cell Krel_face : Option Vec) (c : Nat)
    (s : MatrixMFD) : MatrixMFD :=
  let nfaces := s.mesh_.nfaces c
  let Mff := s.Mff_cells_ c
  let Bff : Mat := stiffnessBff Krel_cell Mff c
  let Bcf : Vec := fun n => -stiffnessColsum Krel_face s.mesh_ c Bff n
  let Bfc : Vec := fun n => -stiffnessRowsum s.mesh_ c Bff n
  let matsum : ℚ := ∑ n in range nfaces, stiffnessColsum Krel_face s.mesh_ c Bff n
  { s with
    Aff_cells_ := Function.update s.Aff_cells_ c Bff
    Afc_cells_ := Function.update s.Afc_cells_ c Bfc
    Acf_cells_ := Function.update s.Acf_cells_ c Bcf
    Acc_cells_ := Function.update s.Acc_cells_ c matsum }

/-- `MatrixMFD::CreateMFDstiffnessMatrices(Krel)`; `Krel = none` is `Teuchos::null`. -/
def CreateMFDstiffnessMatrices (Krel : Option KrelVector) (s : MatrixMFD) : MatrixMFD :=
  let s0 : MatrixMFD := { s with
    Aff_cells_ := fun _ _ _ => 0
    Afc_cells_ := fun _ _ => 0
    Acf_cells_ := fun _ _ => 0
    Acc_cells_ := fun _ => 0 }
  let Krel_cell : Option Vec := Krel.bind (fun K => K.cell)
  let Krel_face : Option Vec := Krel.bind (fun K => K.face)
  let s1 : MatrixMFD :=
    match Krel_face with
    | none => s0
    | some k => { s0 with Krel_ := k }
  forLoop s1.mesh_.ncells (CreateMFDstiffnessMatrices_cell Krel_cell Krel_face) s1

/-! ## CreateMFDrhsVectors -/

/-- `MatrixMFD::CreateMFDrhsVectors()` -/
def CreateMFDrhsVectors (s : MatrixMFD) : MatrixMFD :=
  forLoop s.mesh_.ncells
    (fun c t => { t with
      Ff_cells_ := Function.update t.Ff_cells_ c (fun _ => 0)
      Fc_cells_ := Function.update t.Fc_cells_ c 0 })
    { s with Ff_cells_ := fun _ _ => 0, Fc_cells_ := fun _ => 0 }

/-! ## ApplyBoundaryConditions -/

/-- The elemental data of one cell that `ApplyBoundaryConditions` takes references to. -/
@[ext]
structure ElemBlocks where
  Bff : Mat
  Bfc : Vec
  Bcf : Vec
  Ff : Vec
  Fc : ℚ

/-- The body of the inner loop over `m` for a Dirichlet face with local index `n`:
`Ff[m] -= Bff(m, n) * bc_values[f]; Bff(n, m) = Bff(m, n) = 0.0;` -/
def bcDirichletInner (n : Nat) (v : ℚ) (m : Nat) (b : ElemBlocks) : ElemBlocks :=
  { b with
    Ff := b.Ff.set m (b.Ff m - b.Bff m n * v)
    Bff := (b.Bff.set m n 0).set n m 0 }

/-- The body of the loop over the local faces `n` of cell `c` in `ApplyBoundaryConditions`. -/
def bcFace (mesh : Mesh) (Krel_ : Vec) (bc_markers : Nat → Matrix_bc) (bc_values : Vec)
    (c n : Nat) (b : ElemBlocks) : ElemBlocks :=
  let nfaces := mesh.nfaces c
  let f := mesh.face c n
  if bc_markers f = Matrix_bc.MATRIX_BC_DIRICHLET then
    let b1 := forLoop nfaces (bcDirichletInner n (bc_values f)) b
    let b2 : ElemBlocks := { b1 with Fc := b1.Fc - b1.Bcf n * bc_values f }
    let b3 : ElemBlocks := { b2 with Bfc := b2.Bfc.set n 0, Bcf := b2.Bcf.set n 0 }
    let b4 : ElemBlocks := { b3 with Bff := b3.Bff.set n n 1 }
    { b4 with Ff := b4.Ff.set n (bc_values f) }
  else if bc_markers f = Matrix_bc.MATRIX_BC_FLUX then
    if |bc_values f| > 0 then
      { b with Ff := b.Ff.set n (b.Ff n - bc_values f * mesh.face_area f / Krel_ f) }
    else b
  else b

/-- The elemental data of cell `c` held by the operator. -/
def MatrixMFD.blocks (s : MatrixMFD) (c : Nat) : ElemBlocks :=
  { Bff := s.Aff_cells_ c
    Bfc := s.Afc_cells_ c
    Bcf := s.Acf_cells_ c
    Ff := s.Ff_cells_ c
    Fc := s.Fc_cells_ c }

/-- The body of the cell loop of `ApplyBoundaryConditions`. -/
def ApplyBoundaryConditions_cell (bc_markers : Nat → Matrix_bc) (bc_values : Vec) (c : Nat)
    (s : MatrixMFD) : MatrixMFD :=
  let b := forLoop (s.mesh_.nfaces c) (bcFace s.mesh_ s.Krel_ bc_markers bc_values c)
    (s.blocks c)
  { s with
    Aff_cells_ := Function.update s.Aff_cells_ c b.Bff
    Afc_cells_ := Function.update s.Afc_cells_ c b.Bfc
    Acf_cells_ := Function.update s.Acf_cells_ c b.Bcf
    Ff_cells_ := Function.update s.Ff_cells_ c b.Ff
    Fc_cells_ := Function.update s.Fc_cells_ c b.Fc }

/-- `MatrixMFD::ApplyBoundaryConditions(bc_markers, bc_values)` -/
def ApplyBoundaryConditions (bc_markers : Nat → Matrix_bc) (bc_values : Vec)
    (s : MatrixMFD) : MatrixMFD :=
  forLoop s.mesh_.ncells (ApplyBoundaryConditions_cell bc_markers bc_values) s

/-! ## AssembleGlobalMatrices -/

/-- `Epetra_CrsMatrix::ReplaceMyValues(row, nfaces, vals, idx)`: entry `(row, idx[n])`
becomes `vals[n]`, for `n = 0, ..., nfaces - 1` in turn. -/
def ReplaceMyValues (A : Mat) (row nfaces : Nat) (vals : Vec) (idx : Nat → Nat) : Mat :=
  forLoop nfaces (fun n B => B.set row (idx n) (vals n)) A

/-- `Epetra_FECrsMatrix::SumIntoGlobalValues(nfaces, idx, vals)`: `vals(n, m)` is added to
entry `(idx[n], idx[m])`, for every pair `n, m` in turn. -/
def SumIntoGlobalValues (A : Mat) (nfaces : Nat) (idx : Nat → Nat) (vals : Mat) : Mat :=
  forLoop nfaces
    (fun n B => forLoop nfaces
      (fun m C => C.set (idx n) (idx m) (C (idx n) (idx m) + vals n m)) B) A

/-- The body of the first cell loop of `AssembleGlobalMatrices`. -/
def AssembleGlobalMatrices_cell (c : Nat) (s : MatrixMFD) : MatrixMFD :=
  let nfaces := s.mesh_.nfaces c
  let s1 : MatrixMFD := { s with Acc_ := s.Acc_.set c (s.Acc_cells_ c) }
  let s2 : MatrixMFD := { s1 with
    Acf_ := ReplaceMyValues s1.Acf_ c nfaces (s1.Acf_cells_ c) (s1.mesh_.face c) }
  let s3 : MatrixMFD := { s2 with
    Aff_ := SumIntoGlobalValues s2.Aff_ nfaces (s2.mesh_.face c) (s2.Aff_cells_ c) }
  if !s3.flag_symmetry_ then
    { s3 with
      Afc_alloc := ReplaceMyValues s3.Afc_alloc c nfaces (s3.Afc_cells_ c) (s3.mesh_.face c) }
  else s3

/-- The body of the second cell loop of `AssembleGlobalMatrices` (right-hand side). -/
def AssembleGlobalMatrices_rhs (c : Nat) (s : MatrixMFD) : MatrixMFD :=
  let nfaces := s.mesh_.nfaces c
  let s1 : MatrixMFD := { s with rhs_cell := s.rhs_cell.set c (s.Fc_cells_ c) }
  { s1 with
    rhs_face := forLoop nfaces
      (fun n r => r.set (s1.mesh_.face c n) (r (s1.mesh_.face c n) + s1.Ff_cells_ c n))
      s1.rhs_face }

/-- `MatrixMFD::AssembleGlobalMatrices()` -/
def AssembleGlobalMatrices (s : MatrixMFD) : MatrixMFD :=
  let s0 : MatrixMFD := { s with Aff_ := fun _ _ => 0 }
  let s1 := forLoop s0.mesh_.ncells AssembleGlobalMatrices_cell s0
  let s2 : MatrixMFD := { s1 with rhs_face := fun _ => 0 }
  forLoop s2.mesh_.ncells AssembleGlobalMatrices_rhs s2

/-! ## ComputeSchurComplement -/

/-- The body of the loop "Symbolic boundary conditions" of `ComputeSchurComplement`. -/
def schurSymbolicBC (mesh : Mesh) (bc_markers : Nat → Matrix_bc) (c n : Nat)
    (Schur : Mat) : Mat :=
  let nfaces := mesh.nfaces c
  let f := mesh.face c n
  if bc_markers f = Matrix_bc.MATRIX_BC_DIRICHLET then
    let S1 := forLoop nfaces (fun m S => (S.set m n 0).set n m 0) Schur
    S1.set n n 1
  else Schur

/-- The dense matrix `Schur` that `ComputeSchurComplement` builds for cell `c`. -/
def schurBlock (bc_markers : Nat → Matrix_bc) (c : Nat) (s : MatrixMFD) : Mat :=
  let nfaces := s.mesh_.nfaces c
  let Bcf := s.Acf_cells_ c
  let Bfc := s.Afc_cells_ c
  let Schur : Mat := fun n m => s.Aff_cells_ c n m - Bfc n * Bcf m / s.Acc_ c
  forLoop nfaces (schurSymbolicBC s.mesh_ bc_markers c) Schur

/-- The body of the cell loop of `ComputeSchurComplement`. -/
def ComputeSchurComplement_cell (bc_markers : Nat → Matrix_bc) (c : Nat)
    (s : MatrixMFD) : MatrixMFD :=
  { s with
    Sff_ := SumIntoGlobalValues s.Sff_ (s.mesh_.nfaces c) (s.mesh_.face c)
      (schurBlock bc_markers c s) }

/-- `MatrixMFD::ComputeSchurComplement(bc_markers, bc_values)` -/
def ComputeSchurComplement (bc_markers : Nat → Matrix_bc) (_bc_values : Vec)
    (s : MatrixMFD) : MatrixMFD :=
  let s0 : MatrixMFD := { s with Sff_ := fun _ _ => 0 }
  forLoop s0.mesh_.ncells (ComputeSchurComplement_cell bc_markers) s0

/-! ## Apply, ApplyInverse, residuals -/

/-- `A.Multiply(false, X, Y)` for a face-face matrix (`Aff_`, `Sff_`): the sum runs over
the owned faces; entries outside the matrix graph are zero after `PutScalar(0.0)`. -/
def ffMultiply (mesh : Mesh) (A : Mat) (X : Vec) : Vec :=
  fun f => ∑ g in range mesh.nfaces_owned, A f g * X g

/-- `A.Multiply(false, Xf, Yc)` for a matrix on the cell-face graph (`Acf_`): row `c` of the
graph holds the faces of cell `c`. -/
def cfMultiply (mesh : Mesh) (A : Mat) (Xf : Vec) : Vec :=
  fun c => ∑ f in (mesh.cell_faces c).toFinset, A c f * Xf f

/-- `A.Multiply(true, Xc, Yf)` for a matrix on the cell-face graph (`Afc_`, kept in
transposed form). -/
def cfMultiplyT (mesh : Mesh) (A : Mat) (Xc : Vec) : Vec :=
  fun f => ∑ c in range mesh.ncells, if f ∈ mesh.cell_faces c then A c f * Xc c else 0

/-- `MatrixMFD::Apply(X, Y)`, returning `Y`. -/
def Apply (s : MatrixMFD) (X : CompositeVector) : CompositeVector :=
  let Yf := ffMultiply s.mesh_ s.Aff_ X.face
  let Tf := cfMultiplyT s.mesh_ s.Afc_ X.cell
  let Yf : Vec := fun f => 1 * Tf f + 1 * Yf f
  let Yc := cfMultiply s.mesh_ s.Acf_ X.face
  let Yc : Vec := fun c => 1 * (s.Acc_ c * X.cell c) + 1 * Yc c
  { cell := Yc, face := Yf }

/-- Whether `ApplyInverse` has a branch for the preconditioner variant. -/
def precSupported (have_hypre : Bool) (p : Prec_method) : Bool :=
  p = Prec_method.TRILINOS_ML || p = Prec_method.TRILINOS_ILU
    || p = Prec_method.TRILINOS_BLOCK_ILU
    || (have_hypre && (p = Prec_method.HYPRE_AMG || p = Prec_method.HYPRE_EUCLID))

/-- The vector `Tf` of `ApplyInverse` when the forward elimination
`Tf = Xf - Afc_ inv(Acc_) Xc` is done. -/
def ApplyInverse_Tf (s : MatrixMFD) (X : CompositeVector) : Vec :=
  let Tc : Vec := fun c => 1 * X.cell c / s.Acc_ c
  let Tf := cfMultiplyT s.mesh_ s.Afc_ Tc
  fun f => 1 * X.face f + (-1) * Tf f

/-- `MatrixMFD::ApplyInverse(X, Y)`, returning `Y`, or the error that ends the run. -/
def ApplyInverse (s : MatrixMFD) (X : CompositeVector) : Except String CompositeVector :=
  if s.prec_method_ = Prec_method.PREC_METHOD_NULL then
    Except.error "MatrixMFD::ApplyInverse requires a specified preconditioner method"
  else
    let Tf := ApplyInverse_Tf s X
    if precSupported s.HAVE_HYPRE s.prec_method_ then
      let Yf := s.prec_ApplyInverse Tf
      let Tc := cfMultiply s.mesh_ s.Acf_ Yf
      let Tc : Vec := fun c => 1 * X.cell c + (-1) * Tc c
      let Yc : Vec := fun c => 1 * Tc c / s.Acc_ c
      Except.ok { cell := Yc, face := Yf }
    else
      Except.error "ASSERT(0)"

/-- `MatrixMFD::ComputeResidual(solution, residual)`, returning `residual`. -/
def ComputeResidual (s : MatrixMFD) (solution : CompositeVector) : CompositeVector :=
  let residual := Apply s solution
  { cell := fun c => 1 * s.rhs_cell c + (-1) * residual.cell c
    face := fun f => 1 * s.rhs_face f + (-1) * residual.face f }

/-- `MatrixMFD::ComputeNegativeResidual(solution, residual)`, returning `residual`. -/
def ComputeNegativeResidual (s : MatrixMFD) (solution : CompositeVector) : CompositeVector :=
  let residual := Apply s solution
  { cell := fun c => (-1) * s.rhs_cell c + 1 * residual.cell c
    face := fun f => (-1) * s.rhs_face f + 1 * residual.face f }

/-- `MatrixMFD::Apply(X, Y)` on explicit storage: `heap` maps addresses to vectors, `X` is
the vector at address `x` and `Y` the vector at address `y`; every library call reads its
arguments from the storage as it is at that moment and then assigns its result.  The result
is the storage when the call returns. -/
def Apply_heap (s : MatrixMFD) (x y : Nat) (heap : Nat → CompositeVector) :
    Nat → CompositeVector :=
  let heap1 := Function.update heap y
    { heap y with face := ffMultiply s.mesh_ s.Aff_ (heap x).face }
  let Tf := cfMultiplyT s.mesh_ s.Afc_ (heap1 x).cell
  let heap2 := Function.update heap1 y
    { heap1 y with face := fun f => 1 * Tf f + 1 * (heap1 y).face f }
  let heap3 := Function.update heap2 y
    { heap2 y with cell := cfMultiply s.mesh_ s.Acf_ (heap2 x).face }
  Function.update heap3 y
    { heap3 y with cell := fun c => 1 * (s.Acc_ c * (heap3 x).cell c) + 1 * (heap3 y).cell c }

/-- `MatrixMFD::ComputeResidual(solution, residual)` on explicit storage: `rhs_` is the
address of the vector the member `rhs_` points to, `solution` and `residual` are the
addresses of the two arguments. -/
def ComputeResidual_heap (s : MatrixMFD) (rhs_ solution residual : Nat)
    (heap : Nat → CompositeVector) : Nat → CompositeVector :=
  let heap1 := Apply_heap s solution residual heap
  Function.update heap1 residual
    { cell := fun c => 1 * (heap1 rhs_).cell c + (-1) * (heap1 residual).cell c
      face := fun f => 1 * (heap1 rhs_).face f + (-1) * (heap1 residual).face f }

/-- `MatrixMFD::ComputeNegativeResidual(solution, residual)` on explicit storage. -/
def ComputeNegativeResidual_heap (s : MatrixMFD) (rhs_ solution residual : Nat)
    (heap : Nat → CompositeVector) : Nat → CompositeVector :=
  let heap1 := Apply_heap s solution residual heap
  Function.update heap1 residual
    { cell := fun c => (-1) * (heap1 rhs_).cell c + 1 * (heap1 residual).cell c
      face := fun f => (-1) * (heap1 rhs_).face f + 1 * (heap1 residual).face f }

/-- `MatrixMFD::ApplyInverse(X, Y)` on explicit storage: `heap` maps addresses to vectors,
`X` is the vector at address `x` and `Y` the vector at address `y`; every read of `X` takes
what the storage holds at that moment and every assignment to `Y` changes the storage.  The
result is the storage when the call returns. -/
def ApplyInverse_heap (s : MatrixMFD) (x y : Nat) (heap : Nat → CompositeVector) :
    Except String (Nat → CompositeVector) :=
  if s.prec_method_ = Prec_method.PREC_METHOD_NULL then
    Except.error "MatrixMFD::ApplyInverse requires a specified preconditioner method"
  else
    let Tc : Vec := fun c => 1 * (heap x).cell c / s.Acc_ c
    let Tf := cfMultiplyT s.mesh_ s.Afc_ Tc
    let Tf : Vec := fun f => 1 * (heap x).face f + (-1) * Tf f
    if precSupported s.HAVE_HYPRE s.prec_method_ then
      let heap1 := Function.update heap y { heap y with face := s.prec_ApplyInverse Tf }
      let Tc := cfMultiply s.mesh_ s.Acf_ (heap1 y).face
      let Tc : Vec := fun c => 1 * (heap1 x).cell c + (-1) * Tc c
      let heap2 := Function.update heap1 y { heap1 y with cell := fun c => 1 * Tc c / s.Acc_ c }
      Except.ok heap2
    else
      Except.error "ASSERT(0)"

/-! ## DeriveFlux -/

/-- The local variables of `DeriveFlux` that its loops update: the flux values, the flags
`done`, and the record of the faces `f` at which `flux_v[0][f] = ...` was executed. -/
structure FluxState where
  flux_v : Vec
  done : Nat → Bool
  written : List Nat

/-- The body of the second loop over the local faces `n` of cell `c` in `DeriveFlux`. -/
def DeriveFlux_face (s : MatrixMFD) (nfaces_owned c : Nat) (dp : Vec) (n : Nat)
    (st : FluxState) : FluxState :=
  let nfaces := s.mesh_.nfaces c
  let f := s.mesh_.face c n
  if f < nfaces_owned && !st.done f then
    let sum : ℚ := ∑ m in range nfaces, s.Aff_cells_ c n m * dp m
    { flux_v := st.flux_v.set f (sum * (s.mesh_.dir c n : ℚ) * s.Krel_ f)
      done := Function.update st.done f true
      written := st.written ++ [f] }
  else st

/-- The body of the cell loop of `DeriveFlux`. -/
def DeriveFlux_cell (s : MatrixMFD) (solution : CompositeVector) (nfaces_owned c : Nat)
    (st : FluxState) : FluxState :=
  let nfaces := s.mesh_.nfaces c
  let dp : Vec := fun n => solution.cell c - solution.face (s.mesh_.face c n)
  forLoop nfaces (DeriveFlux_face s nfaces_owned c dp) st

/-- The state of `DeriveFlux` when its cell loop ends. -/
def DeriveFlux_loop (s : MatrixMFD) (solution : CompositeVector) : FluxState :=
  forLoop s.mesh_.ncells (DeriveFlux_cell s solution s.mesh_.nfaces_owned)
    { flux_v := fun _ => 0, done := fun _ => false, written := [] }

/-- `MatrixMFD::DeriveFlux(solution, flux)`, returning the "face" component of `flux`, or
the failed assertion. -/
def DeriveFlux (s : MatrixMFD) (solution : CompositeVector) : Except String Vec :=
  let st := DeriveFlux_loop s solution
  if ∀ f, f < s.mesh_.nfaces_owned → st.done f = true then
    Except.ok st.flux_v
  else
    Except.error "ASSERT(done[f])"

/-! ## Closed forms used in the statements -/

/-- The face multiplier `*Krel_` after `CreateMFDstiffnessMatrices(Krel)` when it was `old`
before. -/
def KrelAfter (Krel : Option KrelVector) (old : Vec) : Vec :=
  match Krel.bind (fun K => K.face) with
  | none => old
  | some k => k

/-- Local face `n` of cell `c` is marked Dirichlet. -/
def isDirichlet (mesh : Mesh) (bc_markers : Nat → Matrix_bc) (c n : Nat) : Prop :=
  bc_markers (mesh.face c n) = Matrix_bc.MATRIX_BC_DIRICHLET

instance (mesh : Mesh) (bc_markers : Nat → Matrix_bc) (c n : Nat) :
    Decidable (isDirichlet mesh bc_markers c n) := by
  unfold isDirichlet; infer_instance

/-- Local face `n` of cell `c` is flux-type with a nonzero value. -/
def isFluxNonzero (mesh : Mesh) (bc_markers : Nat → Matrix_bc) (bc_values : Vec)
    (c n : Nat) : Prop :=
  bc_markers (mesh.face c n) = Matrix_bc.MATRIX_BC_FLUX ∧ |bc_values (mesh.face c n)| > 0

instance (mesh : Mesh) (bc_markers : Nat → Matrix_bc) (bc_values : Vec) (c n : Nat) :
    Decidable (isFluxNonzero mesh bc_markers bc_values c n) := by
  unfold isFluxNonzero; infer_instance

/-- The elemental data of cell `c` after the first `k` passes of the face loop of
`ApplyBoundaryConditions`, started from `b`, written without loops. -/
def bcClosed (mesh : Mesh) (Krel_ : Vec) (bc_markers : Nat → Matrix_bc) (bc_values : Vec)
    (c k : Nat) (b : ElemBlocks) : ElemBlocks :=
  let nfaces := mesh.nfaces c
  let v : Nat → ℚ := fun n => bc_values (mesh.face c n)
  { Bff := fun i j =>
      if (i < k ∧ isDirichlet mesh bc_markers c i ∧ j < nfaces)
          ∨ (j < k ∧ isDirichlet mesh bc_markers c j ∧ i < nfaces) then
        (if i = j then 1 else 0)
      else b.Bff i j
    Bfc := fun n => if n < k ∧ isDirichlet mesh bc_markers c n then 0 else b.Bfc n
    Bcf := fun n => if n < k ∧ isDirichlet mesh bc_markers c n then 0 else b.Bcf n
    Ff := fun m =>
      if m < k ∧ isDirichlet mesh bc_markers c m then v m
      else if m < nfaces then
        b.Ff m
          - (∑ d in range k, if isDirichlet mesh bc_markers c d then b.Bff m d * v d else 0)
          - (if m < k ∧ isFluxNonzero mesh bc_markers bc_values c m then
              v m * mesh.face_area (mesh.face c m) / Krel_ (mesh.face c m) else 0)
      else b.Ff m
    Fc := b.Fc
      - ∑ d in range k, if isDirichlet mesh bc_markers c d then b.Bcf d * v d else 0 }

/-- The elemental data of cell `c` when `ApplyBoundaryConditions` has run on `s`, written
without loops. -/
def bcCell (bc_markers : Nat → Matrix_bc) (bc_values : Vec) (s : MatrixMFD) (c : Nat) :
    ElemBlocks :=
  bcClosed s.mesh_ s.Krel_ bc_markers bc_values c (s.mesh_.nfaces c) (s.blocks c)

/-- The value `s * dirs[n] * (*Krel_)[f]` that `DeriveFlux` assigns to `flux_v[0][f]` when it
writes the face `f = faces[n]` from cell `c`. -/
def fluxValue (s : MatrixMFD) (solution : CompositeVector) (c n : Nat) : ℚ :=
  (∑ m in range (s.mesh_.nfaces c),
      s.Aff_cells_ c n m * (solution.cell c - solution.face (s.mesh_.face c m)))
    * (s.mesh_.dir c n : ℚ) * s.Krel_ (s.mesh_.face c n)

/-! ## DeriveCellVelocity -/

/-- The scratch objects `matrix` and `rhs_cell` of `DeriveCellVelocity`. -/
structure LeastSquares where
  /-- The dense matrix `matrix(i, j)`. -/
  matrix : Mat
  /-- The array `rhs_cell[i]`. -/
  rhs_cell : Vec

/-- The body of the loop over `j = i + 1, ..., dim - 1` in `DeriveCellVelocity`, at its pass
number `k` (so `j = i + 1 + k`): `matrix(j,i) = matrix(i,j) += normal[i] * normal[j]`. -/
def DeriveCellVelocity_j (normal : Nat → ℚ) (i k : Nat) (t : LeastSquares) : LeastSquares :=
  let j := i + 1 + k
  let v := t.matrix i j + normal i * normal j
  { t with matrix := (t.matrix.set i j v).set j i v }

/-- The body of the loop over `i` in `DeriveCellVelocity`, for a face with normal `normal`
and flux value `flux_f`. -/
def DeriveCellVelocity_i (dim : Nat) (normal : Nat → ℚ) (flux_f : ℚ) (i : Nat)
    (t : LeastSquares) : LeastSquares :=
  let t1 : LeastSquares :=
    { t with rhs_cell := t.rhs_cell.set i (t.rhs_cell i + normal i * flux_f) }
  let t2 : LeastSquares :=
    { t1 with matrix := t1.matrix.set i i (t1.matrix i i + normal i * normal i) }
  forLoop (dim - (i + 1)) (DeriveCellVelocity_j normal i) t2

/-- The body of the loop over the faces of cell `c` in `DeriveCellVelocity` ("populate
least-square matrix"); the value `area` it reads is not used. -/
def DeriveCellVelocity_face (mesh : Mesh) (flux : CompositeVector) (c n : Nat)
    (t : LeastSquares) : LeastSquares :=
  let f := mesh.face c n
  forLoop mesh.space_dimension
    (DeriveCellVelocity_i mesh.space_dimension (mesh.face_normal f) (flux.face f)) t

/-- The objects `matrix` and `rhs_cell` that `DeriveCellVelocity` passes to `POSV` for
cell `c`. -/
def DeriveCellVelocity_system (mesh : Mesh) (flux : CompositeVector) (c : Nat) :
    LeastSquares :=
  forLoop (mesh.nfaces c) (DeriveCellVelocity_face mesh flux c)
    { matrix := fun _ _ => 0, rhs_cell := fun _ => 0 }

/-- The body of the cell loop of `DeriveCellVelocity`. The LAPACK routine
`POSV('U', dim, 1, matrix, dim, rhs_cell, dim, &info)` is the argument `POSV`: it maps
`dim`, `matrix` and `rhs_cell` to the array it leaves in `rhs_cell`; `info` is not read.
The velocity is indexed as `velocity i c` for `(*velocity)("cell", i, c)`. -/
def DeriveCellVelocity_cell (POSV : Nat → Mat → Vec → Vec) (s : MatrixMFD)
    (flux : CompositeVector) (c : Nat) (velocity : Mat) : Mat :=
  let dim := s.mesh_.space_dimension
  let t := DeriveCellVelocity_system s.mesh_ flux c
  let rhs_cell := POSV dim t.matrix t.rhs_cell
  forLoop dim (fun i v => v.set i c (rhs_cell i)) velocity

/-- `MatrixMFD::DeriveCellVelocity(flux, velocity)` -/
def DeriveCellVelocity (POSV : Nat → Mat → Vec → Vec) (s : MatrixMFD)
    (flux : CompositeVector) (velocity : Mat) : Mat :=
  forLoop s.mesh_.ncells (DeriveCellVelocity_cell POSV s flux) velocity

/-- The matrix `A` is positive definite on the first `dim` indices. -/
def PositiveDefinite (dim : Nat) (A : Mat) : Prop :=
  ∀ x : Vec, (∃ i, i < dim ∧ x i ≠ 0) →
    0 < ∑ i in range dim, ∑ j in range dim, x i * A i j * x j

/-- The contract of `POSV` in dimension `dim`: for a symmetric positive definite matrix the
array it leaves in `rhs_cell` solves the system. -/
def POSV_contract (POSV : Nat → Mat → Vec → Vec) (dim : Nat) : Prop :=
  ∀ (A : Mat) (b : Vec), (∀ i j, i < dim → j < dim → A i j = A j i) →
    PositiveDefinite dim A →
    ∀ i, i < dim → ∑ j in range dim, A i j * POSV dim A b j = b i

/-! ## Concrete configurations -/

/-- A mesh of one cell with the two faces `0` and `1`. -/
def meshOne : Mesh :=
  { ncells := 1
    nfaces_owned := 2
    cell_faces := fun c => if c = 0 then [0, 1] else []
    cell_dirs := fun c => if c = 0 then [-1, 1] else []
    face_area := fun _ => 1
    space_dimension := 1
    face_normal := fun f _ => if f = 0 then -1 else 1 }

/-- An operator on `meshOne` with unit mass blocks and nothing built yet. -/
def opOne (flag : Bool) : MatrixMFD :=
  { mesh_ := meshOne
    flag_symmetry_ := flag
    method_ := MFD_method.MFD3D_TWO_POINT_FLUX
    prec_method_ := Prec_method.TRILINOS_ILU
    Mff_cells_ := fun _ n m => if n = m then 1 else 0
    Aff_cells_ := fun _ _ _ => 0
    Afc_cells_ := fun _ _ => 0
    Acf_cells_ := fun _ _ => 0
    Acc_cells_ := fun _ => 0
    Ff_cells_ := fun _ _ => 0
    Fc_cells_ := fun _ => 0
    Aff_ := fun _ _ => 0
    Sff_ := fun _ _ => 0
    Acf_ := fun _ _ => 0
    Afc_alloc := fun _ _ => 0
    Acc_ := fun _ => 0
    rhs_cell := fun _ => 0
    rhs_face := fun _ => 0
    Krel_ := fun _ => 1
    prec_ApplyInverse := fun t => t
    HAVE_HYPRE := false }

/-- A relative conductivity with a face component only: `2` on face `0`, `3` elsewhere. -/
def krelFace : KrelVector :=
  { cell := none
    face := some (fun f => if f = 0 then 2 else 3) }

/-- The operator `opOne true` (the pointer `Afc_` is `Acf_`) after
`CreateMFDstiffnessMatrices(krelFace)`. -/
def opSym : MatrixMFD := CreateMFDstiffnessMatrices (some krelFace) (opOne true)

/-- The vector with value `1` on the cells and `0` on the faces. -/
def cellOne : CompositeVector :=
  { cell := fun _ => 1
    face := fun _ => 0 }

/-- The operator `opOne false` (a matrix of its own for `Afc_`) after
`CreateMFDstiffnessMatrices(krelFace)`. -/
def opFlux : MatrixMFD := CreateMFDstiffnessMatrices (some krelFace) (opOne false)

/-- An operator on `meshOne` whose elemental blocks are the unit stiffness blocks with an
accumulation term added to `Acc_cells_`, and whose preconditioner solves the reduced system
of these blocks exactly. -/
def opAcc : MatrixMFD :=
  { opOne false with
    Aff_cells_ := fun _ n m => if n = m then 1 else 0
    Afc_cells_ := fun _ _ => -1
    Acf_cells_ := fun _ _ => -1
    Acc_cells_ := fun _ => 4
    prec_ApplyInverse := fun t f =>
      if f = 0 then 3 / 2 * t 0 + 1 / 2 * t 1
      else if f = 1 then 1 / 2 * t 0 + 3 / 2 * t 1
      else 0 }

/-- The operator `opSym` with a preconditioner that solves its reduced system exactly on the
range of that system. -/
def opSymPrec : MatrixMFD :=
  { opSym with prec_ApplyInverse := fun t f => if f = 0 then 5 / 3 * t 0 else 0 }

/-- Boundary markers without any condition. -/
def noMarkers : Nat → Matrix_bc := fun _ => Matrix_bc.MATRIX_BC_NULL

/-- The vector with value `0` on the cells and `3`, `-2` on the faces `0`, `1`. -/
def faceData : CompositeVector :=
  { cell := fun _ => 0
    face := fun f => if f = 0 then 3 else -2 }

/-- Boundary markers with a Dirichlet condition on face `0` only. -/
def dirichletAt0 : Nat → Matrix_bc :=
  fun f => if f = 0 then Matrix_bc.MATRIX_BC_DIRICHLET else Matrix_bc.MATRIX_BC_NULL

/-- Boundary markers with a flux condition on face `1` only. -/
def fluxAt1 : Nat → Matrix_bc :=
  fun f => if f = 1 then Matrix_bc.MATRIX_BC_FLUX else Matrix_bc.MATRIX_BC_NULL

/-- Boundary values: `7` on every face. -/
def valuesSeven : Vec := fun _ => 7

/-- The constant field with value `k` on all cells and faces. -/
def constField (k : ℚ) : CompositeVector :=
  { cell := fun _ => k
    face := fun _ => k }

/-- The flags `done` and the record of the written faces agree: a face is flagged exactly
when it was written, and no face was written twice. -/
def FluxState.consistent (st : FluxState) : Prop :=
  (∀ f, st.done f = true ↔ f ∈ st.written) ∧ st.written.Nodup

/-- A mesh of two cells that share face `1`. -/
def meshTwo : Mesh :=
  { ncells := 2
    nfaces_owned := 3
    cell_faces := fun c => if c = 0 then [0, 1] else if c = 1 then [1, 2] else []
    cell_dirs := fun c => if c = 0 then [-1, 1] else if c = 1 then [-1, 1] else []
    face_area := fun _ => 1
    space_dimension := 1
    face_normal := fun _ _ => 1 }

/-- An operator on `meshTwo` with unit elemental blocks. -/
def opTwo : MatrixMFD :=
  { opOne false with
    mesh_ := meshTwo
    Aff_cells_ := fun _ n m => if n = m then 1 else 0 }

/-- An operator on `meshOne` whose mass block has off-diagonal entries, with the stiffness
blocks built without relative conductivity. -/
def opDense : MatrixMFD :=
  CreateMFDstiffnessMatrices none
    { opOne false with Mff_cells_ := fun _ n m => if n = m then 2 else 1 }

/-- A relative conductivity with a cell component only, zero on every cell. -/
def krelCellZero : KrelVector :=
  { cell := some (fun _ => 0)
    face := none }

/-- Boundary markers with a Dirichlet condition on every face. -/
def dirichletAll : Nat → Matrix_bc := fun _ => Matrix_bc.MATRIX_BC_DIRICHLET

/-- The operator on `meshOne` with zero relative conductivity in its cell, a Dirichlet
condition on both faces, after assembly: its cell entry `Acc` is zero. -/
def opFrozen : MatrixMFD :=
  AssembleGlobalMatrices (ApplyBoundaryConditions dirichletAll valuesSeven
    (CreateMFDstiffnessMatrices (some krelCellZero) (opOne false)))

/-- The operator `opFlux` (built with the face relative conductivity `krelFace`) after a
second call `CreateMFDstiffnessMatrices(Teuchos::null)`. -/
def opStale : MatrixMFD := CreateMFDstiffnessMatrices none opFlux

/-- A mesh of one cell on a line with the single face `0`, of area `2`, whose normal has
length `2`. -/
def meshLine : Mesh :=
  { ncells := 1
    nfaces_owned := 1
    cell_faces := fun c => if c = 0 then [0] else []
    cell_dirs := fun c => if c = 0 then [1] else []
    face_area := fun _ => 2
    space_dimension := 1
    face_normal := fun _ _ => 2 }

/-- An operator on `meshLine`. -/
def opLine : MatrixMFD := { opOne false with mesh_ := meshLine }

/-- The exact solver of a system of one equation: `x[0] = b[0] / A(0,0)`. -/
def posvOne : Nat → Mat → Vec → Vec := fun _ A b i => if i = 0 then b 0 / A 0 0 else b i

/-- The flux with value `4` on every face. -/
def fluxFour : CompositeVector :=
  { cell := fun _ => 0
    face := fun _ => 4 }

/-- Boundary markers with a Dirichlet condition on face `0` and a flux condition on every
other face. -/
def dirichletFlux : Nat → Matrix_bc :=
  fun f => if f = 0 then Matrix_bc.MATRIX_BC_DIRICHLET else Matrix_bc.MATRIX_BC_FLUX

/-- Boundary values: `7` on face `0` and `0` on every other face. -/
def valuesAt0 : Vec := fun f => if f = 0 then 7 else 0

/-- The face vector with value `1` on face `0` and `0` on every other face. -/
def unitFace0 : Vec := fun f => if f = 0 then 1 else 0

/-- A storage with `faceData` at address `0` and `cellOne` at every other address. -/
def heapData : Nat → CompositeVector := fun a => if a = 0 then faceData else cellOne

/-! # Theorems -/

section Loops

@[simp] theorem vecSet_apply (v : Vec) (i : Nat) (x : ℚ) (k : Nat) :
    v.set i x k = if k = i then x else v k := rfl

@[simp] theorem matSet_apply (A : Mat) (i j : Nat) (x : ℚ) (a b : Nat) :
    A.set i j x a b = if a = i ∧ b = j then x else A a b := rfl

theorem forLoop_zero {σ : Type} (body : Nat → σ → σ) (s : σ) : forLoop 0 body s = s := rfl

theorem forLoop_succ {σ : Type} (k : Nat) (body : Nat → σ → σ) (s : σ) :
    forLoop (k + 1) body s = body k (forLoop k body s) := rfl

/-- Two loops whose bodies agree on the indices below the bound agree. -/
theorem forLoop_congr {σ : Type} (n : Nat) (body1 body2 : Nat → σ → σ)
    (h : ∀ i, i < n → ∀ t, body1 i t = body2 i t) (s : σ) :
    forLoop n body1 s = forLoop n body2 s := by
  induction n with
  | zero => rfl
  | succ k ih =>
    rw [forLoop_succ, forLoop_succ, ih (fun i hi t => h i (Nat.lt_succ_of_lt hi) t),
      h k (Nat.lt_succ_self k)]


end Loops

section Stiffness

/-- The cell loop of `CreateMFDstiffnessMatrices` after `k` passes. -/
theorem CreateMFDstiffnessMatrices_loop (Krel_cell Krel_face : Option Vec) (s : MatrixMFD)
    (k : Nat) :
    forLoop k (CreateMFDstiffnessMatrices_cell Krel_cell Krel_face) s =
      { s with
        Aff_cells_ := fun c =>
          if c < k then stiffnessBff Krel_cell (s.Mff_cells_ c) c else s.Aff_cells_ c
        Afc_cells_ := fun c =>
          if c < k then
            fun n => -stiffnessRowsum s.mesh_ c (stiffnessBff Krel_cell (s.Mff_cells_ c) c) n
          else s.Afc_cells_ c
        Acf_cells_ := fun c =>
          if c < k then
            fun n => -stiffnessColsum Krel_face s.mesh_ c
              (stiffnessBff Krel_cell (s.Mff_cells_ c) c) n
          else s.Acf_cells_ c
        Acc_cells_ := fun c =>
          if c < k then
            ∑ n in range (s.mesh_.nfaces c), stiffnessColsum Krel_face s.mesh_ c
              (stiffnessBff Krel_cell (s.Mff_cells_ c) c) n
          else s.Acc_cells_ c } := by
  induction k with
  | zero => simp [forLoop]
  | succ k ih =>
    rw [forLoop_succ, ih]
    unfold CreateMFDstiffnessMatrices_cell
    have hlt : ∀ c, c ≠ k → (c < k + 1 ↔ c < k) := fun c h => by omega
    simp only
    congr 1 <;> funext c <;> by_cases hck : c = k
    all_goals first
      | (subst hck; simp)
      | (simp [Function.update_apply, hck, hlt c hck])

/-- `CreateMFDstiffnessMatrices` written without loops. -/
theorem CreateMFDstiffnessMatrices_eq (Krel : Option KrelVector) (s : MatrixMFD) :
    CreateMFDstiffnessMatrices Krel s =
      { s with
        Krel_ := KrelAfter Krel s.Krel_
        Aff_cells_ := fun c =>
          if c < s.mesh_.ncells then
            stiffnessBff (Krel.bind (fun K => K.cell)) (s.Mff_cells_ c) c
          else 0
        Afc_cells_ := fun c =>
          if c < s.mesh_.ncells then
            fun n => -stiffnessRowsum s.mesh_ c
              (stiffnessBff (Krel.bind (fun K => K.cell)) (s.Mff_cells_ c) c) n
          else 0
        Acf_cells_ := fun c =>
          if c < s.mesh_.ncells then
            fun n => -stiffnessColsum (Krel.bind (fun K => K.face)) s.mesh_ c
              (stiffnessBff (Krel.bind (fun K => K.cell)) (s.Mff_cells_ c) c) n
          else 0
        Acc_cells_ := fun c =>
          if c < s.mesh_.ncells then
            ∑ n in range (s.mesh_.nfaces c),
              stiffnessColsum (Krel.bind (fun K => K.face)) s.mesh_ c
                (stiffnessBff (Krel.bind (fun K => K.cell)) (s.Mff_cells_ c) c) n
          else 0 } := by
  unfold CreateMFDstiffnessMatrices KrelAfter
  simp only [CreateMFDstiffnessMatrices_loop]
  cases h : Krel.bind (fun K => K.face) <;> rfl

theorem CreateMFDstiffnessMatrices_mesh (Krel : Option KrelVector) (s : MatrixMFD) :
    (CreateMFDstiffnessMatrices Krel s).mesh_ = s.mesh_ := by
  rw [CreateMFDstiffnessMatrices_eq]

theorem CreateMFDstiffnessMatrices_flag (Krel : Option KrelVector) (s : MatrixMFD) :
    (CreateMFDstiffnessMatrices Krel s).flag_symmetry_ = s.flag_symmetry_ := by
  rw [CreateMFDstiffnessMatrices_eq]

theorem CreateMFDstiffnessMatrices_Aff_cells (Krel : Option KrelVector) (s : MatrixMFD)
    (c : Nat) (hc : c < s.mesh_.ncells) :
    (CreateMFDstiffnessMatrices Krel s).Aff_cells_ c =
      stiffnessBff (Krel.bind (fun K => K.cell)) (s.Mff_cells_ c) c := by
  rw [CreateMFDstiffnessMatrices_eq]
  simp only [if_pos hc]

theorem CreateMFDstiffnessMatrices_Afc_cells (Krel : Option KrelVector) (s : MatrixMFD)
    (c : Nat) (hc : c < s.mesh_.ncells) (n : Nat) :
    (CreateMFDstiffnessMatrices Krel s).Afc_cells_ c n =
      -stiffnessRowsum s.mesh_ c
        (stiffnessBff (Krel.bind (fun K => K.cell)) (s.Mff_cells_ c) c) n := by
  rw [CreateMFDstiffnessMatrices_eq]
  simp only [if_pos hc]

theorem CreateMFDstiffnessMatrices_Acf_cells (Krel : Option KrelVector) (s : MatrixMFD)
    (c : Nat) (hc : c < s.mesh_.ncells) (n : Nat) :
    (CreateMFDstiffnessMatrices Krel s).Acf_cells_ c n =
      -stiffnessColsum (Krel.bind (fun K => K.face)) s.mesh_ c
        (stiffnessBff (Krel.bind (fun K => K.cell)) (s.Mff_cells_ c) c) n := by
  rw [CreateMFDstiffnessMatrices_eq]
  simp only [if_pos hc]

theorem CreateMFDstiffnessMatrices_Acc_cells (Krel : Option KrelVector) (s : MatrixMFD)
    (c : Nat) (hc : c < s.mesh_.ncells) :
    (CreateMFDstiffnessMatrices Krel s).Acc_cells_ c =
      ∑ n in range (s.mesh_.nfaces c),
        stiffnessColsum (Krel.bind (fun K => K.face)) s.mesh_ c
          (stiffnessBff (Krel.bind (fun K => K.cell)) (s.Mff_cells_ c) c) n := by
  rw [CreateMFDstiffnessMatrices_eq]
  simp only [if_pos hc]

end Stiffness

section BoundaryConditions

variable (mesh : Mesh) (Krel_ : Vec) (bc_markers : Nat → Matrix_bc) (bc_values : Vec)

/-- The inner loop of a Dirichlet face after `j` passes. -/
theorem bcDirichletInner_loop (n : Nat) (v : ℚ) (b : ElemBlocks) (j : Nat) :
    forLoop j (bcDirichletInner n v) b =
      { b with
        Bff := fun i l => if (i = n ∧ l < j) ∨ (l = n ∧ i < j) then 0 else b.Bff i l
        Ff := fun m => if m < j then b.Ff m - b.Bff m n * v else b.Ff m } := by
  induction j with
  | zero => simp [forLoop]
  | succ j ih =>
    rw [forLoop_succ, ih]
    unfold bcDirichletInner
    congr 1
    · funext i l
      simp only [matSet_apply]
      split_ifs <;> first | rfl | (exfalso; omega)
    · funext m
      simp only [vecSet_apply]
      by_cases hm : m = j
      · subst hm
        simp only [if_true, lt_irrefl, and_false, or_false, if_false, Nat.lt_succ_self]
        rw [if_neg (by omega)]
      · rw [if_neg hm]
        split_ifs <;> first | rfl | (exfalso; omega)


theorem lt_succ_and_iff_of_not {D : Nat → Prop} {k : Nat} (hk : ¬ D k) (i : Nat) :
    (i < k + 1 ∧ D i) ↔ (i < k ∧ D i) := by
  constructor
  · rintro ⟨h1, h2⟩
    refine ⟨?_, h2⟩
    rcases Nat.lt_succ_iff_lt_or_eq.mp h1 with h | h
    · exact h
    · subst h; exact absurd h2 hk
  · rintro ⟨h1, h2⟩
    exact ⟨Nat.lt_succ_of_lt h1, h2⟩

theorem lt_succ_and_iff_of {D : Nat → Prop} {k : Nat} (hk : D k) (i : Nat) :
    (i < k + 1 ∧ D i) ↔ ((i < k ∧ D i) ∨ i = k) := by
  constructor
  · rintro ⟨h1, h2⟩
    rcases Nat.lt_succ_iff_lt_or_eq.mp h1 with h | h
    · exact Or.inl ⟨h, h2⟩
    · exact Or.inr h
  · rintro (⟨h1, h2⟩ | h)
    · exact ⟨Nat.lt_succ_of_lt h1, h2⟩
    · subst h; exact ⟨Nat.lt_succ_self _, hk⟩

/-- A pass of the face loop at a face that is not Dirichlet leaves the closed form of the
matrix data as it is. -/
theorem bcClosed_succ_of_not_dirichlet (c k : Nat) (b : ElemBlocks)
    (hD : ¬ isDirichlet mesh bc_markers c k) :
    (bcClosed mesh Krel_ bc_markers bc_values c (k + 1) b).Bff
        = (bcClosed mesh Krel_ bc_markers bc_values c k b).Bff
      ∧ (bcClosed mesh Krel_ bc_markers bc_values c (k + 1) b).Bfc
        = (bcClosed mesh Krel_ bc_markers bc_values c k b).Bfc
      ∧ (bcClosed mesh Krel_ bc_markers bc_values c (k + 1) b).Bcf
        = (bcClosed mesh Krel_ bc_markers bc_values c k b).Bcf
      ∧ (bcClosed mesh Krel_ bc_markers bc_values c (k + 1) b).Fc
        = (bcClosed mesh Krel_ bc_markers bc_values c k b).Fc := by
  have e := fun i => lt_succ_and_iff_of_not (D := isDirichlet mesh bc_markers c) hD i
  have e3 : ∀ i j, (i < k + 1 ∧ isDirichlet mesh bc_markers c i ∧ j < mesh.nfaces c)
      ↔ (i < k ∧ isDirichlet mesh bc_markers c i ∧ j < mesh.nfaces c) := by
    intro i j
    rw [← and_assoc, ← and_assoc, e i]
  refine ⟨?_, ?_, ?_, ?_⟩
  · funext i j
    simp only [bcClosed, e3]
  · funext n
    simp only [bcClosed, e n]
  · funext n
    simp only [bcClosed, e n]
  · simp only [bcClosed, Finset.sum_range_succ, if_neg hD, add_zero]


/-- The face loop of `ApplyBoundaryConditions` on one cell, after `k` passes, is the closed
form `bcClosed`. -/
theorem bcFace_loop (c : Nat) (b : ElemBlocks) (k : Nat) (hk : k ≤ mesh.nfaces c) :
    forLoop k (bcFace mesh Krel_ bc_markers bc_values c) b
      = bcClosed mesh Krel_ bc_markers bc_values c k b := by
  induction k with
  | zero =>
    simp [forLoop, bcClosed]
  | succ k ih =>
    have hk1 : k < mesh.nfaces c := hk
    rw [forLoop_succ, ih (Nat.le_of_lt hk1)]
    by_cases hD : isDirichlet mesh bc_markers c k
    · -- Dirichlet face
      have hD1 : bc_markers (mesh.face c k) = Matrix_bc.MATRIX_BC_DIRICHLET := hD
      have e := fun i => lt_succ_and_iff_of (D := isDirichlet mesh bc_markers c) hD i
      unfold bcFace
      rw [if_pos hD1]
      simp only [bcDirichletInner_loop]
      apply ElemBlocks.ext
      · funext i j
        simp only [bcClosed, matSet_apply]
        have ei : (i < k + 1 ∧ isDirichlet mesh bc_markers c i ∧ j < mesh.nfaces c)
            ↔ (((i < k ∧ isDirichlet mesh bc_markers c i) ∨ i = k) ∧ j < mesh.nfaces c) := by
          rw [← and_assoc, e i]
        have ej : (j < k + 1 ∧ isDirichlet mesh bc_markers c j ∧ i < mesh.nfaces c)
            ↔ (((j < k ∧ isDirichlet mesh bc_markers c j) ∨ j = k) ∧ i < mesh.nfaces c) := by
          rw [← and_assoc, e j]
        simp only [ei, ej]
        by_cases hi : i = k <;> by_cases hj : j = k
        · subst hi; subst hj
          simp [hk1]
        · subst hi
          have hj2 : ¬ i = j := fun h => hj h.symm
          by_cases hjn : j < mesh.nfaces c
          · simp [hj, hj2, hjn, hk1]
          · have : ¬ j < i := by omega
            simp [hj, hj2, hjn, this]
        · subst hj
          by_cases hin : i < mesh.nfaces c
          · simp [hi, hin, hk1]
          · have : ¬ i < j := by omega
            simp [hi, hin, this]
        · simp [hi, hj, and_assoc]
      · funext n
        simp only [bcClosed, vecSet_apply, e n]
        by_cases hn : n = k
        · simp [hn]
        · simp [hn]
      · funext n
        simp only [bcClosed, vecSet_apply, e n]
        by_cases hn : n = k
        · simp [hn]
        · simp [hn]
      · funext m
        simp only [bcClosed, vecSet_apply, e m, Finset.sum_range_succ, if_pos hD]
        by_cases hm : m = k
        · simp [hm]
        · have hmk : (m < k + 1 ∧ isFluxNonzero mesh bc_markers bc_values c m)
              ↔ (m < k ∧ isFluxNonzero mesh bc_markers bc_values c m) := by
            constructor
            · rintro ⟨h1, h2⟩; exact ⟨by omega, h2⟩
            · rintro ⟨h1, h2⟩; exact ⟨by omega, h2⟩
          simp only [if_neg hm, hmk]
          by_cases hmn : m < mesh.nfaces c
          · by_cases hmD : m < k ∧ isDirichlet mesh bc_markers c m
            · have h3 : m < k ∧ isDirichlet mesh bc_markers c m ∧ k < mesh.nfaces c :=
                ⟨hmD.1, hmD.2, hk1⟩
              simp only [hmn, hmD, h3, hm, if_true, if_false, true_or, zero_mul, sub_zero,
                and_self, or_false]
            · have h3 : ¬ (m < k ∧ isDirichlet mesh bc_markers c m ∧ k < mesh.nfaces c) :=
                fun h => hmD ⟨h.1, h.2.1⟩
              simp only [hmn, hmD, h3, hm, if_true, if_false, lt_irrefl, false_and, or_false,
                false_or, and_false]
              ring
          · have : ¬ m < k := by omega
            simp [hmn, this, hm]
      · simp only [bcClosed, Finset.sum_range_succ, if_pos hD, lt_irrefl, false_and, if_false]
        ring
    · -- not a Dirichlet face
      have hD1 : ¬ bc_markers (mesh.face c k) = Matrix_bc.MATRIX_BC_DIRICHLET := hD
      obtain ⟨e1, e2, e3, e4⟩ :=
        bcClosed_succ_of_not_dirichlet mesh Krel_ bc_markers bc_values c k b hD
      have hmk : ∀ m, m ≠ k →
          ((m < k + 1 ∧ isFluxNonzero mesh bc_markers bc_values c m)
            ↔ (m < k ∧ isFluxNonzero mesh bc_markers bc_values c m)) := by
        intro m hm
        constructor
        · rintro ⟨h1, h2⟩; exact ⟨by omega, h2⟩
        · rintro ⟨h1, h2⟩; exact ⟨by omega, h2⟩
      have hFf : ∀ m, m ≠ k →
          (bcClosed mesh Krel_ bc_markers bc_values c (k + 1) b).Ff m
            = (bcClosed mesh Krel_ bc_markers bc_values c k b).Ff m := by
        intro m hm
        simp only [bcClosed, Finset.sum_range_succ, if_neg hD, add_zero,
          lt_succ_and_iff_of_not (D := isDirichlet mesh bc_markers c) hD m, hmk m hm]
      have hFk : (bcClosed mesh Krel_ bc_markers bc_values c (k + 1) b).Ff k
            = (bcClosed mesh Krel_ bc_markers bc_values c k b).Ff k
              - (if isFluxNonzero mesh bc_markers bc_values c k then
                  bc_values (mesh.face c k) * mesh.face_area (mesh.face c k)
                    / Krel_ (mesh.face c k) else 0) := by
        simp only [bcClosed, Finset.sum_range_succ, if_neg hD, add_zero, and_false, if_false,
          if_pos hk1, lt_irrefl, false_and, Nat.lt_succ_self, true_and, sub_zero]
      unfold bcFace
      rw [if_neg hD1]
      by_cases hF : isFluxNonzero mesh bc_markers bc_values c k
      · rw [if_pos hF.1, if_pos hF.2]
        apply ElemBlocks.ext
        · exact e1.symm
        · exact e2.symm
        · exact e3.symm
        · funext m
          by_cases hm : m = k
          · subst hm
            rw [hFk, if_pos hF]
            simp only [vecSet_apply, if_true]
          · rw [hFf m hm]
            simp only [vecSet_apply, if_neg hm]
        · exact e4.symm
      · have hb : (if bc_markers (mesh.face c k) = Matrix_bc.MATRIX_BC_FLUX then
              if |bc_values (mesh.face c k)| > 0 then
                { bcClosed mesh Krel_ bc_markers bc_values c k b with
                  Ff := (bcClosed mesh Krel_ bc_markers bc_values c k b).Ff.set k
                    ((bcClosed mesh Krel_ bc_markers bc_values c k b).Ff k
                      - bc_values (mesh.face c k) * mesh.face_area (mesh.face c k)
                        / Krel_ (mesh.face c k)) }
              else bcClosed mesh Krel_ bc_markers bc_values c k b
            else bcClosed mesh Krel_ bc_markers bc_values c k b)
            = bcClosed mesh Krel_ bc_markers bc_values c k b := by
          split_ifs with h1 h2
          · exact absurd ⟨h1, h2⟩ hF
          · rfl
          · rfl
        rw [hb]
        apply ElemBlocks.ext
        · exact e1.symm
        · exact e2.symm
        · exact e3.symm
        · funext m
          by_cases hm : m = k
          · subst hm
            rw [hFk, if_neg hF, sub_zero]
          · rw [hFf m hm]
        · exact e4.symm


/-- The cell loop of `ApplyBoundaryConditions` after `k` passes: the cells below `k` hold
the closed form, everything else is as before. -/
theorem ApplyBoundaryConditions_loop (s : MatrixMFD) (k : Nat) :
    forLoop k (ApplyBoundaryConditions_cell bc_markers bc_values) s =
      { s with
        Aff_cells_ := fun c =>
          if c < k then (bcCell bc_markers bc_values s c).Bff else s.Aff_cells_ c
        Afc_cells_ := fun c =>
          if c < k then (bcCell bc_markers bc_values s c).Bfc else s.Afc_cells_ c
        Acf_cells_ := fun c =>
          if c < k then (bcCell bc_markers bc_values s c).Bcf else s.Acf_cells_ c
        Ff_cells_ := fun c =>
          if c < k then (bcCell bc_markers bc_values s c).Ff else s.Ff_cells_ c
        Fc_cells_ := fun c =>
          if c < k then (bcCell bc_markers bc_values s c).Fc else s.Fc_cells_ c } := by
  induction k with
  | zero => simp [forLoop]
  | succ k ih =>
    rw [forLoop_succ, ih]
    unfold ApplyBoundaryConditions_cell
    simp only [MatrixMFD.blocks, lt_irrefl, if_false, bcFace_loop _ _ _ _ _ _ _ (le_refl _),
      bcCell]
    have hlt : ∀ c, c ≠ k → (c < k + 1 ↔ c < k) := fun c h => by omega
    congr 1 <;> funext c <;> by_cases hck : c = k
    all_goals first
      | (subst hck; simp)
      | (simp [Function.update_apply, hck, hlt c hck])

/-- `ApplyBoundaryConditions` written without loops. -/
theorem ApplyBoundaryConditions_eq (s : MatrixMFD) :
    ApplyBoundaryConditions bc_markers bc_values s =
      { s with
        Aff_cells_ := fun c =>
          if c < s.mesh_.ncells then (bcCell bc_markers bc_values s c).Bff
          else s.Aff_cells_ c
        Afc_cells_ := fun c =>
          if c < s.mesh_.ncells then (bcCell bc_markers bc_values s c).Bfc
          else s.Afc_cells_ c
        Acf_cells_ := fun c =>
          if c < s.mesh_.ncells then (bcCell bc_markers bc_values s c).Bcf
          else s.Acf_cells_ c
        Ff_cells_ := fun c =>
          if c < s.mesh_.ncells then (bcCell bc_markers bc_values s c).Ff
          else s.Ff_cells_ c
        Fc_cells_ := fun c =>
          if c < s.mesh_.ncells then (bcCell bc_markers bc_values s c).Fc
          else s.Fc_cells_ c } :=
  ApplyBoundaryConditions_loop bc_markers bc_values s s.mesh_.ncells


theorem ApplyBoundaryConditions_mesh (s : MatrixMFD) :
    (ApplyBoundaryConditions bc_markers bc_values s).mesh_ = s.mesh_ := by
  rw [ApplyBoundaryConditions_eq]

theorem ApplyBoundaryConditions_flag (s : MatrixMFD) :
    (ApplyBoundaryConditions bc_markers bc_values s).flag_symmetry_ = s.flag_symmetry_ := by
  rw [ApplyBoundaryConditions_eq]

theorem ApplyBoundaryConditions_Acc_cells (s : MatrixMFD) :
    (ApplyBoundaryConditions bc_markers bc_values s).Acc_cells_ = s.Acc_cells_ := by
  rw [ApplyBoundaryConditions_eq]

theorem ApplyBoundaryConditions_Krel (s : MatrixMFD) :
    (ApplyBoundaryConditions bc_markers bc_values s).Krel_ = s.Krel_ := by
  rw [ApplyBoundaryConditions_eq]

theorem ApplyBoundaryConditions_blocks (s : MatrixMFD) (c : Nat) (hc : c < s.mesh_.ncells) :
    (ApplyBoundaryConditions bc_markers bc_values s).blocks c
      = bcCell bc_markers bc_values s c := by
  rw [ApplyBoundaryConditions_eq]
  simp only [MatrixMFD.blocks, if_pos hc]

theorem ApplyBoundaryConditions_Aff_cells (s : MatrixMFD) (c : Nat) (hc : c < s.mesh_.ncells) :
    (ApplyBoundaryConditions bc_markers bc_values s).Aff_cells_ c
      = (bcCell bc_markers bc_values s c).Bff :=
  congrArg ElemBlocks.Bff (ApplyBoundaryConditions_blocks bc_markers bc_values s c hc)

theorem ApplyBoundaryConditions_Afc_cells (s : MatrixMFD) (c : Nat) (hc : c < s.mesh_.ncells) :
    (ApplyBoundaryConditions bc_markers bc_values s).Afc_cells_ c
      = (bcCell bc_markers bc_values s c).Bfc :=
  congrArg ElemBlocks.Bfc (ApplyBoundaryConditions_blocks bc_markers bc_values s c hc)

theorem ApplyBoundaryConditions_Acf_cells (s : MatrixMFD) (c : Nat) (hc : c < s.mesh_.ncells) :
    (ApplyBoundaryConditions bc_markers bc_values s).Acf_cells_ c
      = (bcCell bc_markers bc_values s c).Bcf :=
  congrArg ElemBlocks.Bcf (ApplyBoundaryConditions_blocks bc_markers bc_values s c hc)

theorem ApplyBoundaryConditions_Ff_cells (s : MatrixMFD) (c : Nat) (hc : c < s.mesh_.ncells) :
    (ApplyBoundaryConditions bc_markers bc_values s).Ff_cells_ c
      = (bcCell bc_markers bc_values s c).Ff :=
  congrArg ElemBlocks.Ff (ApplyBoundaryConditions_blocks bc_markers bc_values s c hc)

theorem ApplyBoundaryConditions_Fc_cells (s : MatrixMFD) (c : Nat) (hc : c < s.mesh_.ncells) :
    (ApplyBoundaryConditions bc_markers bc_values s).Fc_cells_ c
      = (bcCell bc_markers bc_values s c).Fc :=
  congrArg ElemBlocks.Fc (ApplyBoundaryConditions_blocks bc_markers bc_values s c hc)

/-- Entry `(i, j)` of the face-face block of cell `c` after `ApplyBoundaryConditions`. -/
theorem bcCell_Bff (s : MatrixMFD) (c i j : Nat) (hi : i < s.mesh_.nfaces c)
    (hj : j < s.mesh_.nfaces c) :
    (bcCell bc_markers bc_values s c).Bff i j =
      if isDirichlet s.mesh_ bc_markers c i ∨ isDirichlet s.mesh_ bc_markers c j then
        (if i = j then 1 else 0)
      else s.Aff_cells_ c i j := by
  simp only [bcCell, bcClosed, hi, hj, true_and, and_true, MatrixMFD.blocks]

/-- Entry `n` of the cell-coupling vectors of cell `c` after `ApplyBoundaryConditions`. -/
theorem bcCell_Bcf (s : MatrixMFD) (c n : Nat) (hn : n < s.mesh_.nfaces c) :
    (bcCell bc_markers bc_values s c).Bcf n =
        (if isDirichlet s.mesh_ bc_markers c n then 0 else s.Acf_cells_ c n)
      ∧ (bcCell bc_markers bc_values s c).Bfc n =
        (if isDirichlet s.mesh_ bc_markers c n then 0 else s.Afc_cells_ c n) := by
  simp only [bcCell, bcClosed, hn, true_and, MatrixMFD.blocks, and_self]

/-- Entry `m` of the load vector of cell `c` after `ApplyBoundaryConditions`. -/
theorem bcCell_Ff (s : MatrixMFD) (c m : Nat) (hm : m < s.mesh_.nfaces c) :
    (bcCell bc_markers bc_values s c).Ff m =
      if isDirichlet s.mesh_ bc_markers c m then bc_values (s.mesh_.face c m)
      else
        s.Ff_cells_ c m
          - (∑ d in range (s.mesh_.nfaces c),
              if isDirichlet s.mesh_ bc_markers c d then
                s.Aff_cells_ c m d * bc_values (s.mesh_.face c d) else 0)
          - (if isFluxNonzero s.mesh_ bc_markers bc_values c m then
              bc_values (s.mesh_.face c m) * s.mesh_.face_area (s.mesh_.face c m)
                / s.Krel_ (s.mesh_.face c m) else 0) := by
  simp only [bcCell, bcClosed, hm, true_and, MatrixMFD.blocks, if_true]

/-- The cell load of cell `c` after `ApplyBoundaryConditions`. -/
theorem bcCell_Fc (s : MatrixMFD) (c : Nat) :
    (bcCell bc_markers bc_values s c).Fc =
      s.Fc_cells_ c
        - ∑ d in range (s.mesh_.nfaces c),
            if isDirichlet s.mesh_ bc_markers c d then
              s.Acf_cells_ c d * bc_values (s.mesh_.face c d) else 0 := by
  simp only [bcCell, bcClosed, MatrixMFD.blocks]

/-- `ApplyBoundaryConditions` leaves the face-face block of a cell without Dirichlet faces
as it is. -/
theorem ApplyBoundaryConditions_Aff_cells_of_no_dirichlet (s : MatrixMFD) (c : Nat)
    (hc : c < s.mesh_.ncells)
    (hnoD : ∀ n, n < s.mesh_.nfaces c →
      bc_markers (s.mesh_.face c n) ≠ Matrix_bc.MATRIX_BC_DIRICHLET) :
    (ApplyBoundaryConditions bc_markers bc_values s).Aff_cells_ c = s.Aff_cells_ c := by
  rw [ApplyBoundaryConditions_Aff_cells _ _ s c hc]
  have hD3 : ∀ i j, ¬ ((i < s.mesh_.nfaces c ∧ isDirichlet s.mesh_ bc_markers c i
        ∧ j < s.mesh_.nfaces c)
      ∨ (j < s.mesh_.nfaces c ∧ isDirichlet s.mesh_ bc_markers c j
        ∧ i < s.mesh_.nfaces c)) := by
    rintro i j (⟨h1, h2, _⟩ | ⟨h1, h2, _⟩)
    · exact hnoD i h1 h2
    · exact hnoD j h1 h2
  funext i j
  simp only [bcCell, bcClosed, hD3, if_false, MatrixMFD.blocks]


end BoundaryConditions

section BoundaryIdempotence

/-- The closed form of the face loop of `ApplyBoundaryConditions`, applied to its own result,
gives that result again when no flux-type face of the cell carries a nonzero value. -/
theorem bcClosed_idem (mesh : Mesh) (Krel_ : Vec) (bc_markers : Nat → Matrix_bc)
    (bc_values : Vec) (c : Nat) (b : ElemBlocks)
    (hflux : ∀ n, n < mesh.nfaces c → ¬ isFluxNonzero mesh bc_markers bc_values c n) :
    bcClosed mesh Krel_ bc_markers bc_values c (mesh.nfaces c)
        (bcClosed mesh Krel_ bc_markers bc_values c (mesh.nfaces c) b)
      = bcClosed mesh Krel_ bc_markers bc_values c (mesh.nfaces c) b := by
  ext
  · rename_i i j
    simp only [bcClosed]
    split_ifs <;> rfl
  · rename_i n
    simp only [bcClosed]
    split_ifs <;> rfl
  · rename_i n
    simp only [bcClosed]
    split_ifs <;> rfl
  · rename_i m
    simp only [bcClosed]
    by_cases hD : m < mesh.nfaces c ∧ isDirichlet mesh bc_markers c m
    · rw [if_pos hD, if_pos hD]
    · rw [if_neg hD, if_neg hD]
      by_cases hm : m < mesh.nfaces c
      · rw [if_pos hm, if_pos hm]
        have hnD : ¬ isDirichlet mesh bc_markers c m := fun h => hD ⟨hm, h⟩
        have hF : ¬ (m < mesh.nfaces c ∧ isFluxNonzero mesh bc_markers bc_values c m) :=
          fun h => hflux m hm h.2
        have hsum : (∑ d in range (mesh.nfaces c),
            if isDirichlet mesh bc_markers c d then
              (if (m < mesh.nfaces c ∧ isDirichlet mesh bc_markers c m ∧ d < mesh.nfaces c)
                  ∨ (d < mesh.nfaces c ∧ isDirichlet mesh bc_markers c d
                    ∧ m < mesh.nfaces c) then
                (if m = d then (1 : ℚ) else 0)
              else b.Bff m d) * bc_values (mesh.face c d)
            else 0) = 0 := by
          apply Finset.sum_eq_zero
          intro d hd
          have hd1 : d < mesh.nfaces c := Finset.mem_range.mp hd
          by_cases hDd : isDirichlet mesh bc_markers c d
          · have hne : m ≠ d := fun e => hnD (e ▸ hDd)
            rw [if_pos hDd, if_pos (Or.inr ⟨hd1, hDd, hm⟩), if_neg hne, zero_mul]
          · rw [if_neg hDd]
        rw [hsum, if_neg hF]
        ring
      · rw [if_neg hm, if_neg hm]
  · simp only [bcClosed]
    have hsum : (∑ d in range (mesh.nfaces c),
        if isDirichlet mesh bc_markers c d then
          (if d < mesh.nfaces c ∧ isDirichlet mesh bc_markers c d then (0 : ℚ)
            else b.Bcf d) * bc_values (mesh.face c d)
        else 0) = 0 := by
      apply Finset.sum_eq_zero
      intro d hd
      have hd1 : d < mesh.nfaces c := Finset.mem_range.mp hd
      by_cases hDd : isDirichlet mesh bc_markers c d
      · rw [if_pos hDd, if_pos ⟨hd1, hDd⟩, zero_mul]
      · rw [if_neg hDd]
    rw [hsum, sub_zero]

/-- The elemental data of an owned cell after a second `ApplyBoundaryConditions` is the data
after the first, when no flux-type face of the cell carries a nonzero value. -/
theorem bcCell_idem (bc_markers : Nat → Matrix_bc) (bc_values : Vec) (s : MatrixMFD)
    (c : Nat) (hc : c < s.mesh_.ncells)
    (hflux : ∀ n, n < s.mesh_.nfaces c →
      ¬ isFluxNonzero s.mesh_ bc_markers bc_values c n) :
    bcCell bc_markers bc_values (ApplyBoundaryConditions bc_markers bc_values s) c
      = bcCell bc_markers bc_values s c := by
  unfold bcCell
  rw [ApplyBoundaryConditions_blocks bc_markers bc_values s c hc,
    ApplyBoundaryConditions_mesh, ApplyBoundaryConditions_Krel]
  exact bcClosed_idem s.mesh_ s.Krel_ bc_markers bc_values c (s.blocks c) hflux

/-- A second `ApplyBoundaryConditions` with the same markers and values changes nothing
when no flux-type face of an owned cell carries a nonzero value. -/
theorem ApplyBoundaryConditions_idem (bc_markers : Nat → Matrix_bc) (bc_values : Vec)
    (s : MatrixMFD)
    (hflux : ∀ c, c < s.mesh_.ncells → ∀ n, n < s.mesh_.nfaces c →
      ¬ isFluxNonzero s.mesh_ bc_markers bc_values c n) :
    ApplyBoundaryConditions bc_markers bc_values
        (ApplyBoundaryConditions bc_markers bc_values s)
      = ApplyBoundaryConditions bc_markers bc_values s := by
  rw [ApplyBoundaryConditions_eq bc_markers bc_values
    (ApplyBoundaryConditions bc_markers bc_values s)]
  have hcell : ∀ c, c < (ApplyBoundaryConditions bc_markers bc_values s).mesh_.ncells →
      bcCell bc_markers bc_values (ApplyBoundaryConditions bc_markers bc_values s) c
        = (ApplyBoundaryConditions bc_markers bc_values s).blocks c := by
    intro c hc
    rw [ApplyBoundaryConditions_mesh] at hc
    rw [bcCell_idem bc_markers bc_values s c hc (hflux c hc),
      ApplyBoundaryConditions_blocks bc_markers bc_values s c hc]
  have hAff : (fun c =>
      if c < (ApplyBoundaryConditions bc_markers bc_values s).mesh_.ncells then
        (bcCell bc_markers bc_values (ApplyBoundaryConditions bc_markers bc_values s) c).Bff
      else (ApplyBoundaryConditions bc_markers bc_values s).Aff_cells_ c)
      = (ApplyBoundaryConditions bc_markers bc_values s).Aff_cells_ := by
    funext c
    split_ifs with h
    · rw [hcell c h]; rfl
    · rfl
  have hAfc : (fun c =>
      if c < (ApplyBoundaryConditions bc_markers bc_values s).mesh_.ncells then
        (bcCell bc_markers bc_values (ApplyBoundaryConditions bc_markers bc_values s) c).Bfc
      else (ApplyBoundaryConditions bc_markers bc_values s).Afc_cells_ c)
      = (ApplyBoundaryConditions bc_markers bc_values s).Afc_cells_ := by
    funext c
    split_ifs with h
    · rw [hcell c h]; rfl
    · rfl
  have hAcf : (fun c =>
      if c < (ApplyBoundaryConditions bc_markers bc_values s).mesh_.ncells then
        (bcCell bc_markers bc_values (ApplyBoundaryConditions bc_markers bc_values s) c).Bcf
      else (ApplyBoundaryConditions bc_markers bc_values s).Acf_cells_ c)
      = (ApplyBoundaryConditions bc_markers bc_values s).Acf_cells_ := by
    funext c
    split_ifs with h
    · rw [hcell c h]; rfl
    · rfl
  have hFf : (fun c =>
      if c < (ApplyBoundaryConditions bc_markers bc_values s).mesh_.ncells then
        (bcCell bc_markers bc_values (ApplyBoundaryConditions bc_markers bc_values s) c).Ff
      else (ApplyBoundaryConditions bc_markers bc_values s).Ff_cells_ c)
      = (ApplyBoundaryConditions bc_markers bc_values s).Ff_cells_ := by
    funext c
    split_ifs with h
    · rw [hcell c h]; rfl
    · rfl
  have hFc : (fun c =>
      if c < (ApplyBoundaryConditions bc_markers bc_values s).mesh_.ncells then
        (bcCell bc_markers bc_values (ApplyBoundaryConditions bc_markers bc_values s) c).Fc
      else (ApplyBoundaryConditions bc_markers bc_values s).Fc_cells_ c)
      = (ApplyBoundaryConditions bc_markers bc_values s).Fc_cells_ := by
    funext c
    split_ifs with h
    · rw [hcell c h]; rfl
    · rfl
  rw [hAff, hAfc, hAcf, hFf, hFc]

end BoundaryIdempotence

section MeshFacts

theorem Mesh.face_mem (mesh : Mesh) (c n : Nat) (hn : n < mesh.nfaces c) :
    mesh.face c n ∈ mesh.cell_faces c := by
  unfold Mesh.face
  rw [List.getD_eq_getElem _ _ hn]
  exact List.getElem_mem _

theorem Mesh.mem_faces_iff (mesh : Mesh) (c f : Nat) :
    f ∈ mesh.cell_faces c ↔ ∃ n, n < mesh.nfaces c ∧ mesh.face c n = f := by
  constructor
  · intro h
    obtain ⟨n, hn, e⟩ := List.mem_iff_getElem.mp h
    refine ⟨n, hn, ?_⟩
    unfold Mesh.face
    rw [List.getD_eq_getElem _ _ hn]
    exact e
  · rintro ⟨n, hn, e⟩
    rw [← e]
    exact mesh.face_mem c n hn

theorem Mesh.face_inj (mesh : Mesh) (c : Nat) (hnd : (mesh.cell_faces c).Nodup)
    (n m : Nat) (hn : n < mesh.nfaces c) (hm : m < mesh.nfaces c)
    (h : mesh.face c n = mesh.face c m) : n = m := by
  unfold Mesh.face at h
  rw [List.getD_eq_getElem _ _ hn, List.getD_eq_getElem _ _ hm] at h
  exact (List.Nodup.getElem_inj_iff hnd).mp h

theorem Mesh.WF.nodup {mesh : Mesh} (hwf : mesh.WF) (c : Nat) (hc : c < mesh.ncells) :
    (mesh.cell_faces c).Nodup := (hwf c hc).1

theorem Mesh.WF.face_lt {mesh : Mesh} (hwf : mesh.WF) (c n : Nat) (hc : c < mesh.ncells)
    (hn : n < mesh.nfaces c) : mesh.face c n < mesh.nfaces_owned :=
  (hwf c hc).2 _ (mesh.face_mem c n hn)

/-- A sum over the entries of a duplicate-free list, as a sum over its positions. -/
theorem sum_toFinset_eq_sum_range (l : List Nat) (hnd : l.Nodup) (g : Nat → ℚ) :
    ∑ f in l.toFinset, g f = ∑ n in range l.length, g (l.getD n 0) := by
  induction l with
  | nil => simp
  | cons a l ih =>
    have ha : a ∉ l := (List.nodup_cons.mp hnd).1
    have hl : l.Nodup := (List.nodup_cons.mp hnd).2
    rw [List.toFinset_cons, Finset.sum_insert (by simpa using ha), ih hl, List.length_cons,
      Finset.sum_range_succ']
    simp only [List.getD_cons_succ, List.getD_cons_zero]
    ring

/-- The row sum of a matrix on the cell-face graph, over the local faces of the cell. -/
theorem cfMultiply_eq (mesh : Mesh) (A : Mat) (Xf : Vec) (c : Nat)
    (hnd : (mesh.cell_faces c).Nodup) :
    cfMultiply mesh A Xf c =
      ∑ n in range (mesh.nfaces c), A c (mesh.face c n) * Xf (mesh.face c n) := by
  unfold cfMultiply Mesh.nfaces Mesh.face
  exact sum_toFinset_eq_sum_range _ hnd (fun f => A c f * Xf f)

/-- One cell's term of the transposed product, over the local faces of the cell. -/
theorem mem_faces_term_eq (mesh : Mesh) (c f : Nat) (hnd : (mesh.cell_faces c).Nodup)
    (g : Nat → ℚ) :
    (if f ∈ mesh.cell_faces c then g f else 0) =
      ∑ n in range (mesh.nfaces c), if mesh.face c n = f then g (mesh.face c n) else 0 := by
  by_cases hf : f ∈ mesh.cell_faces c
  · obtain ⟨n, hn, e⟩ := (mesh.mem_faces_iff c f).mp hf
    rw [if_pos hf, Finset.sum_eq_single n]
    · rw [if_pos e, e]
    · intro m hm hmn
      rw [if_neg]
      intro h
      exact hmn (mesh.face_inj c hnd m n (Finset.mem_range.mp hm) hn (h.trans e.symm))
    · intro h
      exact absurd (Finset.mem_range.mpr hn) h
  · rw [if_neg hf]
    symm
    apply Finset.sum_eq_zero
    intro n hn
    rw [if_neg]
    intro h
    exact hf ((mesh.mem_faces_iff c f).mpr ⟨n, Finset.mem_range.mp hn, h⟩)

/-- The transposed product of a matrix on the cell-face graph. -/
theorem cfMultiplyT_eq (mesh : Mesh) (A : Mat) (Xc : Vec) (f : Nat)
    (hnd : ∀ c, c < mesh.ncells → (mesh.cell_faces c).Nodup) :
    cfMultiplyT mesh A Xc f =
      ∑ c in range mesh.ncells, ∑ n in range (mesh.nfaces c),
        if mesh.face c n = f then A c (mesh.face c n) * Xc c else 0 := by
  unfold cfMultiplyT
  apply Finset.sum_congr rfl
  intro c hc
  exact mem_faces_term_eq mesh c f (hnd c (Finset.mem_range.mp hc)) (fun g => A c g * Xc c)

/-- The number of owned cells that have `f` among their faces, as a sum over local faces. -/
theorem incidence_count (mesh : Mesh) (hwf : mesh.WF) (f : Nat) :
    (∑ c in range mesh.ncells, ∑ n in range (mesh.nfaces c),
        if mesh.face c n = f then (1 : ℚ) else 0)
      = (((range mesh.ncells).filter (fun c => f ∈ mesh.cell_faces c)).card : ℚ) := by
  rw [Finset.card_filter, Nat.cast_sum]
  apply Finset.sum_congr rfl
  intro c hc
  rw [← mem_faces_term_eq mesh c f (hwf.nodup c (Finset.mem_range.mp hc)) (fun _ => 1)]
  split_ifs <;> simp


/-- An owned face that is incident to an owned cell has a first owned cell `c` and a first
local index `n` in that cell at which it occurs. -/
theorem Mesh.first_incidence (mesh : Mesh) (f : Nat)
    (hinc : ∃ c, c < mesh.ncells ∧ f ∈ mesh.cell_faces c) :
    ∃ c n, c < mesh.ncells ∧ n < mesh.nfaces c ∧ mesh.face c n = f
      ∧ (∀ b, b < c → f ∉ mesh.cell_faces b)
      ∧ (∀ i, i < n → mesh.face c i ≠ f) := by
  classical
  have hc := Nat.find_spec hinc
  have hcmin : ∀ b, b < Nat.find hinc → ¬ (b < mesh.ncells ∧ f ∈ mesh.cell_faces b) :=
    fun b hb => Nat.find_min hinc hb
  have hex : ∃ n, n < mesh.nfaces (Nat.find hinc) ∧ mesh.face (Nat.find hinc) n = f :=
    (mesh.mem_faces_iff (Nat.find hinc) f).mp hc.2
  have hn := Nat.find_spec hex
  have hnmin : ∀ i, i < Nat.find hex →
      ¬ (i < mesh.nfaces (Nat.find hinc) ∧ mesh.face (Nat.find hinc) i = f) :=
    fun i hi => Nat.find_min hex hi
  refine ⟨Nat.find hinc, Nat.find hex, hc.1, hn.1, hn.2, ?_, ?_⟩
  · intro b hb hmem
    exact hcmin b hb ⟨lt_trans hb hc.1, hmem⟩
  · intro i hi e
    exact hnmin i hi ⟨lt_trans hi hn.1, e⟩

end MeshFacts

section Assembly

/-- `SumIntoGlobalValues` adds, at entry `(i, j)`, every value whose index pair is `(i, j)`. -/
theorem SumIntoGlobalValues_apply (A : Mat) (nfaces : Nat) (idx : Nat → Nat) (vals : Mat)
    (i j : Nat) :
    SumIntoGlobalValues A nfaces idx vals i j =
      A i j + ∑ n in range nfaces, ∑ m in range nfaces,
        if idx n = i ∧ idx m = j then vals n m else 0 := by
  have inner : ∀ (n k : Nat) (B : Mat),
      forLoop k (fun m C => C.set (idx n) (idx m) (C (idx n) (idx m) + vals n m)) B i j
        = B i j + ∑ m in range k, if idx n = i ∧ idx m = j then vals n m else 0 := by
    intro n k B
    induction k with
    | zero => simp [forLoop]
    | succ k ih =>
      rw [forLoop_succ, Finset.sum_range_succ, matSet_apply]
      by_cases h : i = idx n ∧ j = idx k
      · obtain ⟨h1, h2⟩ := h
        subst h1; subst h2
        simp only [and_self, if_true] at ih ⊢
        rw [ih]; ring
      · have h' : ¬ (idx n = i ∧ idx k = j) := fun hh => h ⟨hh.1.symm, hh.2.symm⟩
        rw [if_neg h, if_neg h', ih, add_zero]
  have outer : ∀ k : Nat,
      forLoop k (fun n B => forLoop nfaces
        (fun m C => C.set (idx n) (idx m) (C (idx n) (idx m) + vals n m)) B) A i j
        = A i j + ∑ n in range k, ∑ m in range nfaces,
            if idx n = i ∧ idx m = j then vals n m else 0 := by
    intro k
    induction k with
    | zero => simp [forLoop]
    | succ k ih =>
      rw [forLoop_succ, inner, ih, Finset.sum_range_succ]; ring
  exact outer nfaces

/-- `ReplaceMyValues` leaves the other rows as they are. -/
theorem ReplaceMyValues_other_row (A : Mat) (row nfaces : Nat) (vals : Vec) (idx : Nat → Nat)
    (r f : Nat) (hr : r ≠ row) :
    ReplaceMyValues A row nfaces vals idx r f = A r f := by
  unfold ReplaceMyValues
  induction nfaces with
  | zero => rfl
  | succ k ih =>
    rw [forLoop_succ, matSet_apply, if_neg (fun h => hr h.1), ih]

/-- `ReplaceMyValues` with pairwise distinct column indices stores `vals[n]` at column
`idx[n]`. -/
theorem ReplaceMyValues_at (A : Mat) (row nfaces : Nat) (vals : Vec) (idx : Nat → Nat)
    (hinj : ∀ n m, n < nfaces → m < nfaces → idx n = idx m → n = m)
    (n : Nat) (hn : n < nfaces) :
    ReplaceMyValues A row nfaces vals idx row (idx n) = vals n := by
  have key : ∀ k, k ≤ nfaces →
      forLoop k (fun n B => Mat.set B row (idx n) (vals n)) A row (idx n)
        = if n < k then vals n else A row (idx n) := by
    intro k
    induction k with
    | zero => intro _; simp [forLoop]
    | succ k ih =>
      intro hk
      rw [forLoop_succ, matSet_apply]
      by_cases hnk : n = k
      · subst hnk; simp
      · have hne : ¬ (row = row ∧ idx n = idx k) := fun h =>
          hnk (hinj n k hn (by omega) h.2)
        rw [if_neg hne, ih (by omega)]
        by_cases h1 : n < k
        · rw [if_pos h1, if_pos (by omega)]
        · rw [if_neg h1, if_neg (by omega)]
  have := key nfaces (le_refl _)
  rw [if_pos hn] at this
  exact this

/-- The accumulation `r[idx[n]] += vals[n]` over `n`. -/
theorem scatterAdd_apply (r : Vec) (nfaces : Nat) (idx : Nat → Nat) (vals : Vec) (f : Nat) :
    forLoop nfaces (fun n r => Vec.set r (idx n) (r (idx n) + vals n)) r f =
      r f + ∑ n in range nfaces, if idx n = f then vals n else 0 := by
  induction nfaces with
  | zero => simp [forLoop]
  | succ k ih =>
    rw [forLoop_succ, Finset.sum_range_succ, vecSet_apply]
    by_cases h : f = idx k
    · subst h
      simp only [if_true] at ih ⊢
      rw [ih]; ring
    · have h' : ¬ idx k = f := fun hh => h hh.symm
      rw [if_neg h, if_neg h', ih, add_zero]

/-- The assignments `v[c] = x[c]` over `c`. -/
theorem setLoop_apply (v x : Vec) (k c : Nat) :
    forLoop k (fun c v => Vec.set v c (x c)) v c = if c < k then x c else v c := by
  induction k with
  | zero => simp [forLoop]
  | succ k ih =>
    rw [forLoop_succ, vecSet_apply]
    by_cases h : c = k
    · subst h; simp
    · rw [if_neg h, ih]
      by_cases h1 : c < k
      · rw [if_pos h1, if_pos (by omega)]
      · rw [if_neg h1, if_neg (by omega)]

/-- The first cell loop of `AssembleGlobalMatrices`: every global object evolves by a loop
of its own. -/
theorem AssembleGlobalMatrices_cell_loop (s : MatrixMFD) (k : Nat) :
    forLoop k AssembleGlobalMatrices_cell s =
      { s with
        Acc_ := forLoop k (fun c v => Vec.set v c (s.Acc_cells_ c)) s.Acc_
        Acf_ := forLoop k (fun c A =>
          ReplaceMyValues A c (s.mesh_.nfaces c) (s.Acf_cells_ c) (s.mesh_.face c)) s.Acf_
        Aff_ := forLoop k (fun c A =>
          SumIntoGlobalValues A (s.mesh_.nfaces c) (s.mesh_.face c) (s.Aff_cells_ c)) s.Aff_
        Afc_alloc :=
          if s.flag_symmetry_ then s.Afc_alloc
          else forLoop k (fun c A =>
            ReplaceMyValues A c (s.mesh_.nfaces c) (s.Afc_cells_ c) (s.mesh_.face c))
              s.Afc_alloc } := by
  induction k with
  | zero => simp [forLoop]
  | succ k ih =>
    rw [forLoop_succ, ih]
    unfold AssembleGlobalMatrices_cell
    by_cases h : s.flag_symmetry_ = true
    · simp [forLoop_succ, h]
    · simp [forLoop_succ, h]

/-- The second cell loop of `AssembleGlobalMatrices`. -/
theorem AssembleGlobalMatrices_rhs_loop (s : MatrixMFD) (k : Nat) :
    forLoop k AssembleGlobalMatrices_rhs s =
      { s with
        rhs_cell := forLoop k (fun c v => Vec.set v c (s.Fc_cells_ c)) s.rhs_cell
        rhs_face := forLoop k (fun c r => forLoop (s.mesh_.nfaces c)
          (fun n r => Vec.set r (s.mesh_.face c n) (r (s.mesh_.face c n) + s.Ff_cells_ c n)) r)
          s.rhs_face } := by
  induction k with
  | zero => simp [forLoop]
  | succ k ih =>
    rw [forLoop_succ, ih]
    unfold AssembleGlobalMatrices_rhs
    simp [forLoop_succ]

/-- `AssembleGlobalMatrices` with every global object given by a loop of its own. -/
theorem AssembleGlobalMatrices_eq (s : MatrixMFD) :
    AssembleGlobalMatrices s =
      { s with
        Acc_ := forLoop s.mesh_.ncells (fun c v => Vec.set v c (s.Acc_cells_ c)) s.Acc_
        Acf_ := forLoop s.mesh_.ncells (fun c A =>
          ReplaceMyValues A c (s.mesh_.nfaces c) (s.Acf_cells_ c) (s.mesh_.face c)) s.Acf_
        Aff_ := forLoop s.mesh_.ncells (fun c A =>
          SumIntoGlobalValues A (s.mesh_.nfaces c) (s.mesh_.face c) (s.Aff_cells_ c))
          (fun _ _ => 0)
        Afc_alloc :=
          if s.flag_symmetry_ then s.Afc_alloc
          else forLoop s.mesh_.ncells (fun c A =>
            ReplaceMyValues A c (s.mesh_.nfaces c) (s.Afc_cells_ c) (s.mesh_.face c))
              s.Afc_alloc
        rhs_cell := forLoop s.mesh_.ncells (fun c v => Vec.set v c (s.Fc_cells_ c)) s.rhs_cell
        rhs_face := forLoop s.mesh_.ncells (fun c r => forLoop (s.mesh_.nfaces c)
          (fun n r => Vec.set r (s.mesh_.face c n) (r (s.mesh_.face c n) + s.Ff_cells_ c n)) r)
          (fun _ => 0) } := by
  unfold AssembleGlobalMatrices
  simp only [AssembleGlobalMatrices_cell_loop, AssembleGlobalMatrices_rhs_loop]


/-- The accumulation of the elemental blocks into a face-face matrix, cell after cell. -/
theorem sumIntoLoop_apply (mesh : Mesh) (vals : Nat → Mat) (A : Mat) (k i j : Nat) :
    forLoop k (fun c B =>
        SumIntoGlobalValues B (mesh.nfaces c) (mesh.face c) (vals c)) A i j =
      A i j + ∑ c in range k, ∑ n in range (mesh.nfaces c), ∑ m in range (mesh.nfaces c),
        if mesh.face c n = i ∧ mesh.face c m = j then vals c n m else 0 := by
  induction k with
  | zero => simp [forLoop]
  | succ k ih =>
    rw [forLoop_succ, SumIntoGlobalValues_apply, ih, Finset.sum_range_succ]; ring

/-- The rows written by `ReplaceMyValues`, cell after cell. -/
theorem replaceLoop_apply (mesh : Mesh) (vals : Nat → Vec) (A : Mat) (k c n : Nat)
    (hc : c < k) (hn : n < mesh.nfaces c) (hnd : (mesh.cell_faces c).Nodup) :
    forLoop k (fun c B =>
        ReplaceMyValues B c (mesh.nfaces c) (vals c) (mesh.face c)) A c (mesh.face c n)
      = vals c n := by
  induction k with
  | zero => exact absurd hc (Nat.not_lt_zero _)
  | succ k ih =>
    rw [forLoop_succ]
    by_cases hck : c = k
    · subst hck
      exact ReplaceMyValues_at _ c _ _ _ (mesh.face_inj c hnd) n hn
    · rw [ReplaceMyValues_other_row _ _ _ _ _ _ _ hck]
      exact ih (by omega)

/-- The accumulation of the elemental loads into a face vector, cell after cell. -/
theorem scatterLoop_apply (mesh : Mesh) (vals : Nat → Vec) (r : Vec) (k f : Nat) :
    forLoop k (fun c r => forLoop (mesh.nfaces c)
        (fun n r => Vec.set r (mesh.face c n) (r (mesh.face c n) + vals c n)) r) r f =
      r f + ∑ c in range k, ∑ n in range (mesh.nfaces c),
        if mesh.face c n = f then vals c n else 0 := by
  induction k with
  | zero => simp [forLoop]
  | succ k ih =>
    rw [forLoop_succ, scatterAdd_apply, ih, Finset.sum_range_succ]; ring

theorem AssembleGlobalMatrices_mesh (s : MatrixMFD) :
    (AssembleGlobalMatrices s).mesh_ = s.mesh_ := by
  rw [AssembleGlobalMatrices_eq]

theorem AssembleGlobalMatrices_flag (s : MatrixMFD) :
    (AssembleGlobalMatrices s).flag_symmetry_ = s.flag_symmetry_ := by
  rw [AssembleGlobalMatrices_eq]

theorem AssembleGlobalMatrices_Aff_cells (s : MatrixMFD) :
    (AssembleGlobalMatrices s).Aff_cells_ = s.Aff_cells_ := by
  rw [AssembleGlobalMatrices_eq]

theorem AssembleGlobalMatrices_Afc_cells (s : MatrixMFD) :
    (AssembleGlobalMatrices s).Afc_cells_ = s.Afc_cells_ := by
  rw [AssembleGlobalMatrices_eq]

theorem AssembleGlobalMatrices_Acf_cells (s : MatrixMFD) :
    (AssembleGlobalMatrices s).Acf_cells_ = s.Acf_cells_ := by
  rw [AssembleGlobalMatrices_eq]

theorem AssembleGlobalMatrices_Acc_cells (s : MatrixMFD) :
    (AssembleGlobalMatrices s).Acc_cells_ = s.Acc_cells_ := by
  rw [AssembleGlobalMatrices_eq]

theorem AssembleGlobalMatrices_prec_method (s : MatrixMFD) :
    (AssembleGlobalMatrices s).prec_method_ = s.prec_method_ := by
  rw [AssembleGlobalMatrices_eq]

theorem AssembleGlobalMatrices_HAVE_HYPRE (s : MatrixMFD) :
    (AssembleGlobalMatrices s).HAVE_HYPRE = s.HAVE_HYPRE := by
  rw [AssembleGlobalMatrices_eq]

theorem AssembleGlobalMatrices_prec (s : MatrixMFD) :
    (AssembleGlobalMatrices s).prec_ApplyInverse = s.prec_ApplyInverse := by
  rw [AssembleGlobalMatrices_eq]


/-- The global face-face matrix is the sum of the elemental blocks. -/
theorem AssembleGlobalMatrices_Aff (s : MatrixMFD) (i j : Nat) :
    (AssembleGlobalMatrices s).Aff_ i j =
      ∑ c in range s.mesh_.ncells, ∑ n in range (s.mesh_.nfaces c),
        ∑ m in range (s.mesh_.nfaces c),
          if s.mesh_.face c n = i ∧ s.mesh_.face c m = j then s.Aff_cells_ c n m else 0 := by
  rw [AssembleGlobalMatrices_eq]
  simp only [sumIntoLoop_apply, zero_add]

theorem AssembleGlobalMatrices_Acc (s : MatrixMFD) (c : Nat) (hc : c < s.mesh_.ncells) :
    (AssembleGlobalMatrices s).Acc_ c = s.Acc_cells_ c := by
  rw [AssembleGlobalMatrices_eq]
  simp only [setLoop_apply, if_pos hc]

theorem AssembleGlobalMatrices_rhs_cell (s : MatrixMFD) (c : Nat) (hc : c < s.mesh_.ncells) :
    (AssembleGlobalMatrices s).rhs_cell c = s.Fc_cells_ c := by
  rw [AssembleGlobalMatrices_eq]
  simp only [setLoop_apply, if_pos hc]

theorem AssembleGlobalMatrices_rhs_face (s : MatrixMFD) (f : Nat) :
    (AssembleGlobalMatrices s).rhs_face f =
      ∑ c in range s.mesh_.ncells, ∑ n in range (s.mesh_.nfaces c),
        if s.mesh_.face c n = f then s.Ff_cells_ c n else 0 := by
  rw [AssembleGlobalMatrices_eq]
  simp only [scatterLoop_apply, zero_add]

theorem AssembleGlobalMatrices_Acf (s : MatrixMFD) (c n : Nat) (hc : c < s.mesh_.ncells)
    (hn : n < s.mesh_.nfaces c) (hnd : (s.mesh_.cell_faces c).Nodup) :
    (AssembleGlobalMatrices s).Acf_ c (s.mesh_.face c n) = s.Acf_cells_ c n := by
  rw [AssembleGlobalMatrices_eq]
  exact replaceLoop_apply s.mesh_ s.Acf_cells_ s.Acf_ _ c n hc hn hnd

/-- The values `Apply` finds behind the pointer `Afc_`: those of `Afc_cells_` when the
matrix was allocated separately, those of `Acf_cells_` when `Afc_` is `Acf_`. -/
theorem AssembleGlobalMatrices_Afc (s : MatrixMFD) (c n : Nat) (hc : c < s.mesh_.ncells)
    (hn : n < s.mesh_.nfaces c) (hnd : (s.mesh_.cell_faces c).Nodup) :
    (AssembleGlobalMatrices s).Afc_ c (s.mesh_.face c n) =
      if s.flag_symmetry_ then s.Acf_cells_ c n else s.Afc_cells_ c n := by
  rw [AssembleGlobalMatrices_eq]
  unfold MatrixMFD.Afc_
  by_cases h : s.flag_symmetry_ = true
  · simp only [h, if_true]
    exact replaceLoop_apply s.mesh_ s.Acf_cells_ s.Acf_ _ c n hc hn hnd
  · simp only [h, if_false]
    exact replaceLoop_apply s.mesh_ s.Afc_cells_ s.Afc_alloc _ c n hc hn hnd


/-- Two runs of `ReplaceMyValues` with the same arguments, on matrices that started as `A0`
and `B0`: every entry is the same in both results or is still the starting entry in both. -/
theorem ReplaceMyValues_rel (A0 B0 A B : Mat) (row nfaces : Nat) (vals : Vec)
    (idx : Nat → Nat)
    (h : ∀ i j, A i j = B i j ∨ (A i j = A0 i j ∧ B i j = B0 i j)) (i j : Nat) :
    ReplaceMyValues A row nfaces vals idx i j = ReplaceMyValues B row nfaces vals idx i j
      ∨ (ReplaceMyValues A row nfaces vals idx i j = A0 i j
          ∧ ReplaceMyValues B row nfaces vals idx i j = B0 i j) := by
  induction nfaces with
  | zero => exact h i j
  | succ n ih =>
    unfold ReplaceMyValues at ih ⊢
    rw [forLoop_succ, forLoop_succ]
    simp only [Mat.set]
    by_cases hij : i = row ∧ j = idx n
    · left
      rw [if_pos hij, if_pos hij]
    · rw [if_neg hij, if_neg hij]
      exact ih

/-- The loop of `ReplaceMyValues` over the cells, run on two matrices: every entry is the
same in both results or is the starting entry in both. -/
theorem replaceLoop_rel (mesh : Mesh) (vals : Nat → Vec) (A0 B0 : Mat) (k i j : Nat) :
    forLoop k (fun c B =>
        ReplaceMyValues B c (mesh.nfaces c) (vals c) (mesh.face c)) A0 i j
      = forLoop k (fun c B =>
        ReplaceMyValues B c (mesh.nfaces c) (vals c) (mesh.face c)) B0 i j
    ∨ (forLoop k (fun c B =>
        ReplaceMyValues B c (mesh.nfaces c) (vals c) (mesh.face c)) A0 i j = A0 i j
      ∧ forLoop k (fun c B =>
        ReplaceMyValues B c (mesh.nfaces c) (vals c) (mesh.face c)) B0 i j = B0 i j) := by
  induction k generalizing i j with
  | zero => exact Or.inr ⟨rfl, rfl⟩
  | succ k ih =>
    rw [forLoop_succ, forLoop_succ]
    exact ReplaceMyValues_rel A0 B0 _ _ k (mesh.nfaces k) (vals k) (mesh.face k)
      (fun a b => ih a b) i j

/-- The loop of `ReplaceMyValues` over the cells gives the same matrix when it is run on its
own result. -/
theorem replaceLoop_idem (mesh : Mesh) (vals : Nat → Vec) (A : Mat) (k : Nat) :
    forLoop k (fun c B => ReplaceMyValues B c (mesh.nfaces c) (vals c) (mesh.face c))
      (forLoop k (fun c B => ReplaceMyValues B c (mesh.nfaces c) (vals c) (mesh.face c)) A)
    = forLoop k (fun c B => ReplaceMyValues B c (mesh.nfaces c) (vals c) (mesh.face c)) A := by
  funext i j
  rcases replaceLoop_rel mesh vals
    (forLoop k (fun c B => ReplaceMyValues B c (mesh.nfaces c) (vals c) (mesh.face c)) A)
    A k i j with h | h
  · exact h
  · exact h.1

/-- The loop of assignments `v[c] = x[c]` gives the same vector when it is run on its own
result. -/
theorem setLoop_idem (v x : Vec) (k : Nat) :
    forLoop k (fun c v => Vec.set v c (x c)) (forLoop k (fun c v => Vec.set v c (x c)) v)
      = forLoop k (fun c v => Vec.set v c (x c)) v := by
  funext c
  rw [setLoop_apply, setLoop_apply]
  split_ifs <;> rfl

/-- The globals after a second `AssembleGlobalMatrices` are those after the first. -/
theorem AssembleGlobalMatrices_idem (s : MatrixMFD) :
    AssembleGlobalMatrices (AssembleGlobalMatrices s) = AssembleGlobalMatrices s := by
  rw [AssembleGlobalMatrices_eq (AssembleGlobalMatrices s)]
  have hAcc : forLoop (AssembleGlobalMatrices s).mesh_.ncells
      (fun c v => Vec.set v c ((AssembleGlobalMatrices s).Acc_cells_ c))
      (AssembleGlobalMatrices s).Acc_ = (AssembleGlobalMatrices s).Acc_ := by
    rw [AssembleGlobalMatrices_eq s]
    exact setLoop_idem _ _ _
  have hrc : forLoop (AssembleGlobalMatrices s).mesh_.ncells
      (fun c v => Vec.set v c ((AssembleGlobalMatrices s).Fc_cells_ c))
      (AssembleGlobalMatrices s).rhs_cell = (AssembleGlobalMatrices s).rhs_cell := by
    rw [AssembleGlobalMatrices_eq s]
    exact setLoop_idem _ _ _
  have hAcf : forLoop (AssembleGlobalMatrices s).mesh_.ncells (fun c A =>
      ReplaceMyValues A c ((AssembleGlobalMatrices s).mesh_.nfaces c)
        ((AssembleGlobalMatrices s).Acf_cells_ c) ((AssembleGlobalMatrices s).mesh_.face c))
      (AssembleGlobalMatrices s).Acf_ = (AssembleGlobalMatrices s).Acf_ := by
    rw [AssembleGlobalMatrices_eq s]
    exact replaceLoop_idem s.mesh_ s.Acf_cells_ s.Acf_ _
  have hAfc : (if (AssembleGlobalMatrices s).flag_symmetry_ then
        (AssembleGlobalMatrices s).Afc_alloc
      else forLoop (AssembleGlobalMatrices s).mesh_.ncells (fun c A =>
        ReplaceMyValues A c ((AssembleGlobalMatrices s).mesh_.nfaces c)
          ((AssembleGlobalMatrices s).Afc_cells_ c) ((AssembleGlobalMatrices s).mesh_.face c))
        (AssembleGlobalMatrices s).Afc_alloc) = (AssembleGlobalMatrices s).Afc_alloc := by
    rw [AssembleGlobalMatrices_eq s]
    by_cases hf : s.flag_symmetry_ = true
    · simp only [hf, if_true]
    · simp only [hf, if_false]
      exact replaceLoop_idem s.mesh_ s.Afc_cells_ s.Afc_alloc _
  have hAff : forLoop (AssembleGlobalMatrices s).mesh_.ncells (fun c A =>
      SumIntoGlobalValues A ((AssembleGlobalMatrices s).mesh_.nfaces c)
        ((AssembleGlobalMatrices s).mesh_.face c) ((AssembleGlobalMatrices s).Aff_cells_ c))
      (fun _ _ => 0) = (AssembleGlobalMatrices s).Aff_ := by
    rw [AssembleGlobalMatrices_eq s]
  have hrf : forLoop (AssembleGlobalMatrices s).mesh_.ncells (fun c r =>
      forLoop ((AssembleGlobalMatrices s).mesh_.nfaces c)
        (fun n r => Vec.set r ((AssembleGlobalMatrices s).mesh_.face c n)
          (r ((AssembleGlobalMatrices s).mesh_.face c n)
            + (AssembleGlobalMatrices s).Ff_cells_ c n)) r)
      (fun _ => 0) = (AssembleGlobalMatrices s).rhs_face := by
    rw [AssembleGlobalMatrices_eq s]
  rw [hAcc, hrc, hAcf, hAfc, hAff, hrf]

end Assembly

section Products

/-- The product of a face-face matrix assembled from cell blocks with a face vector. -/
theorem ffMultiply_assembled (mesh : Mesh) (hwf : mesh.WF) (vals : Nat → Mat) (A : Mat)
    (hA : ∀ i j, A i j = ∑ c in range mesh.ncells, ∑ n in range (mesh.nfaces c),
      ∑ m in range (mesh.nfaces c),
        if mesh.face c n = i ∧ mesh.face c m = j then vals c n m else 0)
    (X : Vec) (f : Nat) :
    ffMultiply mesh A X f =
      ∑ c in range mesh.ncells, ∑ n in range (mesh.nfaces c),
        if mesh.face c n = f then
          ∑ m in range (mesh.nfaces c), vals c n m * X (mesh.face c m)
        else 0 := by
  unfold ffMultiply
  simp only [hA, Finset.sum_mul]
  rw [Finset.sum_comm]
  apply Finset.sum_congr rfl
  intro c hc
  rw [Finset.sum_comm]
  apply Finset.sum_congr rfl
  intro n hn
  rw [Finset.sum_comm]
  by_cases h : mesh.face c n = f
  · simp only [h, true_and, if_true]
    apply Finset.sum_congr rfl
    intro m hm
    rw [Finset.sum_eq_single (mesh.face c m)]
    · simp
    · intro g _ hg
      rw [if_neg (fun e => hg e.symm), zero_mul]
    · intro hnot
      exact absurd (Finset.mem_range.mpr
        (hwf.face_lt c m (Finset.mem_range.mp hc) (Finset.mem_range.mp hm))) hnot
  · simp [h]

/-- The face component of `Apply` on assembled globals, in terms of the elemental blocks. -/
theorem Apply_face_assembled (s : MatrixMFD) (hwf : s.mesh_.WF) (X : CompositeVector)
    (f : Nat) :
    (Apply (AssembleGlobalMatrices s) X).face f =
      ∑ c in range s.mesh_.ncells, ∑ n in range (s.mesh_.nfaces c),
        if s.mesh_.face c n = f then
          (∑ m in range (s.mesh_.nfaces c), s.Aff_cells_ c n m * X.face (s.mesh_.face c m))
            + (if s.flag_symmetry_ then s.Acf_cells_ c n else s.Afc_cells_ c n) * X.cell c
        else 0 := by
  have hnd : ∀ c, c < s.mesh_.ncells → (s.mesh_.cell_faces c).Nodup := fun c hc => hwf.nodup c hc
  unfold Apply
  simp only [AssembleGlobalMatrices_mesh, one_mul]
  rw [ffMultiply_assembled s.mesh_ hwf s.Aff_cells_ _ (AssembleGlobalMatrices_Aff s),
    cfMultiplyT_eq s.mesh_ _ _ f hnd, ← Finset.sum_add_distrib]
  apply Finset.sum_congr rfl
  intro c hc
  rw [← Finset.sum_add_distrib]
  apply Finset.sum_congr rfl
  intro n hn
  rw [AssembleGlobalMatrices_Afc s c n (Finset.mem_range.mp hc) (Finset.mem_range.mp hn)
    (hnd c (Finset.mem_range.mp hc))]
  by_cases h : s.mesh_.face c n = f
  · rw [if_pos h, if_pos h, if_pos h]; ring
  · rw [if_neg h, if_neg h, if_neg h]; ring

/-- The cell component of `Apply` on assembled globals, in terms of the elemental blocks. -/
theorem Apply_cell_assembled (s : MatrixMFD) (hwf : s.mesh_.WF) (X : CompositeVector)
    (c : Nat) (hc : c < s.mesh_.ncells) :
    (Apply (AssembleGlobalMatrices s) X).cell c =
      (∑ n in range (s.mesh_.nfaces c), s.Acf_cells_ c n * X.face (s.mesh_.face c n))
        + s.Acc_cells_ c * X.cell c := by
  unfold Apply
  simp only [AssembleGlobalMatrices_mesh, one_mul]
  rw [cfMultiply_eq s.mesh_ _ _ c (hwf.nodup c hc), AssembleGlobalMatrices_Acc s c hc, add_comm]
  congr 1
  apply Finset.sum_congr rfl
  intro n hn
  rw [AssembleGlobalMatrices_Acf s c n hc (Finset.mem_range.mp hn) (hwf.nodup c hc)]


end Products

section Schur

variable (bc_markers : Nat → Matrix_bc)

/-- The cell loop of `ComputeSchurComplement` changes `Sff_` only. -/
theorem ComputeSchurComplement_loop (s : MatrixMFD) (k : Nat) :
    forLoop k (ComputeSchurComplement_cell bc_markers) s =
      { s with
        Sff_ := forLoop k (fun c A =>
          SumIntoGlobalValues A (s.mesh_.nfaces c) (s.mesh_.face c)
            (schurBlock bc_markers c s)) s.Sff_ } := by
  induction k with
  | zero => simp [forLoop]
  | succ k ih =>
    rw [forLoop_succ, ih]
    rfl

/-- `ComputeSchurComplement` changes `Sff_` only. -/
theorem ComputeSchurComplement_eq (bc_values : Vec) (s : MatrixMFD) :
    ComputeSchurComplement bc_markers bc_values s =
      { s with
        Sff_ := forLoop s.mesh_.ncells (fun c A =>
          SumIntoGlobalValues A (s.mesh_.nfaces c) (s.mesh_.face c)
            (schurBlock bc_markers c s)) (fun _ _ => 0) } := by
  unfold ComputeSchurComplement
  simp only [ComputeSchurComplement_loop]
  rfl

theorem ComputeSchurComplement_mesh (bc_values : Vec) (s : MatrixMFD) :
    (ComputeSchurComplement bc_markers bc_values s).mesh_ = s.mesh_ := by
  rw [ComputeSchurComplement_eq]

theorem ComputeSchurComplement_Afc (bc_values : Vec) (s : MatrixMFD) :
    (ComputeSchurComplement bc_markers bc_values s).Afc_ = s.Afc_ := by
  rw [ComputeSchurComplement_eq]
  rfl

theorem ComputeSchurComplement_Acf (bc_values : Vec) (s : MatrixMFD) :
    (ComputeSchurComplement bc_markers bc_values s).Acf_ = s.Acf_ := by
  rw [ComputeSchurComplement_eq]

theorem ComputeSchurComplement_Acc (bc_values : Vec) (s : MatrixMFD) :
    (ComputeSchurComplement bc_markers bc_values s).Acc_ = s.Acc_ := by
  rw [ComputeSchurComplement_eq]

theorem ComputeSchurComplement_Aff (bc_values : Vec) (s : MatrixMFD) :
    (ComputeSchurComplement bc_markers bc_values s).Aff_ = s.Aff_ := by
  rw [ComputeSchurComplement_eq]

theorem ComputeSchurComplement_prec_method (bc_values : Vec) (s : MatrixMFD) :
    (ComputeSchurComplement bc_markers bc_values s).prec_method_ = s.prec_method_ := by
  rw [ComputeSchurComplement_eq]

theorem ComputeSchurComplement_HAVE_HYPRE (bc_values : Vec) (s : MatrixMFD) :
    (ComputeSchurComplement bc_markers bc_values s).HAVE_HYPRE = s.HAVE_HYPRE := by
  rw [ComputeSchurComplement_eq]

theorem ComputeSchurComplement_prec (bc_values : Vec) (s : MatrixMFD) :
    (ComputeSchurComplement bc_markers bc_values s).prec_ApplyInverse
      = s.prec_ApplyInverse := by
  rw [ComputeSchurComplement_eq]


/-- The reduced matrix is the sum of the cell matrices `Schur`. -/
theorem ComputeSchurComplement_Sff (bc_values : Vec) (s : MatrixMFD) (i j : Nat) :
    (ComputeSchurComplement bc_markers bc_values s).Sff_ i j =
      ∑ c in range s.mesh_.ncells, ∑ n in range (s.mesh_.nfaces c),
        ∑ m in range (s.mesh_.nfaces c),
          if s.mesh_.face c n = i ∧ s.mesh_.face c m = j then schurBlock bc_markers c s n m
          else 0 := by
  rw [ComputeSchurComplement_eq]
  simp only [sumIntoLoop_apply, zero_add]

/-- `Apply` does not read `Sff_`. -/
theorem Apply_ComputeSchurComplement (bc_values : Vec) (s : MatrixMFD)
    (X : CompositeVector) :
    Apply (ComputeSchurComplement bc_markers bc_values s) X = Apply s X := by
  rw [ComputeSchurComplement_eq]
  rfl

/-- The zeroing loop of a Dirichlet face in `ComputeSchurComplement` is the matrix part of
the inner loop of `ApplyBoundaryConditions`. -/
theorem bcDirichletInner_Bff (n : Nat) (v : ℚ) (b : ElemBlocks) (j : Nat) :
    (forLoop j (bcDirichletInner n v) b).Bff
      = forLoop j (fun m S => (Mat.set S m n 0).set n m 0) b.Bff := by
  induction j with
  | zero => rfl
  | succ j ih =>
    rw [forLoop_succ, forLoop_succ, ← ih]
    rfl

/-- One pass of the loop "Symbolic boundary conditions" is the matrix part of one pass of
the face loop of `ApplyBoundaryConditions`. -/
theorem bcFace_Bff (mesh : Mesh) (Krel_ : Vec) (bc_values : Vec) (c n : Nat)
    (b : ElemBlocks) :
    (bcFace mesh Krel_ bc_markers bc_values c n b).Bff
      = schurSymbolicBC mesh bc_markers c n b.Bff := by
  unfold bcFace schurSymbolicBC
  by_cases hD : bc_markers (mesh.face c n) = Matrix_bc.MATRIX_BC_DIRICHLET
  · simp only [if_pos hD, bcDirichletInner_Bff]
  · simp only [if_neg hD]
    split_ifs <;> rfl

/-- The loop "Symbolic boundary conditions" is the matrix part of the face loop of
`ApplyBoundaryConditions`. -/
theorem schurSymbolicBC_loop (mesh : Mesh) (Krel_ : Vec) (bc_values : Vec) (c : Nat)
    (b : ElemBlocks) (k : Nat) :
    forLoop k (schurSymbolicBC mesh bc_markers c) b.Bff
      = (forLoop k (bcFace mesh Krel_ bc_markers bc_values c) b).Bff := by
  induction k with
  | zero => rfl
  | succ k ih =>
    rw [forLoop_succ, forLoop_succ, bcFace_Bff, ih]

/-- Entry `(i, j)` of the cell matrix `Schur` when it is added to `Sff_`. -/
theorem schurBlock_apply (s : MatrixMFD) (c i j : Nat) (hi : i < s.mesh_.nfaces c)
    (hj : j < s.mesh_.nfaces c) :
    schurBlock bc_markers c s i j =
      if isDirichlet s.mesh_ bc_markers c i ∨ isDirichlet s.mesh_ bc_markers c j then
        (if i = j then 1 else 0)
      else s.Aff_cells_ c i j - s.Afc_cells_ c i * s.Acf_cells_ c j / s.Acc_ c := by
  unfold schurBlock
  have h := schurSymbolicBC_loop bc_markers s.mesh_ (fun _ => 0) (fun _ => 0) c
    { Bff := fun n m => s.Aff_cells_ c n m - s.Afc_cells_ c n * s.Acf_cells_ c m / s.Acc_ c
      Bfc := fun _ => 0
      Bcf := fun _ => 0
      Ff := fun _ => 0
      Fc := 0 } (s.mesh_.nfaces c)
  simp only at h
  rw [h, bcFace_loop _ _ _ _ _ _ _ (le_refl _)]
  simp only [bcClosed, hi, hj, true_and, and_true]

end Schur

section Inverse

/-- The transposed product with the matrix behind `Afc_` on assembled globals. -/
theorem cfMultiplyT_assembled (s : MatrixMFD) (hwf : s.mesh_.WF) (v : Vec) (f : Nat) :
    cfMultiplyT s.mesh_ (AssembleGlobalMatrices s).Afc_ v f =
      ∑ c in range s.mesh_.ncells, ∑ n in range (s.mesh_.nfaces c),
        if s.mesh_.face c n = f then
          (if s.flag_symmetry_ then s.Acf_cells_ c n else s.Afc_cells_ c n) * v c
        else 0 := by
  rw [cfMultiplyT_eq s.mesh_ _ _ f (fun c hc => hwf.nodup c hc)]
  apply Finset.sum_congr rfl
  intro c hc
  apply Finset.sum_congr rfl
  intro n hn
  rw [AssembleGlobalMatrices_Afc s c n (Finset.mem_range.mp hc) (Finset.mem_range.mp hn)
    (hwf.nodup c (Finset.mem_range.mp hc))]

/-- The product with `Acf_` on assembled globals. -/
theorem cfMultiply_assembled (s : MatrixMFD) (hwf : s.mesh_.WF) (v : Vec) (c : Nat)
    (hc : c < s.mesh_.ncells) :
    cfMultiply s.mesh_ (AssembleGlobalMatrices s).Acf_ v c =
      ∑ n in range (s.mesh_.nfaces c), s.Acf_cells_ c n * v (s.mesh_.face c n) := by
  rw [cfMultiply_eq s.mesh_ _ _ c (hwf.nodup c hc)]
  apply Finset.sum_congr rfl
  intro n hn
  rw [AssembleGlobalMatrices_Acf s c n hc (Finset.mem_range.mp hn) (hwf.nodup c hc)]

/-- The forward elimination of `ApplyInverse` on assembled globals. -/
theorem ApplyInverse_Tf_assembled (bc_markers : Nat → Matrix_bc) (bc_values : Vec)
    (s : MatrixMFD) (hwf : s.mesh_.WF) (X : CompositeVector) (f : Nat) :
    ApplyInverse_Tf (ComputeSchurComplement bc_markers bc_values (AssembleGlobalMatrices s)) X f
      = X.face f - ∑ c in range s.mesh_.ncells, ∑ n in range (s.mesh_.nfaces c),
          if s.mesh_.face c n = f then
            (if s.flag_symmetry_ then s.Acf_cells_ c n else s.Afc_cells_ c n)
              * (X.cell c / s.Acc_cells_ c)
          else 0 := by
  unfold ApplyInverse_Tf
  rw [ComputeSchurComplement_Afc, ComputeSchurComplement_mesh, ComputeSchurComplement_Acc]
  simp only [AssembleGlobalMatrices_mesh, one_mul]
  rw [cfMultiplyT_assembled s hwf]
  have h2 : ∀ c ∈ range s.mesh_.ncells, ∀ n ∈ range (s.mesh_.nfaces c),
      (if s.mesh_.face c n = f then
        (if s.flag_symmetry_ then s.Acf_cells_ c n else s.Afc_cells_ c n)
          * (X.cell c / (AssembleGlobalMatrices s).Acc_ c) else 0)
      = (if s.mesh_.face c n = f then
        (if s.flag_symmetry_ then s.Acf_cells_ c n else s.Afc_cells_ c n)
          * (X.cell c / s.Acc_cells_ c) else 0) := by
    intro c hc n _
    rw [AssembleGlobalMatrices_Acc s c (Finset.mem_range.mp hc)]
  rw [Finset.sum_congr rfl (fun c hc => Finset.sum_congr rfl (h2 c hc))]
  ring


/-- With a supported preconditioner variant `ApplyInverse` returns a vector. -/
theorem ApplyInverse_ok (t : MatrixMFD) (X : CompositeVector)
    (hprec : precSupported t.HAVE_HYPRE t.prec_method_ = true) :
    ApplyInverse t X = Except.ok
      { cell := fun c =>
          1 * (1 * X.cell c
            + (-1) * cfMultiply t.mesh_ t.Acf_ (t.prec_ApplyInverse (ApplyInverse_Tf t X)) c)
            / t.Acc_ c
        face := t.prec_ApplyInverse (ApplyInverse_Tf t X) } := by
  have hne : t.prec_method_ ≠ Prec_method.PREC_METHOD_NULL := by
    intro h
    rw [h] at hprec
    simp [precSupported] at hprec
  unfold ApplyInverse
  rw [if_neg hne, if_pos hprec]

/-- The algebra of static condensation on one face row: if `Yf` solves the reduced system
then the forward operator applied to the back-substituted vector gives back the face data. -/
theorem condensation_face (mesh : Mesh) (Aff : Nat → Mat) (Afc Acf : Nat → Vec) (Acc : Vec)
    (Yf : Vec) (X : CompositeVector) (f : Nat)
    (hS : (∑ c in range mesh.ncells, ∑ n in range (mesh.nfaces c),
        if mesh.face c n = f then
          ∑ m in range (mesh.nfaces c),
            (Aff c n m - Afc c n * Acf c m / Acc c) * Yf (mesh.face c m)
        else 0)
      = X.face f - ∑ c in range mesh.ncells, ∑ n in range (mesh.nfaces c),
          if mesh.face c n = f then Afc c n * (X.cell c / Acc c) else 0) :
    (∑ c in range mesh.ncells, ∑ n in range (mesh.nfaces c),
        if mesh.face c n = f then
          (∑ m in range (mesh.nfaces c), Aff c n m * Yf (mesh.face c m))
            + Afc c n * ((X.cell c
                - ∑ m in range (mesh.nfaces c), Acf c m * Yf (mesh.face c m)) / Acc c)
        else 0)
      = X.face f := by
  have key : ∀ c n,
      (if mesh.face c n = f then
          (∑ m in range (mesh.nfaces c), Aff c n m * Yf (mesh.face c m))
            + Afc c n * ((X.cell c
                - ∑ m in range (mesh.nfaces c), Acf c m * Yf (mesh.face c m)) / Acc c)
        else 0)
      = (if mesh.face c n = f then
          ∑ m in range (mesh.nfaces c),
            (Aff c n m - Afc c n * Acf c m / Acc c) * Yf (mesh.face c m)
        else 0)
        + (if mesh.face c n = f then Afc c n * (X.cell c / Acc c) else 0) := by
    intro c n
    by_cases h : mesh.face c n = f
    · simp only [if_pos h]
      have e : ∑ m in range (mesh.nfaces c),
            (Aff c n m - Afc c n * Acf c m / Acc c) * Yf (mesh.face c m)
          = (∑ m in range (mesh.nfaces c), Aff c n m * Yf (mesh.face c m))
            - Afc c n * ((∑ m in range (mesh.nfaces c), Acf c m * Yf (mesh.face c m))
                / Acc c) := by
        rw [Finset.sum_div, Finset.mul_sum, ← Finset.sum_sub_distrib]
        apply Finset.sum_congr rfl
        intro m _
        ring
      rw [e]
      ring
    · simp only [if_neg h, add_zero]
  simp only [key, Finset.sum_add_distrib]
  rw [hS]
  ring


/-- The entries of `Sff_` when no face is marked Dirichlet: the sum of the local Schur
blocks of the elemental data. -/
theorem Sff_assembled_of_no_dirichlet (bc_markers : Nat → Matrix_bc) (bc_values : Vec)
    (s : MatrixMFD)
    (hnoD : ∀ f, bc_markers f ≠ Matrix_bc.MATRIX_BC_DIRICHLET) (i j : Nat) :
    (ComputeSchurComplement bc_markers bc_values (AssembleGlobalMatrices s)).Sff_ i j =
      ∑ c in range s.mesh_.ncells, ∑ n in range (s.mesh_.nfaces c),
        ∑ m in range (s.mesh_.nfaces c),
          if s.mesh_.face c n = i ∧ s.mesh_.face c m = j then
            s.Aff_cells_ c n m - s.Afc_cells_ c n * s.Acf_cells_ c m / s.Acc_cells_ c
          else 0 := by
  rw [ComputeSchurComplement_Sff]
  simp only [AssembleGlobalMatrices_mesh]
  apply Finset.sum_congr rfl
  intro c hc
  apply Finset.sum_congr rfl
  intro n hn
  apply Finset.sum_congr rfl
  intro m hm
  have hn1 : n < (AssembleGlobalMatrices s).mesh_.nfaces c := by
    rw [AssembleGlobalMatrices_mesh]; exact Finset.mem_range.mp hn
  have hm1 : m < (AssembleGlobalMatrices s).mesh_.nfaces c := by
    rw [AssembleGlobalMatrices_mesh]; exact Finset.mem_range.mp hm
  have hD : ¬ (isDirichlet (AssembleGlobalMatrices s).mesh_ bc_markers c n
      ∨ isDirichlet (AssembleGlobalMatrices s).mesh_ bc_markers c m) := by
    rintro (h | h)
    · exact hnoD _ h
    · exact hnoD _ h
  have e : schurBlock bc_markers c (AssembleGlobalMatrices s) n m
      = s.Aff_cells_ c n m - s.Afc_cells_ c n * s.Acf_cells_ c m / s.Acc_cells_ c := by
    rw [schurBlock_apply bc_markers _ c n m hn1 hm1, if_neg hD,
      AssembleGlobalMatrices_Aff_cells, AssembleGlobalMatrices_Afc_cells,
      AssembleGlobalMatrices_Acf_cells, AssembleGlobalMatrices_Acc s c (Finset.mem_range.mp hc)]
  rw [e]


/-- One row of a local Schur block applied to a vector. -/
theorem schur_row_split (nf : Nat) (A : Nat → ℚ) (a : ℚ) (B : Nat → ℚ) (d : ℚ) (y : Nat → ℚ) :
    ∑ m in range nf, (A m - a * B m / d) * y m
      = (∑ m in range nf, A m * y m) - a * ((∑ m in range nf, B m * y m) / d) := by
  rw [Finset.sum_div, Finset.mul_sum, ← Finset.sum_sub_distrib]
  apply Finset.sum_congr rfl
  intro m _
  ring

/-- The entries of `Sff_` when `ComputeSchurComplement` runs on the blocks that
`ApplyBoundaryConditions` left, with the same markers: the loop "Symbolic boundary
conditions" changes nothing, and `Sff_` is the sum of the local Schur blocks. -/
theorem Sff_assembled_after_bc (bc_markers : Nat → Matrix_bc) (bc_values : Vec)
    (s : MatrixMFD) (i j : Nat) :
    (ComputeSchurComplement bc_markers bc_values
        (AssembleGlobalMatrices (ApplyBoundaryConditions bc_markers bc_values s))).Sff_ i j =
      ∑ c in range s.mesh_.ncells, ∑ n in range (s.mesh_.nfaces c),
        ∑ m in range (s.mesh_.nfaces c),
          if s.mesh_.face c n = i ∧ s.mesh_.face c m = j then
            (ApplyBoundaryConditions bc_markers bc_values s).Aff_cells_ c n m
              - (ApplyBoundaryConditions bc_markers bc_values s).Afc_cells_ c n
                * (ApplyBoundaryConditions bc_markers bc_values s).Acf_cells_ c m
                / s.Acc_cells_ c
          else 0 := by
  have hm : (ApplyBoundaryConditions bc_markers bc_values s).mesh_ = s.mesh_ :=
    ApplyBoundaryConditions_mesh _ _ s
  rw [ComputeSchurComplement_Sff]
  simp only [AssembleGlobalMatrices_mesh, hm]
  apply Finset.sum_congr rfl
  intro c hc
  apply Finset.sum_congr rfl
  intro n hn
  apply Finset.sum_congr rfl
  intro m hm'
  have hc1 := Finset.mem_range.mp hc
  have hn0 := Finset.mem_range.mp hn
  have hm0 := Finset.mem_range.mp hm'
  have hn1 : n < (AssembleGlobalMatrices
      (ApplyBoundaryConditions bc_markers bc_values s)).mesh_.nfaces c := by
    rw [AssembleGlobalMatrices_mesh, hm]; exact hn0
  have hm1 : m < (AssembleGlobalMatrices
      (ApplyBoundaryConditions bc_markers bc_values s)).mesh_.nfaces c := by
    rw [AssembleGlobalMatrices_mesh, hm]; exact hm0
  have hc2 : c < (ApplyBoundaryConditions bc_markers bc_values s).mesh_.ncells := by
    rw [hm]; exact hc1
  have e : schurBlock bc_markers c
        (AssembleGlobalMatrices (ApplyBoundaryConditions bc_markers bc_values s)) n m
      = (ApplyBoundaryConditions bc_markers bc_values s).Aff_cells_ c n m
          - (ApplyBoundaryConditions bc_markers bc_values s).Afc_cells_ c n
            * (ApplyBoundaryConditions bc_markers bc_values s).Acf_cells_ c m
            / s.Acc_cells_ c := by
    rw [schurBlock_apply bc_markers _ c n m hn1 hm1, AssembleGlobalMatrices_Aff_cells,
      AssembleGlobalMatrices_Afc_cells, AssembleGlobalMatrices_Acf_cells,
      AssembleGlobalMatrices_Acc _ c hc2, ApplyBoundaryConditions_Acc_cells,
      AssembleGlobalMatrices_mesh, hm]
    by_cases hD : isDirichlet s.mesh_ bc_markers c n ∨ isDirichlet s.mesh_ bc_markers c m
    · rw [if_pos hD, ApplyBoundaryConditions_Aff_cells _ _ s c hc1,
        ApplyBoundaryConditions_Afc_cells _ _ s c hc1,
        ApplyBoundaryConditions_Acf_cells _ _ s c hc1, bcCell_Bff _ _ s c n m hn0 hm0,
        if_pos hD, (bcCell_Bcf _ _ s c n hn0).2, (bcCell_Bcf _ _ s c m hm0).1]
      rcases hD with h | h
      · rw [if_pos h]; ring
      · rw [if_pos h]; ring
    · rw [if_neg hD]
  rw [e]


end Inverse

section Flux

variable (s : MatrixMFD) (nfaces_owned : Nat)

/-- One pass of the face loop of `DeriveFlux` keeps the flags and the record consistent. -/
theorem DeriveFlux_face_consistent (c : Nat) (dp : Vec) (n : Nat) (st : FluxState)
    (h : st.consistent) : (DeriveFlux_face s nfaces_owned c dp n st).consistent := by
  unfold DeriveFlux_face
  by_cases hc : (decide (s.mesh_.face c n < nfaces_owned) && !st.done (s.mesh_.face c n)) = true
  · simp only [hc, if_true]
    have hnd : st.done (s.mesh_.face c n) = false := by
      simp only [Bool.and_eq_true, Bool.not_eq_true', decide_eq_true_eq] at hc
      exact hc.2
    have hnotin : s.mesh_.face c n ∉ st.written := by
      intro hin
      have := (h.1 _).mpr hin
      rw [hnd] at this
      exact Bool.noConfusion this
    constructor
    · intro f
      simp only [Function.update_apply, List.mem_append, List.mem_singleton]
      by_cases hf : f = s.mesh_.face c n
      · simp [hf]
      · simp only [if_neg hf, hf, or_false]
        exact h.1 f
    · rw [List.nodup_append]
      refine ⟨h.2, List.nodup_singleton _, ?_⟩
      intro a ha hb
      rw [List.mem_singleton] at hb
      subst hb
      exact hnotin ha
  · simp only [hc]
    exact h

/-- One pass of the face loop of `DeriveFlux` clears no flag. -/
theorem DeriveFlux_face_mono (c : Nat) (dp : Vec) (n : Nat) (st : FluxState) (f : Nat)
    (h : st.done f = true) : (DeriveFlux_face s nfaces_owned c dp n st).done f = true := by
  unfold DeriveFlux_face
  simp only
  split_ifs
  · simp only [Function.update_apply]
    split_ifs
    · rfl
    · exact h
  · exact h

/-- One pass of the face loop of `DeriveFlux` leaves an owned face flagged. -/
theorem DeriveFlux_face_done (c : Nat) (dp : Vec) (n : Nat) (st : FluxState)
    (hf : s.mesh_.face c n < nfaces_owned) :
    (DeriveFlux_face s nfaces_owned c dp n st).done (s.mesh_.face c n) = true := by
  unfold DeriveFlux_face
  by_cases hd : st.done (s.mesh_.face c n) = true
  · simp [hd]
  · simp [hd, hf]

/-- The face loop of `DeriveFlux` on one cell: consistency is kept, no flag is cleared, and
the owned faces among the first `k` local faces are flagged. -/
theorem DeriveFlux_face_loop (c : Nat) (dp : Vec) (st : FluxState) (h : st.consistent)
    (k : Nat) :
    (forLoop k (DeriveFlux_face s nfaces_owned c dp) st).consistent
    ∧ (∀ f, st.done f = true →
        (forLoop k (DeriveFlux_face s nfaces_owned c dp) st).done f = true)
    ∧ (∀ n, n < k → s.mesh_.face c n < nfaces_owned →
        (forLoop k (DeriveFlux_face s nfaces_owned c dp) st).done (s.mesh_.face c n) = true) := by
  induction k with
  | zero =>
    exact ⟨h, fun _ hf => hf, fun n hn _ => absurd hn (Nat.not_lt_zero n)⟩
  | succ k ih =>
    obtain ⟨ih1, ih2, ih3⟩ := ih
    rw [forLoop_succ]
    refine ⟨DeriveFlux_face_consistent s nfaces_owned c dp k _ ih1, ?_, ?_⟩
    · intro f hf
      exact DeriveFlux_face_mono s nfaces_owned c dp k _ f (ih2 f hf)
    · intro n hn hlt
      rcases Nat.lt_succ_iff_lt_or_eq.mp hn with h1 | h1
      · exact DeriveFlux_face_mono s nfaces_owned c dp k _ _ (ih3 n h1 hlt)
      · subst h1
        exact DeriveFlux_face_done s nfaces_owned c dp n _ hlt

/-- The cell loop of `DeriveFlux`: consistency is kept and the owned faces of the first `k`
cells are flagged. -/
theorem DeriveFlux_cell_loop (solution : CompositeVector) (st : FluxState)
    (h : st.consistent) (k : Nat) :
    (forLoop k (DeriveFlux_cell s solution nfaces_owned) st).consistent
    ∧ (∀ c, c < k → ∀ n, n < s.mesh_.nfaces c → s.mesh_.face c n < nfaces_owned →
        (forLoop k (DeriveFlux_cell s solution nfaces_owned) st).done (s.mesh_.face c n)
          = true) := by
  induction k with
  | zero =>
    exact ⟨h, fun c hc => absurd hc (Nat.not_lt_zero c)⟩
  | succ k ih =>
    obtain ⟨ih1, ih2⟩ := ih
    rw [forLoop_succ]
    unfold DeriveFlux_cell
    obtain ⟨l1, l2, l3⟩ := DeriveFlux_face_loop s nfaces_owned k
      (fun n => solution.cell k - solution.face (s.mesh_.face k n))
      (forLoop k (DeriveFlux_cell s solution nfaces_owned) st) ih1 (s.mesh_.nfaces k)
    refine ⟨l1, ?_⟩
    intro c hc n hn hlt
    rcases Nat.lt_succ_iff_lt_or_eq.mp hc with h1 | h1
    · exact l2 _ (ih2 c h1 n hn hlt)
    · subst h1
      exact l3 n hn hlt

/-- A pass of the face loop at a face other than `f` leaves the entry and the flag of `f`. -/
theorem DeriveFlux_face_other (c : Nat) (dp : Vec) (n : Nat) (st : FluxState) (f : Nat)
    (hne : s.mesh_.face c n ≠ f) :
    (DeriveFlux_face s nfaces_owned c dp n st).flux_v f = st.flux_v f
    ∧ (DeriveFlux_face s nfaces_owned c dp n st).done f = st.done f := by
  unfold DeriveFlux_face
  simp only
  split_ifs
  · have hne2 : ¬ f = s.mesh_.face c n := fun e => hne e.symm
    simp only [vecSet_apply, Function.update_apply, if_neg hne2, and_self]
  · exact ⟨rfl, rfl⟩

/-- A pass of the face loop does not write a face that is flagged done. -/
theorem DeriveFlux_face_keep (c : Nat) (dp : Vec) (n : Nat) (st : FluxState) (f : Nat)
    (hd : st.done f = true) :
    (DeriveFlux_face s nfaces_owned c dp n st).flux_v f = st.flux_v f := by
  by_cases hne : s.mesh_.face c n = f
  · unfold DeriveFlux_face
    simp only [hne, hd, Bool.not_true, Bool.and_false, Bool.false_eq_true, if_false]
  · exact (DeriveFlux_face_other s nfaces_owned c dp n st f hne).1

/-- A pass of the face loop at an owned face that is not flagged writes it. -/
theorem DeriveFlux_face_write (c : Nat) (dp : Vec) (n : Nat) (st : FluxState)
    (hlt : s.mesh_.face c n < nfaces_owned) (hd : st.done (s.mesh_.face c n) = false) :
    (DeriveFlux_face s nfaces_owned c dp n st).flux_v (s.mesh_.face c n)
      = (∑ m in range (s.mesh_.nfaces c), s.Aff_cells_ c n m * dp m)
          * (s.mesh_.dir c n : ℚ) * s.Krel_ (s.mesh_.face c n) := by
  unfold DeriveFlux_face
  simp [hlt, hd]

/-- The face loop on one cell clears no flag. -/
theorem forLoop_done_mono (c : Nat) (dp : Vec) (st : FluxState) (f : Nat)
    (hd : st.done f = true) (k : Nat) :
    (forLoop k (DeriveFlux_face s nfaces_owned c dp) st).done f = true := by
  induction k with
  | zero => exact hd
  | succ k ih => exact DeriveFlux_face_mono s nfaces_owned c dp k _ f ih

/-- The face loop on one cell does not write a face that is flagged done. -/
theorem DeriveFlux_face_loop_keep (c : Nat) (dp : Vec) (st : FluxState) (f : Nat)
    (hd : st.done f = true) (k : Nat) :
    (forLoop k (DeriveFlux_face s nfaces_owned c dp) st).flux_v f = st.flux_v f := by
  induction k with
  | zero => rfl
  | succ k ih =>
    rw [forLoop_succ, DeriveFlux_face_keep s nfaces_owned c dp k _ f
      (forLoop_done_mono s nfaces_owned c dp st f hd k), ih]

/-- The face loop on one cell, as long as it has not met the face `f`, leaves its entry and
its flag. -/
theorem DeriveFlux_face_loop_other (c : Nat) (dp : Vec) (st : FluxState) (f : Nat) (k : Nat)
    (hne : ∀ n, n < k → s.mesh_.face c n ≠ f) :
    (forLoop k (DeriveFlux_face s nfaces_owned c dp) st).flux_v f = st.flux_v f
    ∧ (forLoop k (DeriveFlux_face s nfaces_owned c dp) st).done f = st.done f := by
  induction k with
  | zero => exact ⟨rfl, rfl⟩
  | succ k ih =>
    obtain ⟨i1, i2⟩ := ih (fun n hn => hne n (Nat.lt_succ_of_lt hn))
    obtain ⟨o1, o2⟩ := DeriveFlux_face_other s nfaces_owned c dp k
      (forLoop k (DeriveFlux_face s nfaces_owned c dp) st) f (hne k (Nat.lt_succ_self k))
    rw [forLoop_succ]
    exact ⟨o1.trans i1, o2.trans i2⟩


/-- The face loop on one cell writes the first local face that is the unflagged owned face
`f`, and leaves that value to the end. -/
theorem DeriveFlux_face_loop_write (c : Nat) (dp : Vec) (st : FluxState) (n : Nat)
    (hlt : s.mesh_.face c n < nfaces_owned) (hd : st.done (s.mesh_.face c n) = false)
    (hfirst : ∀ i, i < n → s.mesh_.face c i ≠ s.mesh_.face c n) (k : Nat) (hk : n < k) :
    (forLoop k (DeriveFlux_face s nfaces_owned c dp) st).flux_v (s.mesh_.face c n)
      = (∑ m in range (s.mesh_.nfaces c), s.Aff_cells_ c n m * dp m)
          * (s.mesh_.dir c n : ℚ) * s.Krel_ (s.mesh_.face c n)
    ∧ (forLoop k (DeriveFlux_face s nfaces_owned c dp) st).done (s.mesh_.face c n) = true := by
  induction k with
  | zero => exact absurd hk (Nat.not_lt_zero n)
  | succ k ih =>
    rw [forLoop_succ]
    rcases Nat.lt_succ_iff_lt_or_eq.mp hk with h1 | h1
    · obtain ⟨i1, i2⟩ := ih h1
      exact ⟨(DeriveFlux_face_keep s nfaces_owned c dp k _ _ i2).trans i1,
        DeriveFlux_face_mono s nfaces_owned c dp k _ _ i2⟩
    · subst h1
      have h0 := DeriveFlux_face_loop_other s nfaces_owned c dp st (s.mesh_.face c n) n hfirst
      exact ⟨DeriveFlux_face_write s nfaces_owned c dp n _ hlt (h0.2.trans hd),
        DeriveFlux_face_done s nfaces_owned c dp n _ hlt⟩

/-- The cell loop of `DeriveFlux` neither writes a face that is flagged done nor clears its
flag. -/
theorem DeriveFlux_cell_loop_keep (solution : CompositeVector) (st : FluxState) (f : Nat)
    (hd : st.done f = true) (k : Nat) :
    (forLoop k (DeriveFlux_cell s solution nfaces_owned) st).flux_v f = st.flux_v f
    ∧ (forLoop k (DeriveFlux_cell s solution nfaces_owned) st).done f = true := by
  induction k with
  | zero => exact ⟨rfl, hd⟩
  | succ k ih =>
    obtain ⟨i1, i2⟩ := ih
    rw [forLoop_succ]
    unfold DeriveFlux_cell
    exact ⟨(DeriveFlux_face_loop_keep s nfaces_owned k _ _ f i2 _).trans i1,
      forLoop_done_mono s nfaces_owned k _ _ f i2 _⟩

/-- The cell loop of `DeriveFlux`, as long as no visited cell has the face `f`, leaves its
entry and its flag. -/
theorem DeriveFlux_cell_loop_other (solution : CompositeVector) (st : FluxState) (f : Nat)
    (k : Nat) (hne : ∀ c, c < k → f ∉ s.mesh_.cell_faces c) :
    (forLoop k (DeriveFlux_cell s solution nfaces_owned) st).flux_v f = st.flux_v f
    ∧ (forLoop k (DeriveFlux_cell s solution nfaces_owned) st).done f = st.done f := by
  induction k with
  | zero => exact ⟨rfl, rfl⟩
  | succ k ih =>
    obtain ⟨i1, i2⟩ := ih (fun c hc => hne c (Nat.lt_succ_of_lt hc))
    rw [forLoop_succ]
    unfold DeriveFlux_cell
    have hk : ∀ n, n < s.mesh_.nfaces k → s.mesh_.face k n ≠ f := by
      intro n hn e
      exact hne k (Nat.lt_succ_self k) ((s.mesh_.mem_faces_iff k f).mpr ⟨n, hn, e⟩)
    obtain ⟨o1, o2⟩ := DeriveFlux_face_loop_other s nfaces_owned k
      (fun n => solution.cell k - solution.face (s.mesh_.face k n))
      (forLoop k (DeriveFlux_cell s solution nfaces_owned) st) f (s.mesh_.nfaces k) hk
    exact ⟨o1.trans i1, o2.trans i2⟩

/-- The cell loop of `DeriveFlux` writes an owned face from the first cell that has it, at
the first local index where it occurs, and leaves that value to the end. -/
theorem DeriveFlux_cell_loop_write (solution : CompositeVector) (st : FluxState)
    (c n : Nat) (hn : n < s.mesh_.nfaces c)
    (hlt : s.mesh_.face c n < nfaces_owned) (hd : st.done (s.mesh_.face c n) = false)
    (hfirstn : ∀ i, i < n → s.mesh_.face c i ≠ s.mesh_.face c n)
    (hfirstc : ∀ b, b < c → s.mesh_.face c n ∉ s.mesh_.cell_faces b)
    (k : Nat) (hk : c < k) :
    (forLoop k (DeriveFlux_cell s solution nfaces_owned) st).flux_v (s.mesh_.face c n)
      = fluxValue s solution c n := by
  have key : ∀ k, c < k →
      (forLoop k (DeriveFlux_cell s solution nfaces_owned) st).flux_v (s.mesh_.face c n)
        = fluxValue s solution c n
      ∧ (forLoop k (DeriveFlux_cell s solution nfaces_owned) st).done (s.mesh_.face c n)
        = true := by
    intro k
    induction k with
    | zero => intro h; exact absurd h (Nat.not_lt_zero c)
    | succ k ih =>
      intro hk
      rw [forLoop_succ]
      rcases Nat.lt_succ_iff_lt_or_eq.mp hk with h1 | h1
      · obtain ⟨i1, i2⟩ := ih h1
        unfold DeriveFlux_cell
        exact ⟨(DeriveFlux_face_loop_keep s nfaces_owned k _ _ _ i2 _).trans i1,
          forLoop_done_mono s nfaces_owned k _ _ _ i2 _⟩
      · subst h1
        have h0 := DeriveFlux_cell_loop_other s nfaces_owned solution st
          (s.mesh_.face c n) c hfirstc
        unfold DeriveFlux_cell
        exact DeriveFlux_face_loop_write s nfaces_owned c _ _ n hlt (h0.2.trans hd) hfirstn
          (s.mesh_.nfaces c) hn
  exact (key k hk).1


/-- `DeriveFlux` reads the mesh, the face multiplier and the face-face blocks of the owned
cells only. -/
theorem DeriveFlux_loop_congr (t : MatrixMFD) (solution : CompositeVector)
    (hm : t.mesh_ = s.mesh_) (hK : t.Krel_ = s.Krel_)
    (hA : ∀ c, c < s.mesh_.ncells → t.Aff_cells_ c = s.Aff_cells_ c) :
    DeriveFlux_loop t solution = DeriveFlux_loop s solution
    ∧ DeriveFlux t solution = DeriveFlux s solution := by
  have h1 : DeriveFlux_loop t solution = DeriveFlux_loop s solution := by
    unfold DeriveFlux_loop
    rw [hm]
    apply forLoop_congr
    intro c hc st
    unfold DeriveFlux_cell
    rw [hm]
    apply forLoop_congr
    intro n _ st2
    unfold DeriveFlux_face
    rw [hm, hK, hA c hc]
  refine ⟨h1, ?_⟩
  unfold DeriveFlux
  rw [h1, hm]

/-- When every owned face is incident to an owned cell, `DeriveFlux` returns the flux its
loops computed. -/
theorem DeriveFlux_ok_of_incident (solution : CompositeVector)
    (hinc : ∀ f, f < s.mesh_.nfaces_owned →
      ∃ c, c < s.mesh_.ncells ∧ f ∈ s.mesh_.cell_faces c) :
    DeriveFlux s solution = Except.ok (DeriveFlux_loop s solution).flux_v := by
  have h0 : ({ flux_v := fun _ => 0, done := fun _ => false, written := [] } :
      FluxState).consistent := ⟨fun f => by simp, List.nodup_nil⟩
  obtain ⟨_, hdone⟩ := DeriveFlux_cell_loop s s.mesh_.nfaces_owned solution _ h0
    s.mesh_.ncells
  have hall : ∀ f, f < s.mesh_.nfaces_owned → (DeriveFlux_loop s solution).done f = true := by
    intro f hf
    obtain ⟨c, hc, hmem⟩ := hinc f hf
    obtain ⟨n, hn, e⟩ := (s.mesh_.mem_faces_iff c f).mp hmem
    have := hdone c hc n hn (by rw [e]; exact hf)
    rw [e] at this
    exact this
  unfold DeriveFlux
  simp only
  rw [if_pos hall]


/-- The flux `DeriveFlux` leaves at an owned face: the value computed from the first cell
that has the face, at the first local index where it occurs. -/
theorem DeriveFlux_loop_value (solution : CompositeVector) (c n : Nat)
    (hc : c < s.mesh_.ncells) (hn : n < s.mesh_.nfaces c)
    (hlt : s.mesh_.face c n < s.mesh_.nfaces_owned)
    (hfirstn : ∀ i, i < n → s.mesh_.face c i ≠ s.mesh_.face c n)
    (hfirstc : ∀ b, b < c → s.mesh_.face c n ∉ s.mesh_.cell_faces b) :
    (DeriveFlux_loop s solution).flux_v (s.mesh_.face c n) = fluxValue s solution c n :=
  DeriveFlux_cell_loop_write s s.mesh_.nfaces_owned solution
    { flux_v := fun _ => 0, done := fun _ => false, written := [] } c n hn hlt rfl hfirstn
    hfirstc s.mesh_.ncells hc


end Flux

section PList

/-- `methodFromString` leaves the final `else` branch aside exactly for the seven names. -/
theorem methodFromString_isSome_iff (m : String) :
    (∃ v, methodFromString m = some v) ↔ m ∈ methodNames := by
  unfold methodFromString methodNames
  simp only [List.mem_cons, List.mem_singleton, List.not_mem_nil, or_false]
  split_ifs with h1 h2 h3 h4 h5 h6 h7
  all_goals simp [*]

/-- `precFromString` leaves the final `else` branch aside exactly for the names in
`precNames`. -/
theorem precFromString_isSome_iff (have_hypre : Bool) (p : String) :
    (∃ v, precFromString have_hypre p = some v) ↔ p ∈ precNames have_hypre := by
  unfold precFromString precNames
  cases have_hypre
  · simp only [Bool.false_eq_true, false_and, if_false, List.mem_cons, List.mem_singleton,
      List.not_mem_nil, or_false]
    split_ifs with h1 h2 h3
    all_goals simp [*]
  · simp only [true_and, if_true, List.mem_cons, List.mem_singleton, List.not_mem_nil,
      or_false]
    split_ifs with h1 h2 h3 h4 h5 h6
    all_goals simp [*]

/-- `InitializeFromPList_` returns exactly when the method name is one of the seven and the
preconditioner name, if there is one, has a branch. -/
theorem InitializeFromPList_ok_iff (have_hypre : Bool) (plist_ : ParameterList) :
    (∃ r, InitializeFromPList_ have_hypre plist_ = Except.ok r) ↔
      ((∃ m, plist_.entry_MFD_method = some m ∧ m ∈ methodNames)
        ∧ (∀ p, plist_.entry_preconditioner = some p → p ∈ precNames have_hypre)) := by
  unfold InitializeFromPList_
  cases hm : plist_.entry_MFD_method with
  | none => simp
  | some m =>
    cases hv : methodFromString m with
    | none =>
      have hnot : m ∉ methodNames := by
        intro hin
        obtain ⟨v, e⟩ := (methodFromString_isSome_iff m).mpr hin
        rw [hv] at e
        exact Option.noConfusion e
      simp [hv, hnot]
    | some v =>
      have hin : m ∈ methodNames := (methodFromString_isSome_iff m).mp ⟨v, hv⟩
      cases hp : plist_.entry_preconditioner with
      | none => simp [hv, hin]
      | some p =>
        cases hq : precFromString have_hypre p with
        | none =>
          have hnot : p ∉ precNames have_hypre := by
            intro h
            obtain ⟨w, e⟩ := (precFromString_isSome_iff have_hypre p).mpr h
            rw [hq] at e
            exact Option.noConfusion e
          simp [hv, hq, hin, hnot]
        | some w =>
          have hpin : p ∈ precNames have_hypre :=
            (precFromString_isSome_iff have_hypre p).mp ⟨w, hq⟩
          simp [hv, hq, hin, hpin]

end PList

section Velocity

/-- The loop over `j` of `DeriveCellVelocity`: after `r` passes the entries `(i, j)` and
`(j, i)` with `i < j < i + 1 + r` hold `matrix(i, j) + normal[i] * normal[j]`. -/
theorem DeriveCellVelocity_j_loop (normal : Nat → ℚ) (i r : Nat) (t : LeastSquares) :
    (forLoop r (DeriveCellVelocity_j normal i) t).rhs_cell = t.rhs_cell
    ∧ ∀ a b, (forLoop r (DeriveCellVelocity_j normal i) t).matrix a b =
      if a = i ∧ i < b ∧ b < i + 1 + r then t.matrix i b + normal i * normal b
      else if b = i ∧ i < a ∧ a < i + 1 + r then t.matrix i a + normal i * normal a
      else t.matrix a b := by
  induction r with
  | zero =>
    refine ⟨rfl, fun a b => ?_⟩
    rw [if_neg (by omega), if_neg (by omega)]
    rfl
  | succ r ih =>
    obtain ⟨ihr, ihm⟩ := ih
    rw [forLoop_succ]
    refine ⟨ihr, fun a b => ?_⟩
    simp only [DeriveCellVelocity_j, Mat.set, ihm]
    split_ifs
    all_goals first
      | rfl
      | (exfalso; omega)
      | (have ha : a = i + 1 + r := by omega
         subst ha; rfl)
      | (have hb : b = i + 1 + r := by omega
         subst hb; rfl)

/-- One pass of the loop over `i` of `DeriveCellVelocity`. -/
theorem DeriveCellVelocity_i_apply (dim : Nat) (normal : Nat → ℚ) (flux_f : ℚ) (i : Nat)
    (hi : i < dim) (t : LeastSquares) :
    (DeriveCellVelocity_i dim normal flux_f i t).rhs_cell
      = t.rhs_cell.set i (t.rhs_cell i + normal i * flux_f)
    ∧ ∀ a b, (DeriveCellVelocity_i dim normal flux_f i t).matrix a b =
      if a = i ∧ i ≤ b ∧ b < dim then t.matrix i b + normal i * normal b
      else if b = i ∧ i < a ∧ a < dim then t.matrix i a + normal i * normal a
      else t.matrix a b := by
  unfold DeriveCellVelocity_i
  obtain ⟨hr, hm⟩ := DeriveCellVelocity_j_loop normal i (dim - (i + 1))
    { matrix := t.matrix.set i i (t.matrix i i + normal i * normal i)
      rhs_cell := t.rhs_cell.set i (t.rhs_cell i + normal i * flux_f) }
  refine ⟨hr, fun a b => ?_⟩
  have e : i + 1 + (dim - (i + 1)) = dim := by omega
  rw [hm a b, e]
  simp only [Mat.set]
  split_ifs
  all_goals first
    | rfl
    | (exfalso; omega)
    | (have hb : b = i := by omega
       subst hb; rfl)

/-- The loop over `i` of `DeriveCellVelocity` for one face, started on a symmetric matrix:
after `k` passes the entries with a row or column index below `k` have received
`normal[a] * normal[b]`. -/
theorem DeriveCellVelocity_i_loop (dim : Nat) (normal : Nat → ℚ) (flux_f : ℚ)
    (t : LeastSquares) (hsym : ∀ a b, t.matrix a b = t.matrix b a) (k : Nat) (hk : k ≤ dim) :
    (∀ a, (forLoop k (DeriveCellVelocity_i dim normal flux_f) t).rhs_cell a
        = t.rhs_cell a + if a < k then normal a * flux_f else 0)
    ∧ ∀ a b, (forLoop k (DeriveCellVelocity_i dim normal flux_f) t).matrix a b
        = t.matrix a b
          + if a < dim ∧ b < dim ∧ (a < k ∨ b < k) then normal a * normal b else 0 := by
  induction k with
  | zero =>
    refine ⟨fun a => ?_, fun a b => ?_⟩
    · rw [if_neg (by omega), add_zero]; rfl
    · rw [if_neg (by omega), add_zero]; rfl
  | succ k ih =>
    obtain ⟨ihr, ihm⟩ := ih (by omega)
    obtain ⟨hr, hm⟩ := DeriveCellVelocity_i_apply dim normal flux_f k (by omega)
      (forLoop k (DeriveCellVelocity_i dim normal flux_f) t)
    rw [forLoop_succ]
    refine ⟨fun a => ?_, fun a b => ?_⟩
    · rw [hr]
      simp only [Vec.set, ihr]
      split_ifs
      all_goals first
        | ring1
        | (exfalso; omega)
        | (have ha : a = k := by omega
           subst ha; ring1)
    · rw [hm a b]
      simp only [ihm]
      split_ifs
      all_goals first
        | ring1
        | (exfalso; omega)
        | (have ha : a = k := by omega
           subst ha; ring1)
        | (have hb : b = k := by omega
           subst hb; rw [hsym a b]; ring1)

/-- One pass of the loop over the faces in `DeriveCellVelocity`, on a symmetric matrix. -/
theorem DeriveCellVelocity_face_apply (mesh : Mesh) (flux : CompositeVector) (c n : Nat)
    (t : LeastSquares) (hsym : ∀ a b, t.matrix a b = t.matrix b a) :
    (∀ a, (DeriveCellVelocity_face mesh flux c n t).rhs_cell a
        = t.rhs_cell a + if a < mesh.space_dimension then
            mesh.face_normal (mesh.face c n) a * flux.face (mesh.face c n) else 0)
    ∧ ∀ a b, (DeriveCellVelocity_face mesh flux c n t).matrix a b
        = t.matrix a b
          + if a < mesh.space_dimension ∧ b < mesh.space_dimension then
              mesh.face_normal (mesh.face c n) a * mesh.face_normal (mesh.face c n) b
            else 0 := by
  unfold DeriveCellVelocity_face
  obtain ⟨hr, hm⟩ := DeriveCellVelocity_i_loop mesh.space_dimension
    (mesh.face_normal (mesh.face c n)) (flux.face (mesh.face c n)) t hsym
    mesh.space_dimension (le_refl _)
  refine ⟨hr, fun a b => ?_⟩
  rw [hm a b]
  congr 1
  by_cases h : a < mesh.space_dimension ∧ b < mesh.space_dimension
  · rw [if_pos h, if_pos ⟨h.1, h.2, Or.inl h.1⟩]
  · rw [if_neg h, if_neg (fun h2 => h ⟨h2.1, h2.2.1⟩)]

/-- The loop over the first `k` faces of cell `c` in `DeriveCellVelocity`, started on the
zero matrix and the zero array. -/
theorem DeriveCellVelocity_face_loop (mesh : Mesh) (flux : CompositeVector) (c k : Nat) :
    (∀ a, (forLoop k (DeriveCellVelocity_face mesh flux c)
        { matrix := fun _ _ => 0, rhs_cell := fun _ => 0 }).rhs_cell a
        = if a < mesh.space_dimension then
            ∑ n in range k, mesh.face_normal (mesh.face c n) a * flux.face (mesh.face c n)
          else 0)
    ∧ ∀ a b, (forLoop k (DeriveCellVelocity_face mesh flux c)
        { matrix := fun _ _ => 0, rhs_cell := fun _ => 0 }).matrix a b
        = if a < mesh.space_dimension ∧ b < mesh.space_dimension then
            ∑ n in range k,
              mesh.face_normal (mesh.face c n) a * mesh.face_normal (mesh.face c n) b
          else 0 := by
  induction k with
  | zero =>
    refine ⟨fun a => ?_, fun a b => ?_⟩
    · simp [forLoop]
    · simp [forLoop]
  | succ k ih =>
    obtain ⟨ihr, ihm⟩ := ih
    have hsym : ∀ a b, (forLoop k (DeriveCellVelocity_face mesh flux c)
        { matrix := fun _ _ => 0, rhs_cell := fun _ => 0 }).matrix a b
        = (forLoop k (DeriveCellVelocity_face mesh flux c)
        { matrix := fun _ _ => 0, rhs_cell := fun _ => 0 }).matrix b a := by
      intro a b
      rw [ihm a b, ihm b a]
      by_cases h : a < mesh.space_dimension ∧ b < mesh.space_dimension
      · rw [if_pos h, if_pos ⟨h.2, h.1⟩]
        exact Finset.sum_congr rfl (fun n _ => mul_comm _ _)
      · rw [if_neg h, if_neg (fun h2 => h ⟨h2.2, h2.1⟩)]
    obtain ⟨hr, hm⟩ := DeriveCellVelocity_face_apply mesh flux c k _ hsym
    rw [forLoop_succ]
    refine ⟨fun a => ?_, fun a b => ?_⟩
    · rw [hr a, ihr a, Finset.sum_range_succ]
      split_ifs
      · rfl
      · ring1
    · rw [hm a b, ihm a b, Finset.sum_range_succ]
      split_ifs
      · rfl
      · ring1

/-- The matrix that `DeriveCellVelocity` passes to `POSV` for cell `c`. -/
theorem DeriveCellVelocity_system_matrix (mesh : Mesh) (flux : CompositeVector)
    (c a b : Nat) :
    (DeriveCellVelocity_system mesh flux c).matrix a b
      = if a < mesh.space_dimension ∧ b < mesh.space_dimension then
          ∑ n in range (mesh.nfaces c),
            mesh.face_normal (mesh.face c n) a * mesh.face_normal (mesh.face c n) b
        else 0 :=
  (DeriveCellVelocity_face_loop mesh flux c (mesh.nfaces c)).2 a b

/-- The array that `DeriveCellVelocity` passes to `POSV` for cell `c`. -/
theorem DeriveCellVelocity_system_rhs (mesh : Mesh) (flux : CompositeVector) (c a : Nat) :
    (DeriveCellVelocity_system mesh flux c).rhs_cell a
      = if a < mesh.space_dimension then
          ∑ n in range (mesh.nfaces c),
            mesh.face_normal (mesh.face c n) a * flux.face (mesh.face c n)
        else 0 :=
  (DeriveCellVelocity_face_loop mesh flux c (mesh.nfaces c)).1 a

/-- The loop `(*velocity)("cell", i, c) = rhs_cell[i]`. -/
theorem velocityLoop_apply (x : Vec) (c k : Nat) (velocity : Mat) (a b : Nat) :
    forLoop k (fun i v => Mat.set v i c (x i)) velocity a b
      = if a < k ∧ b = c then x a else velocity a b := by
  induction k with
  | zero => rw [if_neg (by omega)]; rfl
  | succ k ih =>
    rw [forLoop_succ]
    simp only [Mat.set, ih]
    split_ifs
    all_goals first
      | rfl
      | (exfalso; omega)
      | (have ha : a = k := by omega
         subst ha; rfl)

/-- One pass of the cell loop of `DeriveCellVelocity`. -/
theorem DeriveCellVelocity_cell_apply (POSV : Nat → Mat → Vec → Vec) (s : MatrixMFD)
    (flux : CompositeVector) (c : Nat) (velocity : Mat) (a b : Nat) :
    DeriveCellVelocity_cell POSV s flux c velocity a b
      = if a < s.mesh_.space_dimension ∧ b = c then
          POSV s.mesh_.space_dimension (DeriveCellVelocity_system s.mesh_ flux c).matrix
            (DeriveCellVelocity_system s.mesh_ flux c).rhs_cell a
        else velocity a b :=
  velocityLoop_apply _ c s.mesh_.space_dimension velocity a b

/-- The velocity after `DeriveCellVelocity`: the components of an owned cell hold what
`POSV` left in `rhs_cell` for that cell. -/
theorem DeriveCellVelocity_apply (POSV : Nat → Mat → Vec → Vec) (s : MatrixMFD)
    (flux : CompositeVector) (velocity : Mat) (i c : Nat) :
    DeriveCellVelocity POSV s flux velocity i c
      = if i < s.mesh_.space_dimension ∧ c < s.mesh_.ncells then
          POSV s.mesh_.space_dimension (DeriveCellVelocity_system s.mesh_ flux c).matrix
            (DeriveCellVelocity_system s.mesh_ flux c).rhs_cell i
        else velocity i c := by
  unfold DeriveCellVelocity
  generalize s.mesh_.ncells = k
  induction k with
  | zero => rw [if_neg (by omega)]; rfl
  | succ k ih =>
    rw [forLoop_succ, DeriveCellVelocity_cell_apply, ih]
    split_ifs
    all_goals first
      | rfl
      | (exfalso; omega)
      | (have hc : c = k := by omega
         subst hc; rfl)

end Velocity

section Residual

/-- `Apply` on explicit storage assigns only to the storage of `Y`. -/
theorem Apply_heap_frame (s : MatrixMFD) (x y : Nat) (heap : Nat → CompositeVector)
    (a : Nat) (ha : a ≠ y) : Apply_heap s x y heap a = heap a := by
  unfold Apply_heap
  simp only [Function.update_noteq ha]

/-- `Apply` on explicit storage, with `Y` not the storage of `X`, leaves in `Y` the vector
`Apply` computes from `X`. -/
theorem Apply_heap_separate (s : MatrixMFD) (x y : Nat) (heap : Nat → CompositeVector)
    (hxy : x ≠ y) : Apply_heap s x y heap y = Apply s (heap x) := by
  unfold Apply_heap Apply
  simp only [Function.update_same, Function.update_noteq hxy]

/-- `ComputeResidual` on explicit storage with the residual aliased to the right-hand side:
the storage of the right-hand side ends as the zero vector. -/
theorem ComputeResidual_heap_aliased (s : MatrixMFD) (a solution : Nat)
    (heap : Nat → CompositeVector) :
    (∀ c, (ComputeResidual_heap s a solution a heap a).cell c = 0)
    ∧ (∀ f, (ComputeResidual_heap s a solution a heap a).face f = 0) := by
  unfold ComputeResidual_heap
  simp only [Function.update_same]
  exact ⟨fun c => by ring, fun f => by ring⟩

/-- `Apply` on explicit storage with `Y` the storage of `X`: the face component is the one
`Apply` computes, the cell component is computed from the face component just assigned and
added to `Acc` times itself. -/
theorem Apply_heap_aliased (s : MatrixMFD) (x : Nat) (heap : Nat → CompositeVector) :
    (Apply_heap s x x heap x).face = (Apply s (heap x)).face
    ∧ (Apply_heap s x x heap x).cell = fun c =>
        1 * (s.Acc_ c * cfMultiply s.mesh_ s.Acf_ (Apply s (heap x)).face c)
          + 1 * cfMultiply s.mesh_ s.Acf_ (Apply s (heap x)).face c := by
  unfold Apply_heap Apply
  simp only [Function.update_same]
  exact ⟨trivial, trivial⟩

end Residual

section Examples

theorem opSym_flag : opSym.flag_symmetry_ = true := rfl

theorem opSym_Aff_cells (n m : Nat) : opSym.Aff_cells_ 0 n m = if n = m then 1 else 0 := by
  unfold opSym
  rw [CreateMFDstiffnessMatrices_Aff_cells _ _ 0 (by decide)]
  simp [stiffnessBff, krelFace, opOne]

theorem opSym_Acf_cells : opSym.Acf_cells_ 0 0 = -2 ∧ opSym.Acf_cells_ 0 1 = -3 := by
  unfold opSym
  rw [CreateMFDstiffnessMatrices_Acf_cells _ _ 0 (by decide),
    CreateMFDstiffnessMatrices_Acf_cells _ _ 0 (by decide)]
  simp [stiffnessColsum, stiffnessBff, krelFace, opOne, meshOne, Mesh.nfaces, Mesh.face,
    Finset.sum_range_succ]

theorem opSym_Afc_cells : opSym.Afc_cells_ 0 0 = -1 ∧ opSym.Afc_cells_ 0 1 = -1 := by
  unfold opSym
  rw [CreateMFDstiffnessMatrices_Afc_cells _ _ 0 (by decide),
    CreateMFDstiffnessMatrices_Afc_cells _ _ 0 (by decide)]
  simp [stiffnessRowsum, stiffnessBff, krelFace, opOne, meshOne, Mesh.nfaces,
    Finset.sum_range_succ]

theorem opSym_Acc_cells : opSym.Acc_cells_ 0 = 5 := by
  unfold opSym
  rw [CreateMFDstiffnessMatrices_Acc_cells _ _ 0 (by decide)]
  simp [stiffnessColsum, stiffnessBff, krelFace, opOne, meshOne, Mesh.nfaces, Mesh.face,
    Finset.sum_range_succ]
  norm_num

theorem opFlux_Acc_cells : opFlux.Acc_cells_ 0 = 5 := by
  unfold opFlux
  rw [CreateMFDstiffnessMatrices_Acc_cells _ _ 0 (by decide)]
  simp [stiffnessColsum, stiffnessBff, krelFace, opOne, meshOne, Mesh.nfaces, Mesh.face,
    Finset.sum_range_succ]
  norm_num


theorem opDense_Aff_cells (n m : Nat) : opDense.Aff_cells_ 0 n m = if n = m then 2 else 1 := by
  unfold opDense
  rw [CreateMFDstiffnessMatrices_Aff_cells _ _ 0 (by decide)]
  simp [stiffnessBff]


/-- A matrix with a positive entry `(0, 0)` is positive definite in dimension one. -/
theorem positiveDefinite_one (A : Mat) (h : 0 < A 0 0) : PositiveDefinite 1 A := by
  intro x hx
  obtain ⟨i, hi, hxi⟩ := hx
  have hi0 : i = 0 := by omega
  subst hi0
  simp only [Finset.sum_range_succ, Finset.sum_range_zero, zero_add]
  have hsq : 0 < x 0 * x 0 := mul_self_pos.mpr hxi
  have e : x 0 * A 0 0 * x 0 = (x 0 * x 0) * A 0 0 := by ring
  rw [e]
  exact mul_pos hsq h

/-- The solver `posvOne` meets the contract of `POSV` in dimension one. -/
theorem posvOne_contract : POSV_contract posvOne 1 := by
  intro A b _ hpd i hi
  have hi0 : i = 0 := by omega
  subst hi0
  have h := hpd (fun _ => 1) ⟨0, by decide, one_ne_zero⟩
  simp only [Finset.sum_range_succ, Finset.sum_range_zero, zero_add, one_mul, mul_one] at h
  simp only [Finset.sum_range_succ, Finset.sum_range_zero, zero_add, posvOne, if_true]
  field_simp

theorem systemOne_matrix (flux : CompositeVector) :
    (DeriveCellVelocity_system (opOne false).mesh_ flux 0).matrix 0 0 = 2 := by
  rw [DeriveCellVelocity_system_matrix]
  simp [opOne, meshOne, Mesh.nfaces, Mesh.face, Finset.sum_range_succ]
  norm_num

theorem systemLine_matrix (flux : CompositeVector) :
    (DeriveCellVelocity_system opLine.mesh_ flux 0).matrix 0 0 = 4 := by
  rw [DeriveCellVelocity_system_matrix]
  simp [opLine, meshLine, Mesh.nfaces, Mesh.face, Finset.sum_range_succ]
  norm_num

theorem systemLine_rhs :
    (DeriveCellVelocity_system opLine.mesh_ fluxFour 0).rhs_cell 0 = 8 := by
  rw [DeriveCellVelocity_system_rhs]
  simp [opLine, meshLine, Mesh.nfaces, Mesh.face, fluxFour, Finset.sum_range_succ]
  norm_num

end Examples

section Claims

/-- C1 (amended): on a single-process mesh, `Apply` on the globals produced by
`AssembleGlobalMatrices` returns `Y` with `Y_face[f]` the sum, over the owned cells `c` and
the local indices `n` with `faces_c[n] = f`, of
`sum_m Aff_cells_[c](n,m) * X_face[faces_c[m]] + W_c(n) * X_cell[c]`, where `W_c` is
`Afc_cells_[c]` when `flag_symmetry_` is false and `Acf_cells_[c]` when it is true, and with
`Y_cell[c] = sum_n Acf_cells_[c](n) * X_face[faces_c[n]] + Acc_cells_[c] * X_cell[c]`. -/
theorem C1_Apply_assembled (s : MatrixMFD) (hwf : s.mesh_.WF) (X : CompositeVector) :
    (∀ f, (Apply (AssembleGlobalMatrices s) X).face f =
      ∑ c in range s.mesh_.ncells, ∑ n in range (s.mesh_.nfaces c),
        if s.mesh_.face c n = f then
          (∑ m in range (s.mesh_.nfaces c), s.Aff_cells_ c n m * X.face (s.mesh_.face c m))
            + (if s.flag_symmetry_ then s.Acf_cells_ c n else s.Afc_cells_ c n) * X.cell c
        else 0)
    ∧ (∀ c, c < s.mesh_.ncells → (Apply (AssembleGlobalMatrices s) X).cell c =
      (∑ n in range (s.mesh_.nfaces c), s.Acf_cells_ c n * X.face (s.mesh_.face c n))
        + s.Acc_cells_ c * X.cell c) :=
  ⟨fun f => Apply_face_assembled s hwf X f, fun c hc => Apply_cell_assembled s hwf X c hc⟩

/-- C1 (witness): the amended statement on the operator `opFlux`. -/
theorem C1_witness :
    (Apply (AssembleGlobalMatrices opFlux) cellOne).cell 0 =
      (∑ n in range (opFlux.mesh_.nfaces 0),
          opFlux.Acf_cells_ 0 n * cellOne.face (opFlux.mesh_.face 0 n))
        + opFlux.Acc_cells_ 0 * cellOne.cell 0 :=
  (C1_Apply_assembled opFlux (by decide) cellOne).2 0 (by decide)

/-- C1 (counterexample): with `flag_symmetry_` set and a face relative conductivity, the face
component of `Apply` is not the sum the claim gives with `Afc_cells_`. -/
theorem C1_counterexample :
    (Apply (AssembleGlobalMatrices opSym) cellOne).face 0 ≠
      ∑ c in range opSym.mesh_.ncells, ∑ n in range (opSym.mesh_.nfaces c),
        if opSym.mesh_.face c n = 0 then
          (∑ m in range (opSym.mesh_.nfaces c),
              opSym.Aff_cells_ c n m * cellOne.face (opSym.mesh_.face c m))
            + opSym.Afc_cells_ c n * cellOne.cell c
        else 0 := by
  have hm : opSym.mesh_ = meshOne := rfl
  have hwf : opSym.mesh_.WF := by rw [hm]; decide
  rw [Apply_face_assembled opSym hwf]
  simp only [hm, meshOne, Mesh.nfaces, Mesh.face, Finset.sum_range_succ, Finset.sum_range_zero,
    cellOne, if_true, List.length_cons, List.length_nil, List.getD_cons_zero,
    List.getD_cons_succ, opSym_flag, opSym_Acf_cells, opSym_Afc_cells]
  norm_num

/-- C2 (amended): in a configuration without Dirichlet markers in which every cell entry
`Acc` is nonzero and either `flag_symmetry_` is false or `Afc_cells_` and `Acf_cells_`
coincide, with `Sff` produced by `ComputeSchurComplement` and a preconditioner solve that
returns the exact `Yf` with `Sff*Yf = Tf`, `ApplyInverse` returns `Y` with `Yf` that solve
of `Tf = Xf - Afc^T*(Xc/Acc)` and `Yc = (Xc - Acf*Yf)/Acc`, and `Apply` of that `Y` gives
back `X` on the face and on the cell component. -/
theorem C2_Apply_ApplyInverse (s : MatrixMFD) (hwf : s.mesh_.WF)
    (bc_markers : Nat → Matrix_bc) (bc_values : Vec)
    (hnoD : ∀ f, bc_markers f ≠ Matrix_bc.MATRIX_BC_DIRICHLET)
    (hAcc : ∀ c, c < s.mesh_.ncells → s.Acc_cells_ c ≠ 0)
    (hflag : s.flag_symmetry_ = false
      ∨ ∀ c, c < s.mesh_.ncells → ∀ n, n < s.mesh_.nfaces c →
          s.Afc_cells_ c n = s.Acf_cells_ c n)
    (hprec : precSupported s.HAVE_HYPRE s.prec_method_ = true)
    (X : CompositeVector)
    (hsolve : ∀ f, f < s.mesh_.nfaces_owned →
      ffMultiply s.mesh_
          (ComputeSchurComplement bc_markers bc_values (AssembleGlobalMatrices s)).Sff_
          (s.prec_ApplyInverse (ApplyInverse_Tf
            (ComputeSchurComplement bc_markers bc_values (AssembleGlobalMatrices s)) X)) f
        = ApplyInverse_Tf
            (ComputeSchurComplement bc_markers bc_values (AssembleGlobalMatrices s)) X f) :
    ∃ Y : CompositeVector,
      ApplyInverse (ComputeSchurComplement bc_markers bc_values (AssembleGlobalMatrices s)) X
          = Except.ok Y
      ∧ Y.face = s.prec_ApplyInverse (ApplyInverse_Tf
          (ComputeSchurComplement bc_markers bc_values (AssembleGlobalMatrices s)) X)
      ∧ (∀ f, ApplyInverse_Tf
            (ComputeSchurComplement bc_markers bc_values (AssembleGlobalMatrices s)) X f
          = X.face f - ∑ c in range s.mesh_.ncells, ∑ n in range (s.mesh_.nfaces c),
              if s.mesh_.face c n = f then s.Afc_cells_ c n * (X.cell c / s.Acc_cells_ c)
              else 0)
      ∧ (∀ c, c < s.mesh_.ncells → Y.cell c =
          (X.cell c - ∑ n in range (s.mesh_.nfaces c),
              s.Acf_cells_ c n * Y.face (s.mesh_.face c n)) / s.Acc_cells_ c)
      ∧ (∀ f, f < s.mesh_.nfaces_owned →
          (Apply (ComputeSchurComplement bc_markers bc_values (AssembleGlobalMatrices s)) Y).face f
            = X.face f)
      ∧ (∀ c, c < s.mesh_.ncells →
          (Apply (ComputeSchurComplement bc_markers bc_values (AssembleGlobalMatrices s)) Y).cell c
            = X.cell c) := by
  have hW : ∀ c, c < s.mesh_.ncells → ∀ n, n < s.mesh_.nfaces c →
      (if s.flag_symmetry_ then s.Acf_cells_ c n else s.Afc_cells_ c n)
        = s.Afc_cells_ c n := by
    intro c hc n hn
    rcases hflag with h | h
    · simp [h]
    · by_cases hf : s.flag_symmetry_ = true
      · simp [hf, h c hc n hn]
      · simp [hf]
  have hTf : ∀ f, ApplyInverse_Tf
        (ComputeSchurComplement bc_markers bc_values (AssembleGlobalMatrices s)) X f
      = X.face f - ∑ c in range s.mesh_.ncells, ∑ n in range (s.mesh_.nfaces c),
          if s.mesh_.face c n = f then s.Afc_cells_ c n * (X.cell c / s.Acc_cells_ c)
          else 0 := by
    intro f
    rw [ApplyInverse_Tf_assembled bc_markers bc_values s hwf X f]
    congr 1
    apply Finset.sum_congr rfl
    intro c hc
    apply Finset.sum_congr rfl
    intro n hn
    rw [hW c (Finset.mem_range.mp hc) n (Finset.mem_range.mp hn)]
  have hprec1 : precSupported
      (ComputeSchurComplement bc_markers bc_values (AssembleGlobalMatrices s)).HAVE_HYPRE
      (ComputeSchurComplement bc_markers bc_values (AssembleGlobalMatrices s)).prec_method_
        = true := by
    rw [ComputeSchurComplement_HAVE_HYPRE, ComputeSchurComplement_prec_method,
      AssembleGlobalMatrices_HAVE_HYPRE, AssembleGlobalMatrices_prec_method]
    exact hprec
  have hcell : ∀ c, c < s.mesh_.ncells →
      (1 * (1 * X.cell c + (-1) * cfMultiply
          (ComputeSchurComplement bc_markers bc_values (AssembleGlobalMatrices s)).mesh_
          (ComputeSchurComplement bc_markers bc_values (AssembleGlobalMatrices s)).Acf_
          (s.prec_ApplyInverse (ApplyInverse_Tf
            (ComputeSchurComplement bc_markers bc_values (AssembleGlobalMatrices s)) X)) c)
          / (ComputeSchurComplement bc_markers bc_values (AssembleGlobalMatrices s)).Acc_ c)
      = (X.cell c - ∑ n in range (s.mesh_.nfaces c),
          s.Acf_cells_ c n * s.prec_ApplyInverse (ApplyInverse_Tf
            (ComputeSchurComplement bc_markers bc_values (AssembleGlobalMatrices s)) X)
              (s.mesh_.face c n)) / s.Acc_cells_ c := by
    intro c hc
    rw [ComputeSchurComplement_mesh, ComputeSchurComplement_Acf, ComputeSchurComplement_Acc,
      AssembleGlobalMatrices_mesh, cfMultiply_assembled s hwf _ c hc,
      AssembleGlobalMatrices_Acc s c hc]
    ring
  refine ⟨_, ApplyInverse_ok _ X hprec1, ?_, hTf, ?_, ?_, ?_⟩
  · simp only [ComputeSchurComplement_prec, AssembleGlobalMatrices_prec]
  · intro c hc
    simp only [ComputeSchurComplement_prec, AssembleGlobalMatrices_prec]
    exact hcell c hc
  · intro f hf
    rw [Apply_ComputeSchurComplement, Apply_face_assembled s hwf]
    simp only [ComputeSchurComplement_prec, AssembleGlobalMatrices_prec]
    have hS := hsolve f hf
    rw [ffMultiply_assembled s.mesh_ hwf
      (fun c n m => s.Aff_cells_ c n m - s.Afc_cells_ c n * s.Acf_cells_ c m / s.Acc_cells_ c)
      _ (Sff_assembled_of_no_dirichlet bc_markers bc_values s hnoD), hTf f] at hS
    rw [← condensation_face s.mesh_ s.Aff_cells_ s.Afc_cells_ s.Acf_cells_ s.Acc_cells_
      (s.prec_ApplyInverse (ApplyInverse_Tf
        (ComputeSchurComplement bc_markers bc_values (AssembleGlobalMatrices s)) X)) X f hS]
    apply Finset.sum_congr rfl
    intro c hc
    apply Finset.sum_congr rfl
    intro n hn
    rw [hW c (Finset.mem_range.mp hc) n (Finset.mem_range.mp hn),
      hcell c (Finset.mem_range.mp hc)]
  · intro c hc
    rw [Apply_ComputeSchurComplement, Apply_cell_assembled s hwf _ c hc]
    simp only [ComputeSchurComplement_prec, AssembleGlobalMatrices_prec]
    rw [hcell c hc]
    field_simp [hAcc c hc]

/-- C2 (witness): the amended statement on the operator `opAcc`, whose reduced matrix is
invertible. -/
theorem C2_witness :
    ∃ Y : CompositeVector,
      ApplyInverse (ComputeSchurComplement noMarkers (fun _ => 0)
          (AssembleGlobalMatrices opAcc)) faceData = Except.ok Y
      ∧ (∀ f, f < opAcc.mesh_.nfaces_owned →
          (Apply (ComputeSchurComplement noMarkers (fun _ => 0)
            (AssembleGlobalMatrices opAcc)) Y).face f = faceData.face f)
      ∧ (∀ c, c < opAcc.mesh_.ncells →
          (Apply (ComputeSchurComplement noMarkers (fun _ => 0)
            (AssembleGlobalMatrices opAcc)) Y).cell c = faceData.cell c) := by
  have hwf : opAcc.mesh_.WF := by decide
  have hnoD : ∀ f, noMarkers f ≠ Matrix_bc.MATRIX_BC_DIRICHLET := by
    intro f h
    simp [noMarkers] at h
  have hsolve : ∀ f, f < opAcc.mesh_.nfaces_owned →
      ffMultiply opAcc.mesh_
          (ComputeSchurComplement noMarkers (fun _ => 0) (AssembleGlobalMatrices opAcc)).Sff_
          (opAcc.prec_ApplyInverse (ApplyInverse_Tf
            (ComputeSchurComplement noMarkers (fun _ => 0)
              (AssembleGlobalMatrices opAcc)) faceData)) f
        = ApplyInverse_Tf
            (ComputeSchurComplement noMarkers (fun _ => 0)
              (AssembleGlobalMatrices opAcc)) faceData f := by
    intro f hf
    rw [ffMultiply_assembled opAcc.mesh_ hwf _ _
      (Sff_assembled_of_no_dirichlet noMarkers (fun _ => 0) opAcc hnoD)]
    have hf2 : f < 2 := hf
    interval_cases f
    · simp [opAcc, opOne, meshOne, Mesh.nfaces, Mesh.face, Finset.sum_range_succ]
      ring
    · simp [opAcc, opOne, meshOne, Mesh.nfaces, Mesh.face, Finset.sum_range_succ]
      ring
  obtain ⟨Y, h1, _, _, _, h5, h6⟩ :=
    C2_Apply_ApplyInverse opAcc hwf noMarkers (fun _ => 0) hnoD
      (by intro c _; simp [opAcc]) (Or.inl rfl) (by decide) faceData hsolve
  exact ⟨Y, h1, h5, h6⟩


/-- C2 (counterexample): with `flag_symmetry_` set and a face relative conductivity there
are no Dirichlet markers, the cell entry `Acc` is nonzero and the preconditioner solve is
exact, yet `Apply` of the result of `ApplyInverse` is not the input on face `0`. -/
theorem C2_counterexample :
    (∀ f, noMarkers f ≠ Matrix_bc.MATRIX_BC_DIRICHLET)
    ∧ (∀ c, c < opSymPrec.mesh_.ncells → opSymPrec.Acc_cells_ c ≠ 0)
    ∧ (∀ f, f < opSymPrec.mesh_.nfaces_owned →
        ffMultiply opSymPrec.mesh_
            (ComputeSchurComplement noMarkers (fun _ => 0)
              (AssembleGlobalMatrices opSymPrec)).Sff_
            (opSymPrec.prec_ApplyInverse (ApplyInverse_Tf
              (ComputeSchurComplement noMarkers (fun _ => 0)
                (AssembleGlobalMatrices opSymPrec)) faceData)) f
          = ApplyInverse_Tf
              (ComputeSchurComplement noMarkers (fun _ => 0)
                (AssembleGlobalMatrices opSymPrec)) faceData f)
    ∧ ∃ Y : CompositeVector,
        ApplyInverse (ComputeSchurComplement noMarkers (fun _ => 0)
            (AssembleGlobalMatrices opSymPrec)) faceData = Except.ok Y
        ∧ (Apply (ComputeSchurComplement noMarkers (fun _ => 0)
            (AssembleGlobalMatrices opSymPrec)) Y).face 0 ≠ faceData.face 0 := by
  have hm : opSymPrec.mesh_ = meshOne := rfl
  have hwf : opSymPrec.mesh_.WF := by rw [hm]; decide
  have hnoD : ∀ f, noMarkers f ≠ Matrix_bc.MATRIX_BC_DIRICHLET := by
    intro f h
    simp [noMarkers] at h
  have hAff : ∀ n m, opSymPrec.Aff_cells_ 0 n m = if n = m then 1 else 0 := opSym_Aff_cells
  have hAcf : opSymPrec.Acf_cells_ 0 0 = -2 ∧ opSymPrec.Acf_cells_ 0 1 = -3 := opSym_Acf_cells
  have hAfc : opSymPrec.Afc_cells_ 0 0 = -1 ∧ opSymPrec.Afc_cells_ 0 1 = -1 := opSym_Afc_cells
  have hAcc : opSymPrec.Acc_cells_ 0 = 5 := opSym_Acc_cells
  have hflag : opSymPrec.flag_symmetry_ = true := rfl
  have hprec : opSymPrec.prec_ApplyInverse = fun t f => if f = 0 then 5 / 3 * t 0 else 0 := rfl
  have hTf : ∀ f, ApplyInverse_Tf (ComputeSchurComplement noMarkers (fun _ => 0)
      (AssembleGlobalMatrices opSymPrec)) faceData f = faceData.face f := by
    intro f
    rw [ApplyInverse_Tf_assembled noMarkers (fun _ => 0) opSymPrec hwf]
    simp [faceData]
  have hX0 : faceData.face 0 = 3 := rfl
  have hX1 : faceData.face 1 = -2 := rfl
  have hXc : ∀ c, faceData.cell c = 0 := fun _ => rfl
  have hnc : opSymPrec.mesh_.ncells = 1 := rfl
  have hnf : opSymPrec.mesh_.nfaces 0 = 2 := rfl
  have hf0 : opSymPrec.mesh_.face 0 0 = 0 := rfl
  have hf1 : opSymPrec.mesh_.face 0 1 = 1 := rfl
  refine ⟨hnoD, ?_, ?_, ?_⟩
  · intro c hc
    have hc1 : c < 1 := hc
    interval_cases c
    rw [hAcc]; norm_num
  · intro f hf
    rw [ffMultiply_assembled opSymPrec.mesh_ hwf _ _
      (Sff_assembled_of_no_dirichlet noMarkers (fun _ => 0) opSymPrec hnoD), hTf]
    have hf2 : f < 2 := hf
    interval_cases f
    · simp only [hnc, hnf, hf0, hf1, Finset.sum_range_succ, Finset.sum_range_zero, hAff, hAcf,
        hAfc, hAcc, hprec, hTf, hX0, hX1]
      norm_num
    · simp only [hnc, hnf, hf0, hf1, Finset.sum_range_succ, Finset.sum_range_zero, hAff, hAcf,
        hAfc, hAcc, hprec, hTf, hX0, hX1]
      norm_num
  · refine ⟨_, ApplyInverse_ok _ faceData (by decide), ?_⟩
    rw [Apply_ComputeSchurComplement, Apply_face_assembled opSymPrec hwf]
    simp only [hnc, hnf, hf0, hf1, Finset.sum_range_succ, Finset.sum_range_zero,
      ComputeSchurComplement_mesh, ComputeSchurComplement_Acf, ComputeSchurComplement_Acc,
      AssembleGlobalMatrices_mesh, ComputeSchurComplement_prec, AssembleGlobalMatrices_prec,
      cfMultiply_assembled opSymPrec hwf _ 0 (by decide),
      AssembleGlobalMatrices_Acc opSymPrec 0 (by decide), hAff, hAcf, hAfc, hAcc, hflag, hprec,
      hTf, hX0, hX1, hXc]
    norm_num


/-- C3: for a cell `c` with pairwise distinct local faces and the set `D` of its local faces
marked Dirichlet (no flux-type face with a nonzero value), after `ApplyBoundaryConditions`:
for `d` in `D`, row `d` and column `d` of `Aff_cells_[c]` are zero except for the diagonal
entry `1`, `Acf_cells_[c](d) = Afc_cells_[c](d) = 0` and `Ff_cells_[c][d] = v_d`; for `m`
outside `D`, `Ff_cells_[c][m] = Ff0[m] - sum_{d in D} Bff0(m,d)*v_d`;
`Fc_cells_[c] = Fc0 - sum_{d in D} Bcf0(d)*v_d`; and the entries of `Aff_cells_[c]`,
`Acf_cells_[c]`, `Afc_cells_[c]` with indices outside `D` are unchanged. -/
theorem C3_dirichlet_elimination (s : MatrixMFD) (bc_markers : Nat → Matrix_bc)
    (bc_values : Vec) (c : Nat) (hc : c < s.mesh_.ncells)
    (_hnd : (s.mesh_.cell_faces c).Nodup)
    (hflux : ∀ n, n < s.mesh_.nfaces c →
      bc_markers (s.mesh_.face c n) = Matrix_bc.MATRIX_BC_FLUX →
        bc_values (s.mesh_.face c n) = 0) :
    (∀ d, d < s.mesh_.nfaces c →
      bc_markers (s.mesh_.face c d) = Matrix_bc.MATRIX_BC_DIRICHLET →
        (∀ m, m < s.mesh_.nfaces c →
          (ApplyBoundaryConditions bc_markers bc_values s).Aff_cells_ c d m
            = if m = d then 1 else 0)
        ∧ (∀ m, m < s.mesh_.nfaces c →
          (ApplyBoundaryConditions bc_markers bc_values s).Aff_cells_ c m d
            = if m = d then 1 else 0)
        ∧ (ApplyBoundaryConditions bc_markers bc_values s).Acf_cells_ c d = 0
        ∧ (ApplyBoundaryConditions bc_markers bc_values s).Afc_cells_ c d = 0
        ∧ (ApplyBoundaryConditions bc_markers bc_values s).Ff_cells_ c d
            = bc_values (s.mesh_.face c d))
    ∧ (∀ m, m < s.mesh_.nfaces c →
      bc_markers (s.mesh_.face c m) ≠ Matrix_bc.MATRIX_BC_DIRICHLET →
        (ApplyBoundaryConditions bc_markers bc_values s).Ff_cells_ c m
          = s.Ff_cells_ c m
            - ∑ d in (range (s.mesh_.nfaces c)).filter
                (fun d => bc_markers (s.mesh_.face c d) = Matrix_bc.MATRIX_BC_DIRICHLET),
                s.Aff_cells_ c m d * bc_values (s.mesh_.face c d))
    ∧ (ApplyBoundaryConditions bc_markers bc_values s).Fc_cells_ c
        = s.Fc_cells_ c
          - ∑ d in (range (s.mesh_.nfaces c)).filter
              (fun d => bc_markers (s.mesh_.face c d) = Matrix_bc.MATRIX_BC_DIRICHLET),
              s.Acf_cells_ c d * bc_values (s.mesh_.face c d)
    ∧ (∀ m, m < s.mesh_.nfaces c →
      bc_markers (s.mesh_.face c m) ≠ Matrix_bc.MATRIX_BC_DIRICHLET →
        (∀ k, k < s.mesh_.nfaces c →
          bc_markers (s.mesh_.face c k) ≠ Matrix_bc.MATRIX_BC_DIRICHLET →
            (ApplyBoundaryConditions bc_markers bc_values s).Aff_cells_ c m k
              = s.Aff_cells_ c m k)
        ∧ (ApplyBoundaryConditions bc_markers bc_values s).Acf_cells_ c m = s.Acf_cells_ c m
        ∧ (ApplyBoundaryConditions bc_markers bc_values s).Afc_cells_ c m
            = s.Afc_cells_ c m) := by
  rw [ApplyBoundaryConditions_Aff_cells _ _ s c hc, ApplyBoundaryConditions_Acf_cells _ _ s c hc,
    ApplyBoundaryConditions_Afc_cells _ _ s c hc, ApplyBoundaryConditions_Ff_cells _ _ s c hc,
    ApplyBoundaryConditions_Fc_cells _ _ s c hc]
  have hnoflux : ∀ m, m < s.mesh_.nfaces c →
      ¬ isFluxNonzero s.mesh_ bc_markers bc_values c m := by
    intro m hm h
    have h0 := hflux m hm h.1
    have h1 : |bc_values (s.mesh_.face c m)| > 0 := h.2
    rw [h0, abs_zero] at h1
    exact lt_irrefl _ h1
  refine ⟨?_, ?_, ?_, ?_⟩
  · intro d hd hD
    have hD1 : isDirichlet s.mesh_ bc_markers c d := hD
    refine ⟨?_, ?_, ?_, ?_, ?_⟩
    · intro m hm
      rw [bcCell_Bff _ _ s c d m hd hm, if_pos (Or.inl hD1)]
      by_cases h : m = d
      · rw [if_pos h, if_pos h.symm]
      · rw [if_neg h, if_neg (fun e => h e.symm)]
    · intro m hm
      rw [bcCell_Bff _ _ s c m d hm hd, if_pos (Or.inr hD1)]
    · rw [(bcCell_Bcf _ _ s c d hd).1, if_pos hD1]
    · rw [(bcCell_Bcf _ _ s c d hd).2, if_pos hD1]
    · rw [bcCell_Ff _ _ s c d hd, if_pos hD1]
  · intro m hm hD
    have hD1 : ¬ isDirichlet s.mesh_ bc_markers c m := hD
    rw [bcCell_Ff _ _ s c m hm, if_neg hD1, if_neg (hnoflux m hm), sub_zero, Finset.sum_filter]
    rfl
  · rw [bcCell_Fc, Finset.sum_filter]
    rfl
  · intro m hm hD
    have hD1 : ¬ isDirichlet s.mesh_ bc_markers c m := hD
    refine ⟨?_, ?_, ?_⟩
    · intro k hk hDk
      have hD2 : ¬ isDirichlet s.mesh_ bc_markers c k := hDk
      rw [bcCell_Bff _ _ s c m k hm hk, if_neg (fun h => h.elim hD1 hD2)]
    · rw [(bcCell_Bcf _ _ s c m hm).1, if_neg hD1]
    · rw [(bcCell_Bcf _ _ s c m hm).2, if_neg hD1]

/-- C3 (witness): the cell load of `opFlux` after a Dirichlet condition on face `0`. -/
theorem C3_witness :
    (ApplyBoundaryConditions dirichletAt0 valuesSeven opFlux).Fc_cells_ 0
      = opFlux.Fc_cells_ 0
        - ∑ d in (range (opFlux.mesh_.nfaces 0)).filter
            (fun d => dirichletAt0 (opFlux.mesh_.face 0 d) = Matrix_bc.MATRIX_BC_DIRICHLET),
            opFlux.Acf_cells_ 0 d * valuesSeven (opFlux.mesh_.face 0 d) :=
  (C3_dirichlet_elimination opFlux dirichletAt0 valuesSeven 0 (by decide) (by decide)
    (by
      intro n _ h
      unfold dirichletAt0 at h
      split_ifs at h)).2.2.1

/-- C4: after `ApplyBoundaryConditions` followed by `AssembleGlobalMatrices`, for a face `f`
marked Dirichlet with value `v` that is incident to `k >= 1` owned cells, and for every
vector `X`, the face-`f` component of `ComputeResidual(X)` is `k*(v - X_face[f])`, whatever
the coefficients of the neighbouring cells and faces are; hence a vector whose residual
vanishes at `f` has `X_face[f] = v`. -/
theorem C4_dirichlet_residual (s : MatrixMFD) (hwf : s.mesh_.WF)
    (bc_markers : Nat → Matrix_bc) (bc_values : Vec) (f : Nat)
    (hD : bc_markers f = Matrix_bc.MATRIX_BC_DIRICHLET)
    (hk : 1 ≤ ((range s.mesh_.ncells).filter (fun c => f ∈ s.mesh_.cell_faces c)).card)
    (X : CompositeVector) :
    (ComputeResidual
        (AssembleGlobalMatrices (ApplyBoundaryConditions bc_markers bc_values s)) X).face f
      = (((range s.mesh_.ncells).filter (fun c => f ∈ s.mesh_.cell_faces c)).card : ℚ)
          * (bc_values f - X.face f)
    ∧ ((ComputeResidual
        (AssembleGlobalMatrices (ApplyBoundaryConditions bc_markers bc_values s)) X).face f = 0
      → X.face f = bc_values f) := by
  have hm : (ApplyBoundaryConditions bc_markers bc_values s).mesh_ = s.mesh_ :=
    ApplyBoundaryConditions_mesh _ _ s
  have hwf1 : (ApplyBoundaryConditions bc_markers bc_values s).mesh_.WF := by rw [hm]; exact hwf
  have hres : (ComputeResidual
        (AssembleGlobalMatrices (ApplyBoundaryConditions bc_markers bc_values s)) X).face f
      = (((range s.mesh_.ncells).filter (fun c => f ∈ s.mesh_.cell_faces c)).card : ℚ)
          * (bc_values f - X.face f) := by
    unfold ComputeResidual
    simp only
    rw [AssembleGlobalMatrices_rhs_face, Apply_face_assembled _ hwf1, hm,
      ← incidence_count s.mesh_ hwf f, Finset.sum_mul]
    rw [show ∀ a b : ℚ, 1 * a + (-1) * b = a - b from fun a b => by ring,
      ← Finset.sum_sub_distrib]
    apply Finset.sum_congr rfl
    intro c hc
    rw [Finset.sum_mul, ← Finset.sum_sub_distrib]
    apply Finset.sum_congr rfl
    intro n hn
    have hc1 := Finset.mem_range.mp hc
    have hn1 := Finset.mem_range.mp hn
    by_cases hf : s.mesh_.face c n = f
    · have hDn : isDirichlet s.mesh_ bc_markers c n := by
        unfold isDirichlet; rw [hf]; exact hD
      rw [if_pos hf, if_pos hf, if_pos hf, ApplyBoundaryConditions_Ff_cells _ _ s c hc1,
        ApplyBoundaryConditions_Aff_cells _ _ s c hc1,
        ApplyBoundaryConditions_Acf_cells _ _ s c hc1,
        ApplyBoundaryConditions_Afc_cells _ _ s c hc1, bcCell_Ff _ _ s c n hn1, if_pos hDn,
        (bcCell_Bcf _ _ s c n hn1).1, (bcCell_Bcf _ _ s c n hn1).2, if_pos hDn, if_pos hDn, hf]
      have hrow : ∑ m in range (s.mesh_.nfaces c),
          (bcCell bc_markers bc_values s c).Bff n m * X.face (s.mesh_.face c m)
            = X.face f := by
        rw [Finset.sum_eq_single n]
        · rw [bcCell_Bff _ _ s c n n hn1 hn1, if_pos (Or.inl hDn), if_pos rfl, one_mul, hf]
        · intro m hm1 hmn
          rw [bcCell_Bff _ _ s c n m hn1 (Finset.mem_range.mp hm1), if_pos (Or.inl hDn),
            if_neg (fun e => hmn e.symm), zero_mul]
        · intro h
          exact absurd hn h
      rw [hrow]
      simp
    · rw [if_neg hf, if_neg hf, if_neg hf]
      simp
  refine ⟨hres, ?_⟩
  intro h0
  rw [hres] at h0
  have hk0 : (((range s.mesh_.ncells).filter (fun c => f ∈ s.mesh_.cell_faces c)).card : ℚ)
      ≠ 0 := by
    have : 0 < ((range s.mesh_.ncells).filter (fun c => f ∈ s.mesh_.cell_faces c)).card := hk
    exact_mod_cast this.ne.symm
  rcases mul_eq_zero.mp h0 with h | h
  · exact absurd h hk0
  · linarith


/-- C4 (witness): the residual of `opFlux` at face `0` under a Dirichlet condition there. -/
theorem C4_witness :
    (ComputeResidual
        (AssembleGlobalMatrices (ApplyBoundaryConditions dirichletAt0 valuesSeven opFlux))
        cellOne).face 0
      = (((range opFlux.mesh_.ncells).filter (fun c => 0 ∈ opFlux.mesh_.cell_faces c)).card : ℚ)
          * (valuesSeven 0 - cellOne.face 0) :=
  (C4_dirichlet_residual opFlux (by decide) dirichletAt0 valuesSeven 0 (by decide) (by decide)
    cellOne).1

/-- C5 (amended): after `ApplyBoundaryConditions`, `AssembleGlobalMatrices`,
`ComputeSchurComplement` run with the same boundary markers and with every cell entry `Acc`
nonzero, every cell adds its local block
`S(n,m) = Aff_cells_[c](n,m) - Afc_cells_[c](n)*Acf_cells_[c](m)/Acc[c]` to `Sff` at the
global faces `(faces_c[n], faces_c[m])`; and when `flag_symmetry_` is false, or
`Afc_cells_[c] = Acf_cells_[c]` for every owned cell after `ApplyBoundaryConditions`, then
for every face vector `xf`, `Sff*xf = Aff*xf - Afc^T*((Acf*xf) ./ Acc)` with the global
matrices `Aff_`, `Afc_`, `Acf_`, `Acc_`. -/
theorem C5_schur_complement (s : MatrixMFD) (hwf : s.mesh_.WF)
    (bc_markers : Nat → Matrix_bc) (bc_values : Vec)
    (_hAcc : ∀ c, c < s.mesh_.ncells → s.Acc_cells_ c ≠ 0) :
    (∀ c, c < s.mesh_.ncells →
      (ComputeSchurComplement bc_markers bc_values
        (AssembleGlobalMatrices (ApplyBoundaryConditions bc_markers bc_values s))).Acc_ c
        = s.Acc_cells_ c)
    ∧ (∀ i j,
      (ComputeSchurComplement bc_markers bc_values
        (AssembleGlobalMatrices (ApplyBoundaryConditions bc_markers bc_values s))).Sff_ i j =
        ∑ c in range s.mesh_.ncells, ∑ n in range (s.mesh_.nfaces c),
          ∑ m in range (s.mesh_.nfaces c),
            if s.mesh_.face c n = i ∧ s.mesh_.face c m = j then
              (ApplyBoundaryConditions bc_markers bc_values s).Aff_cells_ c n m
                - (ApplyBoundaryConditions bc_markers bc_values s).Afc_cells_ c n
                  * (ApplyBoundaryConditions bc_markers bc_values s).Acf_cells_ c m
                  / s.Acc_cells_ c
            else 0)
    ∧ ((s.flag_symmetry_ = false
        ∨ ∀ c, c < s.mesh_.ncells → ∀ n, n < s.mesh_.nfaces c →
            (ApplyBoundaryConditions bc_markers bc_values s).Afc_cells_ c n
              = (ApplyBoundaryConditions bc_markers bc_values s).Acf_cells_ c n) →
      ∀ (xf : Vec) (f : Nat),
        ffMultiply s.mesh_
          (ComputeSchurComplement bc_markers bc_values
            (AssembleGlobalMatrices (ApplyBoundaryConditions bc_markers bc_values s))).Sff_
          xf f
        = ffMultiply s.mesh_
            (ComputeSchurComplement bc_markers bc_values
              (AssembleGlobalMatrices (ApplyBoundaryConditions bc_markers bc_values s))).Aff_
            xf f
          - cfMultiplyT s.mesh_
              (ComputeSchurComplement bc_markers bc_values
                (AssembleGlobalMatrices
                  (ApplyBoundaryConditions bc_markers bc_values s))).Afc_
              (fun c =>
                cfMultiply s.mesh_
                    (ComputeSchurComplement bc_markers bc_values
                      (AssembleGlobalMatrices
                        (ApplyBoundaryConditions bc_markers bc_values s))).Acf_ xf c
                  / (ComputeSchurComplement bc_markers bc_values
                      (AssembleGlobalMatrices
                        (ApplyBoundaryConditions bc_markers bc_values s))).Acc_ c) f) := by
  have hm : (ApplyBoundaryConditions bc_markers bc_values s).mesh_ = s.mesh_ :=
    ApplyBoundaryConditions_mesh _ _ s
  have hwfb : (ApplyBoundaryConditions bc_markers bc_values s).mesh_.WF := by
    rw [hm]; exact hwf
  have hAccG : ∀ c, c < s.mesh_.ncells →
      (ComputeSchurComplement bc_markers bc_values
        (AssembleGlobalMatrices (ApplyBoundaryConditions bc_markers bc_values s))).Acc_ c
        = s.Acc_cells_ c := by
    intro c hc
    rw [ComputeSchurComplement_Acc, AssembleGlobalMatrices_Acc _ c (by rw [hm]; exact hc),
      ApplyBoundaryConditions_Acc_cells]
  refine ⟨hAccG, Sff_assembled_after_bc bc_markers bc_values s, ?_⟩
  intro hflag xf f
  have hA : ∀ i j, (ComputeSchurComplement bc_markers bc_values
        (AssembleGlobalMatrices (ApplyBoundaryConditions bc_markers bc_values s))).Aff_ i j
      = ∑ c in range s.mesh_.ncells, ∑ n in range (s.mesh_.nfaces c),
          ∑ m in range (s.mesh_.nfaces c),
            if s.mesh_.face c n = i ∧ s.mesh_.face c m = j then
              (ApplyBoundaryConditions bc_markers bc_values s).Aff_cells_ c n m
            else 0 := by
    intro i j
    rw [ComputeSchurComplement_Aff, AssembleGlobalMatrices_Aff, hm]
  have hT := cfMultiplyT_assembled (ApplyBoundaryConditions bc_markers bc_values s) hwfb
    (fun c =>
      cfMultiply s.mesh_
          (ComputeSchurComplement bc_markers bc_values
            (AssembleGlobalMatrices
              (ApplyBoundaryConditions bc_markers bc_values s))).Acf_ xf c
        / (ComputeSchurComplement bc_markers bc_values
            (AssembleGlobalMatrices
              (ApplyBoundaryConditions bc_markers bc_values s))).Acc_ c) f
  rw [hm] at hT
  rw [ffMultiply_assembled s.mesh_ hwf _ _ (Sff_assembled_after_bc bc_markers bc_values s),
    ffMultiply_assembled s.mesh_ hwf _ _ hA, ComputeSchurComplement_Afc, hT,
    ← Finset.sum_sub_distrib]
  apply Finset.sum_congr rfl
  intro c hc
  have hc1 : c < s.mesh_.ncells := Finset.mem_range.mp hc
  rw [← Finset.sum_sub_distrib]
  apply Finset.sum_congr rfl
  intro n hn
  have hn1 : n < s.mesh_.nfaces c := Finset.mem_range.mp hn
  have hW : (if (ApplyBoundaryConditions bc_markers bc_values s).flag_symmetry_ = true then
        (ApplyBoundaryConditions bc_markers bc_values s).Acf_cells_ c n
      else (ApplyBoundaryConditions bc_markers bc_values s).Afc_cells_ c n)
      = (ApplyBoundaryConditions bc_markers bc_values s).Afc_cells_ c n := by
    rcases hflag with hfalse | hsym
    · rw [ApplyBoundaryConditions_flag, hfalse]
      simp only [Bool.false_eq_true, if_false]
    · rw [← hsym c hc1 n hn1, ite_self]
  have hC : cfMultiply s.mesh_
      (ComputeSchurComplement bc_markers bc_values
        (AssembleGlobalMatrices (ApplyBoundaryConditions bc_markers bc_values s))).Acf_ xf c
      = ∑ m in range (s.mesh_.nfaces c),
          (ApplyBoundaryConditions bc_markers bc_values s).Acf_cells_ c m
            * xf (s.mesh_.face c m) := by
    have h := cfMultiply_assembled (ApplyBoundaryConditions bc_markers bc_values s) hwfb xf c
      (by rw [hm]; exact hc1)
    rw [hm] at h
    rw [ComputeSchurComplement_Acf, h]
  by_cases h : s.mesh_.face c n = f
  · rw [if_pos h, if_pos h, if_pos h, hW, hC, hAccG c hc1]
    exact schur_row_split _ _ _ _ _ _
  · rw [if_neg h, if_neg h, if_neg h, sub_zero]

/-- C5 (witness): the reduced matrix of `opFlux` (`flag_symmetry_` false) under a Dirichlet
condition on face `0`, applied to a face vector, at face `1`. -/
theorem C5_witness :
    ffMultiply opFlux.mesh_
        (ComputeSchurComplement dirichletAt0 valuesSeven
          (AssembleGlobalMatrices
            (ApplyBoundaryConditions dirichletAt0 valuesSeven opFlux))).Sff_ valuesSeven 1
      = ffMultiply opFlux.mesh_
          (ComputeSchurComplement dirichletAt0 valuesSeven
            (AssembleGlobalMatrices
              (ApplyBoundaryConditions dirichletAt0 valuesSeven opFlux))).Aff_ valuesSeven 1
        - cfMultiplyT opFlux.mesh_
            (ComputeSchurComplement dirichletAt0 valuesSeven
              (AssembleGlobalMatrices
                (ApplyBoundaryConditions dirichletAt0 valuesSeven opFlux))).Afc_
            (fun c =>
              cfMultiply opFlux.mesh_
                  (ComputeSchurComplement dirichletAt0 valuesSeven
                    (AssembleGlobalMatrices
                      (ApplyBoundaryConditions dirichletAt0 valuesSeven opFlux))).Acf_
                  valuesSeven c
                / (ComputeSchurComplement dirichletAt0 valuesSeven
                    (AssembleGlobalMatrices
                      (ApplyBoundaryConditions dirichletAt0 valuesSeven opFlux))).Acc_ c) 1 :=
  (C5_schur_complement opFlux (by decide) dirichletAt0 valuesSeven
    (by
      intro c hc
      have hc1 : c < 1 := hc
      interval_cases c
      rw [opFlux_Acc_cells]
      norm_num)).2.2 (Or.inl rfl) valuesSeven 1

/-- C5 (counterexample): on `opSym` (`flag_symmetry_` set, so `Afc_` is `Acf_`, with a face
relative conductivity), without boundary markers, the cell entry `Acc` is `5`, and for the
face vector `xf = (1, 0)` the product `Sff*xf` is `(3/5, -2/5)` while
`Aff*xf - Afc^T*((Acf*xf) ./ Acc)` with the global matrices is `(1/5, -6/5)`. -/
theorem C5_counterexample :
    (ComputeSchurComplement noMarkers valuesSeven
      (AssembleGlobalMatrices (ApplyBoundaryConditions noMarkers valuesSeven opSym))).Acc_ 0 = 5
    ∧ ffMultiply opSym.mesh_
        (ComputeSchurComplement noMarkers valuesSeven
          (AssembleGlobalMatrices
            (ApplyBoundaryConditions noMarkers valuesSeven opSym))).Sff_ unitFace0 0 = 3 / 5
    ∧ ffMultiply opSym.mesh_
        (ComputeSchurComplement noMarkers valuesSeven
          (AssembleGlobalMatrices
            (ApplyBoundaryConditions noMarkers valuesSeven opSym))).Aff_ unitFace0 0
      - cfMultiplyT opSym.mesh_
          (ComputeSchurComplement noMarkers valuesSeven
            (AssembleGlobalMatrices
              (ApplyBoundaryConditions noMarkers valuesSeven opSym))).Afc_
          (fun c =>
            cfMultiply opSym.mesh_
                (ComputeSchurComplement noMarkers valuesSeven
                  (AssembleGlobalMatrices
                    (ApplyBoundaryConditions noMarkers valuesSeven opSym))).Acf_
                unitFace0 c
              / (ComputeSchurComplement noMarkers valuesSeven
                  (AssembleGlobalMatrices
                    (ApplyBoundaryConditions noMarkers valuesSeven opSym))).Acc_ c) 0
        = 1 / 5 := by
  have hm : opSym.mesh_ = meshOne := rfl
  have hwf : opSym.mesh_.WF := by rw [hm]; decide
  have hmb : (ApplyBoundaryConditions noMarkers valuesSeven opSym).mesh_ = opSym.mesh_ :=
    ApplyBoundaryConditions_mesh _ _ opSym
  have hwfb : (ApplyBoundaryConditions noMarkers valuesSeven opSym).mesh_.WF := by
    rw [hmb]; exact hwf
  have hnoD : ∀ n, n < opSym.mesh_.nfaces 0 →
      noMarkers (opSym.mesh_.face 0 n) ≠ Matrix_bc.MATRIX_BC_DIRICHLET := by
    intro n _ h
    simp [noMarkers] at h
  have hnD : ∀ n, ¬ isDirichlet opSym.mesh_ noMarkers 0 n := by
    intro n h
    unfold isDirichlet noMarkers at h
    exact Matrix_bc.noConfusion h
  have hAffb : ∀ n m, (ApplyBoundaryConditions noMarkers valuesSeven opSym).Aff_cells_ 0 n m
      = if n = m then 1 else 0 := by
    intro n m
    rw [ApplyBoundaryConditions_Aff_cells_of_no_dirichlet _ _ opSym 0 (by decide) hnoD]
    exact opSym_Aff_cells n m
  have hAcfb : ∀ n, n < 2 →
      (ApplyBoundaryConditions noMarkers valuesSeven opSym).Acf_cells_ 0 n
        = opSym.Acf_cells_ 0 n := by
    intro n hn
    rw [ApplyBoundaryConditions_Acf_cells _ _ opSym 0 (by decide),
      (bcCell_Bcf _ _ opSym 0 n hn).1, if_neg (hnD n)]
  have hAfcb : ∀ n, n < 2 →
      (ApplyBoundaryConditions noMarkers valuesSeven opSym).Afc_cells_ 0 n
        = opSym.Afc_cells_ 0 n := by
    intro n hn
    rw [ApplyBoundaryConditions_Afc_cells _ _ opSym 0 (by decide),
      (bcCell_Bcf _ _ opSym 0 n hn).2, if_neg (hnD n)]
  have hflagb : (ApplyBoundaryConditions noMarkers valuesSeven opSym).flag_symmetry_ = true := by
    rw [ApplyBoundaryConditions_flag]; rfl
  have hAccG : (ComputeSchurComplement noMarkers valuesSeven
      (AssembleGlobalMatrices (ApplyBoundaryConditions noMarkers valuesSeven opSym))).Acc_ 0
      = 5 := by
    rw [ComputeSchurComplement_Acc,
      AssembleGlobalMatrices_Acc _ 0 (by rw [hmb]; decide),
      ApplyBoundaryConditions_Acc_cells, opSym_Acc_cells]
  have hnc : opSym.mesh_.ncells = 1 := rfl
  have hnf : opSym.mesh_.nfaces 0 = 2 := rfl
  have hf0 : opSym.mesh_.face 0 0 = 0 := rfl
  have hf1 : opSym.mesh_.face 0 1 = 1 := rfl
  have hx0 : unitFace0 0 = 1 := rfl
  have hx1 : unitFace0 1 = 0 := rfl
  have hA : ∀ i j, (ComputeSchurComplement noMarkers valuesSeven
        (AssembleGlobalMatrices (ApplyBoundaryConditions noMarkers valuesSeven opSym))).Aff_ i j
      = ∑ c in range opSym.mesh_.ncells, ∑ n in range (opSym.mesh_.nfaces c),
          ∑ m in range (opSym.mesh_.nfaces c),
            if opSym.mesh_.face c n = i ∧ opSym.mesh_.face c m = j then
              (ApplyBoundaryConditions noMarkers valuesSeven opSym).Aff_cells_ c n m
            else 0 := by
    intro i j
    rw [ComputeSchurComplement_Aff, AssembleGlobalMatrices_Aff, hmb]
  have hC : cfMultiply opSym.mesh_
      (ComputeSchurComplement noMarkers valuesSeven
        (AssembleGlobalMatrices (ApplyBoundaryConditions noMarkers valuesSeven opSym))).Acf_
      unitFace0 0 = -2 := by
    have h := cfMultiply_assembled (ApplyBoundaryConditions noMarkers valuesSeven opSym) hwfb
      unitFace0 0 (by rw [hmb]; decide)
    rw [hmb] at h
    rw [ComputeSchurComplement_Acf, h]
    simp only [hnf, hf0, hf1, Finset.sum_range_succ, Finset.sum_range_zero,
      hAcfb 0 (by decide), hAcfb 1 (by decide), opSym_Acf_cells, hx0, hx1]
    norm_num
  refine ⟨hAccG, ?_, ?_⟩
  · rw [ffMultiply_assembled opSym.mesh_ hwf _ _
      (Sff_assembled_after_bc noMarkers valuesSeven opSym)]
    simp only [hnc, hnf, hf0, hf1, Finset.sum_range_succ, Finset.sum_range_zero, hAffb,
      hAcfb 0 (by decide), hAcfb 1 (by decide), hAfcb 0 (by decide), hAfcb 1 (by decide),
      opSym_Acf_cells, opSym_Afc_cells, opSym_Acc_cells, hx0, hx1]
    norm_num
  · have hT := cfMultiplyT_assembled (ApplyBoundaryConditions noMarkers valuesSeven opSym)
      hwfb
      (fun c =>
        cfMultiply opSym.mesh_
            (ComputeSchurComplement noMarkers valuesSeven
              (AssembleGlobalMatrices
                (ApplyBoundaryConditions noMarkers valuesSeven opSym))).Acf_
            unitFace0 c
          / (ComputeSchurComplement noMarkers valuesSeven
              (AssembleGlobalMatrices
                (ApplyBoundaryConditions noMarkers valuesSeven opSym))).Acc_ c) 0
    rw [hmb] at hT
    rw [ffMultiply_assembled opSym.mesh_ hwf _ _ hA, ComputeSchurComplement_Afc, hT]
    simp only [hnc, hnf, hf0, hf1, Finset.sum_range_succ, Finset.sum_range_zero, hAffb,
      hAcfb 0 (by decide), hAcfb 1 (by decide), hflagb, if_true, hC, hAccG,
      opSym_Acf_cells, hx0, hx1]
    norm_num

/-- C6 (amended): for every solution vector `x` and a residual vector whose storage is
neither the stored right-hand side nor the solution, `ComputeResidual` leaves
`rhs - Apply(x)` and `ComputeNegativeResidual` leaves `Apply(x) - rhs` in the residual,
componentwise on cells and faces, so the second is the negative of the first; neither call
changes the stored right-hand side, nor any storage other than the residual. -/
theorem C6_residuals (s : MatrixMFD) (rhs_ solution residual : Nat)
    (heap : Nat → CompositeVector) (hr : residual ≠ rhs_) (hx : residual ≠ solution) :
    (∀ c, (ComputeResidual_heap s rhs_ solution residual heap residual).cell c
        = (heap rhs_).cell c - (Apply s (heap solution)).cell c)
    ∧ (∀ f, (ComputeResidual_heap s rhs_ solution residual heap residual).face f
        = (heap rhs_).face f - (Apply s (heap solution)).face f)
    ∧ (∀ c, (ComputeNegativeResidual_heap s rhs_ solution residual heap residual).cell c
        = (Apply s (heap solution)).cell c - (heap rhs_).cell c)
    ∧ (∀ f, (ComputeNegativeResidual_heap s rhs_ solution residual heap residual).face f
        = (Apply s (heap solution)).face f - (heap rhs_).face f)
    ∧ (∀ c, (ComputeNegativeResidual_heap s rhs_ solution residual heap residual).cell c
        = -(ComputeResidual_heap s rhs_ solution residual heap residual).cell c)
    ∧ (∀ f, (ComputeNegativeResidual_heap s rhs_ solution residual heap residual).face f
        = -(ComputeResidual_heap s rhs_ solution residual heap residual).face f)
    ∧ ComputeResidual_heap s rhs_ solution residual heap rhs_ = heap rhs_
    ∧ ComputeNegativeResidual_heap s rhs_ solution residual heap rhs_ = heap rhs_
    ∧ (∀ a, a ≠ residual → ComputeResidual_heap s rhs_ solution residual heap a = heap a)
    ∧ (∀ a, a ≠ residual →
        ComputeNegativeResidual_heap s rhs_ solution residual heap a = heap a)
    ∧ (heap rhs_ = { cell := s.rhs_cell, face := s.rhs_face } →
        ComputeResidual_heap s rhs_ solution residual heap residual
            = ComputeResidual s (heap solution)
        ∧ ComputeNegativeResidual_heap s rhs_ solution residual heap residual
            = ComputeNegativeResidual s (heap solution)) := by
  have hr2 : rhs_ ≠ residual := fun e => hr e.symm
  have hx2 : solution ≠ residual := fun e => hx e.symm
  have hA : Apply_heap s solution residual heap residual = Apply s (heap solution) :=
    Apply_heap_separate s solution residual heap hx2
  have hF : Apply_heap s solution residual heap rhs_ = heap rhs_ :=
    Apply_heap_frame s solution residual heap rhs_ hr2
  have hframe : ∀ a, a ≠ residual →
      ComputeResidual_heap s rhs_ solution residual heap a = heap a := by
    intro a ha
    unfold ComputeResidual_heap
    simp only [Function.update_noteq ha]
    exact Apply_heap_frame s solution residual heap a ha
  have hframeN : ∀ a, a ≠ residual →
      ComputeNegativeResidual_heap s rhs_ solution residual heap a = heap a := by
    intro a ha
    unfold ComputeNegativeResidual_heap
    simp only [Function.update_noteq ha]
    exact Apply_heap_frame s solution residual heap a ha
  have hR : ComputeResidual_heap s rhs_ solution residual heap residual
      = { cell := fun c => 1 * (heap rhs_).cell c + (-1) * (Apply s (heap solution)).cell c
          face := fun f => 1 * (heap rhs_).face f
            + (-1) * (Apply s (heap solution)).face f } := by
    unfold ComputeResidual_heap
    simp only [Function.update_same, hA, hF]
  have hN : ComputeNegativeResidual_heap s rhs_ solution residual heap residual
      = { cell := fun c => (-1) * (heap rhs_).cell c + 1 * (Apply s (heap solution)).cell c
          face := fun f => (-1) * (heap rhs_).face f
            + 1 * (Apply s (heap solution)).face f } := by
    unfold ComputeNegativeResidual_heap
    simp only [Function.update_same, hA, hF]
  refine ⟨?_, ?_, ?_, ?_, ?_, ?_, hframe rhs_ hr2, hframeN rhs_ hr2, hframe, hframeN, ?_⟩
  · intro c; rw [hR]; simp only []; ring
  · intro f; rw [hR]; simp only []; ring
  · intro c; rw [hN]; simp only []; ring
  · intro f; rw [hN]; simp only []; ring
  · intro c; rw [hR, hN]; simp only []; ring
  · intro f; rw [hR, hN]; simp only []; ring
  · intro hrhs
    rw [hR, hN, hrhs]
    exact ⟨rfl, rfl⟩

/-- C6 (witness): with the right-hand side at address `0`, the solution at address `1` and
the residual at address `2`, the residual of the assembled operator `opAcc` at cell `0`,
and the right-hand side after the call. -/
theorem C6_witness :
    (ComputeResidual_heap (AssembleGlobalMatrices opAcc) 0 1 2 heapData 2).cell 0
        = (heapData 0).cell 0 - (Apply (AssembleGlobalMatrices opAcc) (heapData 1)).cell 0
    ∧ ComputeResidual_heap (AssembleGlobalMatrices opAcc) 0 1 2 heapData 0 = heapData 0 :=
  ⟨(C6_residuals (AssembleGlobalMatrices opAcc) 0 1 2 heapData (by decide) (by decide)).1 0,
    (C6_residuals (AssembleGlobalMatrices opAcc) 0 1 2 heapData (by decide)
      (by decide)).2.2.2.2.2.2.1⟩

/-- C6 (counterexample): on the assembled operator `opAcc`, with the right-hand side
`faceData` at address `0` and the solution `cellOne` at address `1`: when the residual is
the storage of the right-hand side, the call changes the right-hand side at face `0` from
`3` to `0`; when the residual is the storage of the solution, the call leaves `-10` in the
residual at cell `0`, while `rhs - Apply(x)` is `-4` there. -/
theorem C6_counterexample :
    (heapData 0).face 0 = 3
    ∧ (ComputeResidual_heap (AssembleGlobalMatrices opAcc) 0 1 0 heapData 0).face 0 = 0
    ∧ (ComputeResidual_heap (AssembleGlobalMatrices opAcc) 0 1 1 heapData 1).cell 0 = -10
    ∧ (heapData 0).cell 0 - (Apply (AssembleGlobalMatrices opAcc) (heapData 1)).cell 0
        = -4 := by
  have hm : opAcc.mesh_ = meshOne := rfl
  have hwf : opAcc.mesh_.WF := by rw [hm]; decide
  have hnc : opAcc.mesh_.ncells = 1 := rfl
  have hnf : opAcc.mesh_.nfaces 0 = 2 := rfl
  have hf0 : opAcc.mesh_.face 0 0 = 0 := rfl
  have hf1 : opAcc.mesh_.face 0 1 = 1 := rfl
  have hh0 : heapData 0 = faceData := rfl
  have hh1 : heapData 1 = cellOne := rfl
  have hAff : ∀ n m, opAcc.Aff_cells_ 0 n m = if n = m then 1 else 0 := fun _ _ => rfl
  have hAfc : ∀ n, opAcc.Afc_cells_ 0 n = -1 := fun _ => rfl
  have hAcf : ∀ n, opAcc.Acf_cells_ 0 n = -1 := fun _ => rfl
  have hAcc : opAcc.Acc_cells_ 0 = 4 := rfl
  have hflag : opAcc.flag_symmetry_ = false := rfl
  have hYf : ∀ f, f < 2 → (Apply (AssembleGlobalMatrices opAcc) cellOne).face f = -1 := by
    intro f hf
    rw [Apply_face_assembled opAcc hwf]
    interval_cases f
    · simp only [hnc, hnf, hf0, hf1, Finset.sum_range_succ, Finset.sum_range_zero, hAff, hAfc,
        hflag, cellOne]
      norm_num
    · simp only [hnc, hnf, hf0, hf1, Finset.sum_range_succ, Finset.sum_range_zero, hAff, hAfc,
        hflag, cellOne]
      norm_num
  have hYc : (Apply (AssembleGlobalMatrices opAcc) cellOne).cell 0 = 4 := by
    rw [Apply_cell_assembled opAcc hwf _ 0 (by decide)]
    simp only [hnf, Finset.sum_range_succ, Finset.sum_range_zero, hAcf, hAcc, cellOne]
    norm_num
  have hZ : cfMultiply (AssembleGlobalMatrices opAcc).mesh_ (AssembleGlobalMatrices opAcc).Acf_
      (Apply (AssembleGlobalMatrices opAcc) cellOne).face 0 = 2 := by
    rw [AssembleGlobalMatrices_mesh, cfMultiply_assembled opAcc hwf _ 0 (by decide)]
    simp only [hnf, hf0, hf1, Finset.sum_range_succ, Finset.sum_range_zero, hAcf,
      hYf 0 (by decide), hYf 1 (by decide)]
    norm_num
  refine ⟨rfl, (ComputeResidual_heap_aliased _ 0 1 heapData).2 0, ?_, ?_⟩
  · unfold ComputeResidual_heap
    simp only [Function.update_same]
    rw [Apply_heap_frame _ 1 1 heapData 0 (by decide),
      (Apply_heap_aliased (AssembleGlobalMatrices opAcc) 1 heapData).2, hh0, hh1]
    simp only [hZ, AssembleGlobalMatrices_Acc opAcc 0 (by decide), hAcc, faceData]
    norm_num
  · rw [hh0, hh1, hYc]
    simp only [faceData]
    norm_num

/-- C7: for a cell none of whose faces is marked Dirichlet, with a nonzero multiplier
`Krel[f]` at each of its flux-type faces of nonzero value, `ApplyBoundaryConditions` leaves
`Aff_cells_[c]`, `Acf_cells_[c]`, `Afc_cells_[c]` and `Fc_cells_[c]` unchanged, changes
`Ff_cells_[c][n]` by `-v*face_area(f)/Krel[f]` at each local face `n` whose face `f` is
flux-type with a nonzero value `v`, and leaves every other load entry unchanged. -/
theorem C7_flux_only (s : MatrixMFD) (bc_markers : Nat → Matrix_bc)
    (bc_values : Vec) (c : Nat) (hc : c < s.mesh_.ncells)
    (hnoD : ∀ n, n < s.mesh_.nfaces c →
      bc_markers (s.mesh_.face c n) ≠ Matrix_bc.MATRIX_BC_DIRICHLET)
    (_hKrel : ∀ n, n < s.mesh_.nfaces c →
      bc_markers (s.mesh_.face c n) = Matrix_bc.MATRIX_BC_FLUX →
      bc_values (s.mesh_.face c n) ≠ 0 → s.Krel_ (s.mesh_.face c n) ≠ 0) :
    (ApplyBoundaryConditions bc_markers bc_values s).Aff_cells_ c = s.Aff_cells_ c
    ∧ (ApplyBoundaryConditions bc_markers bc_values s).Acf_cells_ c = s.Acf_cells_ c
    ∧ (ApplyBoundaryConditions bc_markers bc_values s).Afc_cells_ c = s.Afc_cells_ c
    ∧ (ApplyBoundaryConditions bc_markers bc_values s).Fc_cells_ c = s.Fc_cells_ c
    ∧ (∀ n, n < s.mesh_.nfaces c →
        (ApplyBoundaryConditions bc_markers bc_values s).Ff_cells_ c n
          = if bc_markers (s.mesh_.face c n) = Matrix_bc.MATRIX_BC_FLUX
                ∧ bc_values (s.mesh_.face c n) ≠ 0 then
              s.Ff_cells_ c n
                - bc_values (s.mesh_.face c n) * s.mesh_.face_area (s.mesh_.face c n)
                  / s.Krel_ (s.mesh_.face c n)
            else s.Ff_cells_ c n) := by
  rw [ApplyBoundaryConditions_Aff_cells _ _ s c hc, ApplyBoundaryConditions_Acf_cells _ _ s c hc,
    ApplyBoundaryConditions_Afc_cells _ _ s c hc, ApplyBoundaryConditions_Ff_cells _ _ s c hc,
    ApplyBoundaryConditions_Fc_cells _ _ s c hc]
  have hD : ∀ n, ¬ (n < s.mesh_.nfaces c ∧ isDirichlet s.mesh_ bc_markers c n) :=
    fun n h => hnoD n h.1 h.2
  have hD3 : ∀ i j, ¬ ((i < s.mesh_.nfaces c ∧ isDirichlet s.mesh_ bc_markers c i
        ∧ j < s.mesh_.nfaces c)
      ∨ (j < s.mesh_.nfaces c ∧ isDirichlet s.mesh_ bc_markers c j
        ∧ i < s.mesh_.nfaces c)) := by
    rintro i j (⟨h1, h2, _⟩ | ⟨h1, h2, _⟩)
    · exact hD i ⟨h1, h2⟩
    · exact hD j ⟨h1, h2⟩
  have hsum : ∀ (g : Nat → ℚ), (∑ d in range (s.mesh_.nfaces c),
      if isDirichlet s.mesh_ bc_markers c d then g d else 0) = 0 := by
    intro g
    apply Finset.sum_eq_zero
    intro d hd
    rw [if_neg (fun h => hD d ⟨Finset.mem_range.mp hd, h⟩)]
  refine ⟨?_, ?_, ?_, ?_, ?_⟩
  · funext i j
    simp only [bcCell, bcClosed, hD3, if_false, MatrixMFD.blocks]
  · funext n
    simp only [bcCell, bcClosed, hD, if_false, MatrixMFD.blocks]
  · funext n
    simp only [bcCell, bcClosed, hD, if_false, MatrixMFD.blocks]
  · rw [bcCell_Fc, hsum, sub_zero]
  · intro n hn
    rw [bcCell_Ff _ _ s c n hn, if_neg (fun h => hD n ⟨hn, h⟩), hsum, sub_zero]
    by_cases hF : isFluxNonzero s.mesh_ bc_markers bc_values c n
    · have h2 : bc_markers (s.mesh_.face c n) = Matrix_bc.MATRIX_BC_FLUX
          ∧ bc_values (s.mesh_.face c n) ≠ 0 := ⟨hF.1, abs_pos.mp hF.2⟩
      rw [if_pos hF, if_pos h2]
    · have h2 : ¬ (bc_markers (s.mesh_.face c n) = Matrix_bc.MATRIX_BC_FLUX
          ∧ bc_values (s.mesh_.face c n) ≠ 0) := fun h => hF ⟨h.1, abs_pos.mpr h.2⟩
      rw [if_neg hF, if_neg h2, sub_zero]

/-- C7 (witness): the load entries of `opFlux` after a flux condition on face `1`; the
multiplier `Krel` of `opFlux` is `2` on face `0` and `3` on the other faces. -/
theorem C7_witness :
    (ApplyBoundaryConditions fluxAt1 valuesSeven opFlux).Ff_cells_ 0 1
      = if fluxAt1 (opFlux.mesh_.face 0 1) = Matrix_bc.MATRIX_BC_FLUX
            ∧ valuesSeven (opFlux.mesh_.face 0 1) ≠ 0 then
          opFlux.Ff_cells_ 0 1
            - valuesSeven (opFlux.mesh_.face 0 1)
              * opFlux.mesh_.face_area (opFlux.mesh_.face 0 1)
              / opFlux.Krel_ (opFlux.mesh_.face 0 1)
        else opFlux.Ff_cells_ 0 1 :=
  (C7_flux_only opFlux fluxAt1 valuesSeven 0 (by decide)
    (by
      intro n _ h
      unfold fluxAt1 at h
      split_ifs at h)
    (by
      intro n _ _ _
      have hK : opFlux.Krel_ = fun f => if f = 0 then 2 else 3 := by
        unfold opFlux
        rw [CreateMFDstiffnessMatrices_eq]
        rfl
      rw [hK]
      simp only []
      split_ifs <;> norm_num)).2.2.2.2 1 (by decide)

/-- C8 (amended): after `CreateMFDstiffnessMatrices`, for every owned cell, every mass block
and every relative-conductivity input, each row of the face-face block sums with its
cell-coupling entry to zero, `sum_m Aff_cells_[c](n,m) + Afc_cells_[c](n) = 0`, and the cell
row closes, `sum_n Acf_cells_[c](n) + Acc_cells_[c] = 0`; consequently, before boundary
conditions are applied, `Apply` maps every constant field to a vector whose cell component
is zero and, when `flag_symmetry_` is false or `Acf_cells_[c] = Afc_cells_[c]` for every
owned cell, whose face component is zero. -/
theorem C8_local_conservation (Krel : Option KrelVector) (s : MatrixMFD) (hwf : s.mesh_.WF) :
    (∀ c, c < s.mesh_.ncells → ∀ n, n < s.mesh_.nfaces c →
      (∑ m in range (s.mesh_.nfaces c), (CreateMFDstiffnessMatrices Krel s).Aff_cells_ c n m)
        + (CreateMFDstiffnessMatrices Krel s).Afc_cells_ c n = 0)
    ∧ (∀ c, c < s.mesh_.ncells →
      (∑ n in range (s.mesh_.nfaces c), (CreateMFDstiffnessMatrices Krel s).Acf_cells_ c n)
        + (CreateMFDstiffnessMatrices Krel s).Acc_cells_ c = 0)
    ∧ (∀ k c, c < s.mesh_.ncells →
      (Apply (AssembleGlobalMatrices (CreateMFDstiffnessMatrices Krel s))
        (constField k)).cell c = 0)
    ∧ ((s.flag_symmetry_ = false
        ∨ ∀ c, c < s.mesh_.ncells → ∀ n, n < s.mesh_.nfaces c →
            (CreateMFDstiffnessMatrices Krel s).Acf_cells_ c n
              = (CreateMFDstiffnessMatrices Krel s).Afc_cells_ c n) →
      ∀ k f,
        (Apply (AssembleGlobalMatrices (CreateMFDstiffnessMatrices Krel s))
          (constField k)).face f = 0) := by
  have hm : (CreateMFDstiffnessMatrices Krel s).mesh_ = s.mesh_ :=
    CreateMFDstiffnessMatrices_mesh Krel s
  have hwf1 : (CreateMFDstiffnessMatrices Krel s).mesh_.WF := by rw [hm]; exact hwf
  have hrow : ∀ c, c < s.mesh_.ncells → ∀ n,
      (∑ m in range (s.mesh_.nfaces c), (CreateMFDstiffnessMatrices Krel s).Aff_cells_ c n m)
        + (CreateMFDstiffnessMatrices Krel s).Afc_cells_ c n = 0 := by
    intro c hc n
    rw [CreateMFDstiffnessMatrices_Aff_cells Krel s c hc,
      CreateMFDstiffnessMatrices_Afc_cells Krel s c hc]
    unfold stiffnessRowsum
    exact add_neg_cancel _
  have hcol : ∀ c, c < s.mesh_.ncells →
      (∑ n in range (s.mesh_.nfaces c), (CreateMFDstiffnessMatrices Krel s).Acf_cells_ c n)
        + (CreateMFDstiffnessMatrices Krel s).Acc_cells_ c = 0 := by
    intro c hc
    rw [CreateMFDstiffnessMatrices_Acc_cells Krel s c hc]
    simp only [CreateMFDstiffnessMatrices_Acf_cells Krel s c hc, Finset.sum_neg_distrib]
    exact neg_add_cancel _
  refine ⟨fun c hc n _ => hrow c hc n, hcol, ?_, ?_⟩
  · intro k c hc
    rw [Apply_cell_assembled _ hwf1 _ c (by rw [hm]; exact hc), hm]
    simp only [constField]
    rw [← Finset.sum_mul, ← add_mul, hcol c hc, zero_mul]
  · intro hflag k f
    rw [Apply_face_assembled _ hwf1, hm]
    apply Finset.sum_eq_zero
    intro c hc
    apply Finset.sum_eq_zero
    intro n hn
    have hc1 : c < s.mesh_.ncells := Finset.mem_range.mp hc
    have hn1 : n < s.mesh_.nfaces c := Finset.mem_range.mp hn
    have hW : (if (CreateMFDstiffnessMatrices Krel s).flag_symmetry_ = true then
          (CreateMFDstiffnessMatrices Krel s).Acf_cells_ c n
        else (CreateMFDstiffnessMatrices Krel s).Afc_cells_ c n)
        = (CreateMFDstiffnessMatrices Krel s).Afc_cells_ c n := by
      rcases hflag with hfalse | hsym
      · rw [CreateMFDstiffnessMatrices_flag, hfalse]
        simp only [Bool.false_eq_true, if_false]
      · rw [hsym c hc1 n hn1, ite_self]
    by_cases h : s.mesh_.face c n = f
    · rw [if_pos h, hW]
      simp only [constField]
      rw [← Finset.sum_mul, ← add_mul, hrow c hc1 n, zero_mul]
    · rw [if_neg h]

/-- C8 (witness): the face component of `Apply` on a constant field, on `meshOne` with
`flag_symmetry_` set and no relative conductivity, where `Acf_cells_ = Afc_cells_`. -/
theorem C8_witness :
    (Apply (AssembleGlobalMatrices (CreateMFDstiffnessMatrices none (opOne true)))
      (constField 3)).face 1 = 0 :=
  (C8_local_conservation none (opOne true) (by decide)).2.2.2
    (Or.inr (by
      intro c hc n _
      rw [CreateMFDstiffnessMatrices_Acf_cells _ _ c hc,
        CreateMFDstiffnessMatrices_Afc_cells _ _ c hc]
      simp only [stiffnessColsum, stiffnessRowsum, stiffnessBff, opOne, Option.bind_none,
        mul_one]
      refine congrArg Neg.neg (Finset.sum_congr rfl (fun m _ => ?_))
      by_cases h : m = n
      · rw [if_pos h, if_pos h.symm]
        rfl
      · rw [if_neg h, if_neg (fun e => h e.symm)]
        rfl)) 3 1

/-- C8 (counterexample): with `flag_symmetry_` set and a face relative conductivity, `Apply`
after `CreateMFDstiffnessMatrices` and `AssembleGlobalMatrices` does not map the constant
field `1` to zero on face `0`. -/
theorem C8_counterexample :
    (Apply (AssembleGlobalMatrices (CreateMFDstiffnessMatrices (some krelFace) (opOne true)))
      (constField 1)).face 0 ≠ 0 := by
  change (Apply (AssembleGlobalMatrices opSym) (constField 1)).face 0 ≠ 0
  have hm : opSym.mesh_ = meshOne := rfl
  have hwf : opSym.mesh_.WF := by rw [hm]; decide
  have hnc : opSym.mesh_.ncells = 1 := rfl
  have hnf : opSym.mesh_.nfaces 0 = 2 := rfl
  have hf0 : opSym.mesh_.face 0 0 = 0 := rfl
  have hf1 : opSym.mesh_.face 0 1 = 1 := rfl
  have hk : ∀ i, (constField 1).face i = 1 := fun _ => rfl
  have hkc : ∀ i, (constField 1).cell i = 1 := fun _ => rfl
  rw [Apply_face_assembled opSym hwf]
  simp only [hnc, hnf, hf0, hf1, Finset.sum_range_succ, Finset.sum_range_zero, opSym_flag,
    opSym_Aff_cells, opSym_Acf_cells, hk, hkc]
  norm_num

/-- C9: if every elemental mass block `Mff_cells_[c]` is symmetric, then after
`CreateMFDstiffnessMatrices` (any relative conductivity), `ApplyBoundaryConditions` (any
markers and values) and `AssembleGlobalMatrices`, the global face-face matrix is symmetric:
`Aff[i][j] = Aff[j][i]` for all faces `i`, `j`. -/
theorem C9_symmetric_Aff (Krel : Option KrelVector) (s : MatrixMFD)
    (bc_markers : Nat → Matrix_bc) (bc_values : Vec)
    (hsym : ∀ c, c < s.mesh_.ncells → ∀ n, n < s.mesh_.nfaces c → ∀ m, m < s.mesh_.nfaces c →
      s.Mff_cells_ c n m = s.Mff_cells_ c m n) :
    ∀ i j,
      (AssembleGlobalMatrices (ApplyBoundaryConditions bc_markers bc_values
        (CreateMFDstiffnessMatrices Krel s))).Aff_ i j
      = (AssembleGlobalMatrices (ApplyBoundaryConditions bc_markers bc_values
        (CreateMFDstiffnessMatrices Krel s))).Aff_ j i := by
  intro i j
  have hm1 : (CreateMFDstiffnessMatrices Krel s).mesh_ = s.mesh_ :=
    CreateMFDstiffnessMatrices_mesh Krel s
  have hm : (ApplyBoundaryConditions bc_markers bc_values
      (CreateMFDstiffnessMatrices Krel s)).mesh_ = s.mesh_ := by
    rw [ApplyBoundaryConditions_mesh, hm1]
  have hB : ∀ c, c < s.mesh_.ncells → ∀ n, n < s.mesh_.nfaces c → ∀ m, m < s.mesh_.nfaces c →
      (ApplyBoundaryConditions bc_markers bc_values
        (CreateMFDstiffnessMatrices Krel s)).Aff_cells_ c n m
      = (ApplyBoundaryConditions bc_markers bc_values
        (CreateMFDstiffnessMatrices Krel s)).Aff_cells_ c m n := by
    intro c hc n hn m hmm
    have hc1 : c < (CreateMFDstiffnessMatrices Krel s).mesh_.ncells := by rw [hm1]; exact hc
    have hn1 : n < (CreateMFDstiffnessMatrices Krel s).mesh_.nfaces c := by rw [hm1]; exact hn
    have hmm1 : m < (CreateMFDstiffnessMatrices Krel s).mesh_.nfaces c := by
      rw [hm1]; exact hmm
    rw [ApplyBoundaryConditions_Aff_cells _ _ _ c hc1, bcCell_Bff _ _ _ c n m hn1 hmm1,
      bcCell_Bff _ _ _ c m n hmm1 hn1, CreateMFDstiffnessMatrices_Aff_cells Krel s c hc]
    simp only [stiffnessBff, hsym c hc n hn m hmm, or_comm, eq_comm]
  rw [AssembleGlobalMatrices_Aff, AssembleGlobalMatrices_Aff, hm]
  apply Finset.sum_congr rfl
  intro c hc
  rw [Finset.sum_comm]
  apply Finset.sum_congr rfl
  intro n hn
  apply Finset.sum_congr rfl
  intro m hmm
  rw [hB c (Finset.mem_range.mp hc) m (Finset.mem_range.mp hmm) n (Finset.mem_range.mp hn)]
  simp only [and_comm]

/-- C9 (witness): the assembled face-face matrix on `meshOne` with unit mass blocks. -/
theorem C9_witness :
    (AssembleGlobalMatrices (ApplyBoundaryConditions dirichletAt0 valuesSeven
      (CreateMFDstiffnessMatrices (some krelFace) (opOne false)))).Aff_ 0 1
    = (AssembleGlobalMatrices (ApplyBoundaryConditions dirichletAt0 valuesSeven
      (CreateMFDstiffnessMatrices (some krelFace) (opOne false)))).Aff_ 1 0 :=
  C9_symmetric_Aff (some krelFace) (opOne false) dirichletAt0 valuesSeven
    (by
      intro c _ n _ m _
      simp only [opOne, eq_comm])
    0 1


/-- C10: on a mesh in which each owned face is incident to at least one owned cell,
`DeriveFlux` marks every owned face as done, so the closing assertion `ASSERT(done[f])`
holds for every owned face and `DeriveFlux` returns the flux; each owned face is written
exactly once: the assignment `flux_v[0][f] = ...` is executed once for `f`, from the first
owned cell `c` that has `f` and the first local index `n` of `f` in `c`, and the flux
returned at `f` is the value of that assignment, whatever the flux held before. -/
theorem C10_DeriveFlux_finalizes (s : MatrixMFD) (solution : CompositeVector)
    (hinc : ∀ f, f < s.mesh_.nfaces_owned →
      ∃ c, c < s.mesh_.ncells ∧ f ∈ s.mesh_.cell_faces c) :
    DeriveFlux s solution = Except.ok (DeriveFlux_loop s solution).flux_v
    ∧ ∀ f, f < s.mesh_.nfaces_owned →
        (DeriveFlux_loop s solution).done f = true
        ∧ (DeriveFlux_loop s solution).written.count f = 1
        ∧ ∃ c n, c < s.mesh_.ncells ∧ n < s.mesh_.nfaces c ∧ s.mesh_.face c n = f
            ∧ (∀ b, b < c → f ∉ s.mesh_.cell_faces b)
            ∧ (∀ i, i < n → s.mesh_.face c i ≠ f)
            ∧ (DeriveFlux_loop s solution).flux_v f
                = (∑ m in range (s.mesh_.nfaces c),
                    s.Aff_cells_ c n m
                      * (solution.cell c - solution.face (s.mesh_.face c m)))
                  * (s.mesh_.dir c n : ℚ) * s.Krel_ f
            ∧ ∀ flux0 : Vec,
                (forLoop s.mesh_.ncells (DeriveFlux_cell s solution s.mesh_.nfaces_owned)
                  { flux_v := flux0, done := fun _ => false, written := [] }).flux_v f
                = (DeriveFlux_loop s solution).flux_v f := by
  have h0 : ({ flux_v := fun _ => 0, done := fun _ => false, written := [] } :
      FluxState).consistent := by
    constructor
    · intro f
      simp
    · exact List.nodup_nil
  obtain ⟨hcons, hdone⟩ := DeriveFlux_cell_loop s s.mesh_.nfaces_owned solution _ h0
    s.mesh_.ncells
  have hall : ∀ f, f < s.mesh_.nfaces_owned → (DeriveFlux_loop s solution).done f = true := by
    intro f hf
    obtain ⟨c, hc, hmem⟩ := hinc f hf
    obtain ⟨n, hn, e⟩ := (s.mesh_.mem_faces_iff c f).mp hmem
    have := hdone c hc n hn (by rw [e]; exact hf)
    rw [e] at this
    exact this
  refine ⟨?_, ?_⟩
  · unfold DeriveFlux
    simp only
    rw [if_pos hall]
  · intro f hf
    refine ⟨hall f hf, List.count_eq_one_of_mem hcons.2 ((hcons.1 f).mp (hall f hf)), ?_⟩
    obtain ⟨c, n, hc, hn, hfn, hfirstc, hfirstn⟩ := s.mesh_.first_incidence f (hinc f hf)
    refine ⟨c, n, hc, hn, hfn, hfirstc, hfirstn, ?_, ?_⟩
    · have h := DeriveFlux_loop_value s solution c n hc hn (by rw [hfn]; exact hf)
        (by rw [hfn]; exact hfirstn) (by rw [hfn]; exact hfirstc)
      rw [hfn] at h
      rw [h]
      unfold fluxValue
      rw [hfn]
    · intro flux0
      have h := DeriveFlux_loop_value s solution c n hc hn (by rw [hfn]; exact hf)
        (by rw [hfn]; exact hfirstn) (by rw [hfn]; exact hfirstc)
      have h2 := DeriveFlux_cell_loop_write s s.mesh_.nfaces_owned solution
        { flux_v := flux0, done := fun _ => false, written := [] } c n hn
        (by rw [hfn]; exact hf) rfl (by rw [hfn]; exact hfirstn)
        (by rw [hfn]; exact hfirstc) s.mesh_.ncells hc
      rw [hfn] at h h2
      rw [h, h2]

/-- C10 (witness): `DeriveFlux` on the two-cell mesh `meshTwo`. -/
theorem C10_witness :
    DeriveFlux opTwo cellOne = Except.ok (DeriveFlux_loop opTwo cellOne).flux_v :=
  (C10_DeriveFlux_finalizes opTwo cellOne (by decide)).1

/-- C11: for an owned face `f`, with `c` the lowest-indexed owned cell having `f` among its
faces and `n` the (first) local index of `f` in `c`, the value `DeriveFlux` writes is
`flux[f] = dirs_c[n] * Krel[f] * sum_m Aff_cells_[c](n,m) * (p_cell[c] - p_face[faces_c[m]])`;
later cells sharing `f` contribute nothing, and the value is the same whatever the flux
vector held before. -/
theorem C11_DeriveFlux_value (s : MatrixMFD) (solution : CompositeVector) (f c n : Nat)
    (hf : f < s.mesh_.nfaces_owned) (hc : c < s.mesh_.ncells) (hn : n < s.mesh_.nfaces c)
    (hfn : s.mesh_.face c n = f)
    (hfirstn : ∀ i, i < n → s.mesh_.face c i ≠ f)
    (hfirstc : ∀ b, b < c → f ∉ s.mesh_.cell_faces b) :
    (DeriveFlux_loop s solution).flux_v f
        = (s.mesh_.dir c n : ℚ) * s.Krel_ f
          * ∑ m in range (s.mesh_.nfaces c),
              s.Aff_cells_ c n m * (solution.cell c - solution.face (s.mesh_.face c m))
    ∧ (∀ flux0 : Vec,
        (forLoop s.mesh_.ncells (DeriveFlux_cell s solution s.mesh_.nfaces_owned)
          { flux_v := flux0, done := fun _ => false, written := [] }).flux_v f
        = (s.mesh_.dir c n : ℚ) * s.Krel_ f
          * ∑ m in range (s.mesh_.nfaces c),
              s.Aff_cells_ c n m * (solution.cell c - solution.face (s.mesh_.face c m)))
    ∧ (∀ v, DeriveFlux s solution = Except.ok v →
        v f = (s.mesh_.dir c n : ℚ) * s.Krel_ f
          * ∑ m in range (s.mesh_.nfaces c),
              s.Aff_cells_ c n m * (solution.cell c - solution.face (s.mesh_.face c m))) := by
  have hval : fluxValue s solution c n
      = (s.mesh_.dir c n : ℚ) * s.Krel_ f
          * ∑ m in range (s.mesh_.nfaces c),
              s.Aff_cells_ c n m * (solution.cell c - solution.face (s.mesh_.face c m)) := by
    unfold fluxValue
    rw [hfn]
    ring
  have hgen : ∀ flux0 : Vec,
      (forLoop s.mesh_.ncells (DeriveFlux_cell s solution s.mesh_.nfaces_owned)
        { flux_v := flux0, done := fun _ => false, written := [] }).flux_v f
      = fluxValue s solution c n := by
    intro flux0
    have h := DeriveFlux_cell_loop_write s s.mesh_.nfaces_owned solution
      { flux_v := flux0, done := fun _ => false, written := [] } c n hn
      (by rw [hfn]; exact hf) rfl (by rw [hfn]; exact hfirstn) (by rw [hfn]; exact hfirstc)
      s.mesh_.ncells hc
    rw [hfn] at h
    exact h
  refine ⟨?_, ?_, ?_⟩
  · rw [← hval]
    exact hgen (fun _ => 0)
  · intro flux0
    rw [← hval]
    exact hgen flux0
  · intro v hv
    unfold DeriveFlux at hv
    simp only at hv
    split_ifs at hv
    · have hv2 : (DeriveFlux_loop s solution).flux_v = v := by
        injection hv
      rw [← hv2, ← hval]
      exact hgen (fun _ => 0)


/-- C11 (witness): the flux `DeriveFlux` writes at the shared face `1` of `meshTwo` comes
from cell `0`. -/
theorem C11_witness :
    (DeriveFlux_loop opTwo cellOne).flux_v 1
      = (opTwo.mesh_.dir 0 1 : ℚ) * opTwo.Krel_ 1
        * ∑ m in range (opTwo.mesh_.nfaces 0),
            opTwo.Aff_cells_ 0 1 m * (cellOne.cell 0 - cellOne.face (opTwo.mesh_.face 0 m)) :=
  (C11_DeriveFlux_value opTwo cellOne 1 0 1 (by decide) (by decide) (by decide) (by decide)
    (by decide) (by decide)).1

/-- C12 (amended): `DeriveFlux` contracts the pressure differences against the blocks that
`Aff_cells_` holds when it is called; `ApplyBoundaryConditions` does not change the result
of `DeriveFlux` when no face of an owned cell is marked Dirichlet. -/
theorem C12_DeriveFlux_after_bc (s : MatrixMFD) (bc_markers : Nat → Matrix_bc)
    (bc_values : Vec) (solution : CompositeVector)
    (hnoD : ∀ c, c < s.mesh_.ncells → ∀ n, n < s.mesh_.nfaces c →
      bc_markers (s.mesh_.face c n) ≠ Matrix_bc.MATRIX_BC_DIRICHLET) :
    DeriveFlux (ApplyBoundaryConditions bc_markers bc_values s) solution
      = DeriveFlux s solution :=
  (DeriveFlux_loop_congr s _ solution (ApplyBoundaryConditions_mesh _ _ s)
    (ApplyBoundaryConditions_Krel _ _ s)
    (fun c hc => ApplyBoundaryConditions_Aff_cells_of_no_dirichlet _ _ s c hc (hnoD c hc))).2

/-- C12 (witness): a flux condition on face `1` does not change the result of `DeriveFlux`
on `opDense`. -/
theorem C12_witness :
    DeriveFlux (ApplyBoundaryConditions fluxAt1 valuesSeven opDense) cellOne
      = DeriveFlux opDense cellOne :=
  C12_DeriveFlux_after_bc opDense fluxAt1 valuesSeven cellOne
    (by
      intro c _ n _ h
      unfold fluxAt1 at h
      split_ifs at h)


/-- C12 (counterexample): with a Dirichlet condition on face `0`, `DeriveFlux` after
`ApplyBoundaryConditions` does not return the flux computed from the blocks as
`CreateMFDstiffnessMatrices` left them. -/
theorem C12_counterexample :
    DeriveFlux (ApplyBoundaryConditions dirichletAt0 valuesSeven opDense) cellOne
      ≠ DeriveFlux opDense cellOne := by
  have hm0 : opDense.mesh_ = meshOne := rfl
  have hm : (ApplyBoundaryConditions dirichletAt0 valuesSeven opDense).mesh_ = meshOne := by
    rw [ApplyBoundaryConditions_mesh, hm0]
  have hK : (ApplyBoundaryConditions dirichletAt0 valuesSeven opDense).Krel_ = fun _ => 1 := by
    rw [ApplyBoundaryConditions_Krel]
    rfl
  have hK0 : opDense.Krel_ = fun _ => 1 := rfl
  have hD0 : isDirichlet opDense.mesh_ dirichletAt0 0 0 := by
    unfold isDirichlet; decide
  have hA : ∀ m, m < 2 →
      (ApplyBoundaryConditions dirichletAt0 valuesSeven opDense).Aff_cells_ 0 0 m
        = if 0 = m then 1 else 0 := by
    intro m hm2
    rw [ApplyBoundaryConditions_Aff_cells _ _ opDense 0 (by decide),
      bcCell_Bff _ _ opDense 0 0 m (by decide) hm2, if_pos (Or.inl hD0)]
  have h1 : (DeriveFlux_loop (ApplyBoundaryConditions dirichletAt0 valuesSeven opDense)
      cellOne).flux_v 0 = -1 := by
    have h := DeriveFlux_loop_value
      (ApplyBoundaryConditions dirichletAt0 valuesSeven opDense) cellOne 0 0
      (by rw [hm]; decide) (by rw [hm]; decide) (by rw [hm]; decide)
      (by intro i hi; exact absurd hi (Nat.not_lt_zero i))
      (by intro b hb; exact absurd hb (Nat.not_lt_zero b))
    simp only [hm] at h
    have hf : meshOne.face 0 0 = 0 := rfl
    rw [hf] at h
    rw [h]
    unfold fluxValue
    simp only [hm, hK, show meshOne.nfaces 0 = 2 from rfl, Finset.sum_range_succ,
      Finset.sum_range_zero, hA 0 (by decide), hA 1 (by decide),
      show meshOne.dir 0 0 = -1 from rfl, cellOne]
    norm_num
  have h2 : (DeriveFlux_loop opDense cellOne).flux_v 0 = -3 := by
    have h := DeriveFlux_loop_value opDense cellOne 0 0 (by decide) (by decide) (by decide)
      (by intro i hi; exact absurd hi (Nat.not_lt_zero i))
      (by intro b hb; exact absurd hb (Nat.not_lt_zero b))
    have hf : opDense.mesh_.face 0 0 = 0 := rfl
    rw [hf] at h
    rw [h]
    unfold fluxValue
    simp only [hm0, hK0, show meshOne.nfaces 0 = 2 from rfl, Finset.sum_range_succ,
      Finset.sum_range_zero, opDense_Aff_cells, show meshOne.dir 0 0 = -1 from rfl, cellOne]
    norm_num
  rw [DeriveFlux_ok_of_incident _ cellOne (by simp only [hm]; decide),
    DeriveFlux_ok_of_incident opDense cellOne (by decide)]
  intro h
  have h3 := congrFun (Except.ok.inj h) 0
  rw [h1, h2] at h3
  norm_num at h3


/-- C13 (amended): `ComputeSchurComplement` has no failure path: for every operator state,
also one in which a cell entry `Acc[c]` is zero, it returns with `Sff` the sum of the cell
matrices `Schur`; in these the rows and columns of Dirichlet faces are identity rows
whatever `Acc[c]` is, and the other entries are
`Aff_cells_[c](n,m) - Afc_cells_[c](n)*Acf_cells_[c](m)/Acc[c]` when `Acc[c]` is nonzero. -/
theorem C13_schur_no_failure (s : MatrixMFD) (bc_markers : Nat → Matrix_bc)
    (bc_values : Vec) :
    (∀ i j, (ComputeSchurComplement bc_markers bc_values s).Sff_ i j =
      ∑ c in range s.mesh_.ncells, ∑ n in range (s.mesh_.nfaces c),
        ∑ m in range (s.mesh_.nfaces c),
          if s.mesh_.face c n = i ∧ s.mesh_.face c m = j then schurBlock bc_markers c s n m
          else 0)
    ∧ (∀ c n m, n < s.mesh_.nfaces c → m < s.mesh_.nfaces c →
        (bc_markers (s.mesh_.face c n) = Matrix_bc.MATRIX_BC_DIRICHLET
          ∨ bc_markers (s.mesh_.face c m) = Matrix_bc.MATRIX_BC_DIRICHLET) →
        schurBlock bc_markers c s n m = if n = m then 1 else 0)
    ∧ (∀ c n m, n < s.mesh_.nfaces c → m < s.mesh_.nfaces c →
        bc_markers (s.mesh_.face c n) ≠ Matrix_bc.MATRIX_BC_DIRICHLET →
        bc_markers (s.mesh_.face c m) ≠ Matrix_bc.MATRIX_BC_DIRICHLET →
        s.Acc_ c ≠ 0 →
        schurBlock bc_markers c s n m
          = s.Aff_cells_ c n m - s.Afc_cells_ c n * s.Acf_cells_ c m / s.Acc_ c) := by
  refine ⟨ComputeSchurComplement_Sff bc_markers bc_values s, ?_, ?_⟩
  · intro c n m hn hm hD
    have hD1 : isDirichlet s.mesh_ bc_markers c n ∨ isDirichlet s.mesh_ bc_markers c m := hD
    rw [schurBlock_apply bc_markers s c n m hn hm, if_pos hD1]
  · intro c n m hn hm hDn hDm _
    have hD1 : ¬ (isDirichlet s.mesh_ bc_markers c n ∨ isDirichlet s.mesh_ bc_markers c m) :=
      fun h => h.elim hDn hDm
    rw [schurBlock_apply bc_markers s c n m hn hm, if_neg hD1]

/-- C13 (counterexample): on `opFrozen` the cell entry `Acc[0]` is zero and
`ComputeSchurComplement` returns with the identity as reduced matrix. -/
theorem C13_counterexample :
    opFrozen.Acc_ 0 = 0
    ∧ (ComputeSchurComplement dirichletAll valuesSeven opFrozen).Sff_ 0 0 = 1
    ∧ (ComputeSchurComplement dirichletAll valuesSeven opFrozen).Sff_ 0 1 = 0
    ∧ (ComputeSchurComplement dirichletAll valuesSeven opFrozen).Sff_ 1 0 = 0
    ∧ (ComputeSchurComplement dirichletAll valuesSeven opFrozen).Sff_ 1 1 = 1 := by
  have hm : opFrozen.mesh_ = meshOne := by
    unfold opFrozen
    rw [AssembleGlobalMatrices_mesh, ApplyBoundaryConditions_mesh,
      CreateMFDstiffnessMatrices_mesh]
    rfl
  have hS : ∀ n m, n < 2 → m < 2 →
      schurBlock dirichletAll 0 opFrozen n m = if n = m then 1 else 0 := by
    intro n m hn hm2
    have hD1 : isDirichlet opFrozen.mesh_ dirichletAll 0 n
        ∨ isDirichlet opFrozen.mesh_ dirichletAll 0 m := Or.inl rfl
    rw [schurBlock_apply dirichletAll opFrozen 0 n m (by rw [hm]; exact hn)
      (by rw [hm]; exact hm2), if_pos hD1]
  refine ⟨?_, ?_, ?_, ?_, ?_⟩
  · unfold opFrozen
    rw [AssembleGlobalMatrices_Acc _ 0 (by
        rw [ApplyBoundaryConditions_mesh, CreateMFDstiffnessMatrices_mesh]; decide),
      ApplyBoundaryConditions_Acc_cells,
      CreateMFDstiffnessMatrices_Acc_cells _ _ 0 (by decide)]
    simp [stiffnessColsum, stiffnessBff, krelCellZero]
  all_goals
    rw [ComputeSchurComplement_Sff]
    simp only [hm, show meshOne.ncells = 1 from rfl, show meshOne.nfaces 0 = 2 from rfl,
      show meshOne.face 0 0 = 0 from rfl, show meshOne.face 0 1 = 1 from rfl,
      Finset.sum_range_succ, Finset.sum_range_zero, hS 0 0 (by decide) (by decide),
      hS 0 1 (by decide) (by decide), hS 1 0 (by decide) (by decide),
      hS 1 1 (by decide) (by decide)]
    norm_num


/-- C14: `ApplyInverse` tolerates `X` and `Y` being the same storage: for every operator
state and every `X`, whether `Y` is `X` itself or a separate vector, the call leaves in the
storage of `Y` the vector that `ApplyInverse` computes from `X` (or ends with the same
error), and changes no other storage. -/
theorem C14_ApplyInverse_aliasing (s : MatrixMFD) (x y : Nat)
    (heap : Nat → CompositeVector) :
    ApplyInverse_heap s x y heap
      = (ApplyInverse s (heap x)).map (fun Y => Function.update heap y Y) := by
  unfold ApplyInverse_heap ApplyInverse ApplyInverse_Tf
  by_cases h1 : s.prec_method_ = Prec_method.PREC_METHOD_NULL
  · simp only [h1, if_true]
    rfl
  · simp only [h1, if_false]
    by_cases h2 : precSupported s.HAVE_HYPRE s.prec_method_ = true
    · have hx : ∀ F : Vec,
          (Function.update heap y ⟨(heap y).cell, F⟩ x).cell = (heap x).cell := by
        intro F
        by_cases hxy : x = y
        · subst hxy
          simp only [Function.update_same]
        · simp only [Function.update_noteq hxy]
      simp only [h2, if_true, Function.update_same, Function.update_idem, hx]
      rfl
    · rw [if_neg h2, if_neg h2]
      rfl



/-- C15 (amended): construction from a parameter list succeeds if and only if "MFD method"
is one of the seven names and the entry "preconditioner", when present, is one of the names
with a branch ("ML", "ILU", "Block ILU", and with HYPRE support "HYPRE AMG",
"HYPRE Euclid", "HYPRE ParaSails"); the seven names select seven pairwise distinct
discretization variants, and every other method string raises the fatal error
"MatrixMFD: unexpected discretization methods". -/
theorem C15_InitializeFromPList (have_hypre : Bool) :
    (∀ plist_ : ParameterList,
      (∃ r, InitializeFromPList_ have_hypre plist_ = Except.ok r) ↔
        ((∃ m, plist_.entry_MFD_method = some m ∧ m ∈ methodNames)
          ∧ (∀ p, plist_.entry_preconditioner = some p → p ∈ precNames have_hypre)))
    ∧ (∀ (plist_ : ParameterList) (r : MFD_method × Prec_method),
        InitializeFromPList_ have_hypre plist_ = Except.ok r →
          plist_.entry_MFD_method.bind methodFromString = some r.1)
    ∧ (methodNames.map methodFromString = [some MFD_method.MFD3D_POLYHEDRA,
        some MFD_method.MFD3D_POLYHEDRA_SCALED, some MFD_method.MFD3D_OPTIMIZED,
        some MFD_method.MFD3D_OPTIMIZED_SCALED, some MFD_method.MFD3D_HEXAHEDRA_MONOTONE,
        some MFD_method.MFD3D_TWO_POINT_FLUX, some MFD_method.MFD3D_SUPPORT_OPERATOR]
      ∧ (methodNames.map methodFromString).Nodup)
    ∧ (∀ (m : String) (p : Option String), m ∉ methodNames →
        InitializeFromPList_ have_hypre ⟨some m, p⟩
          = Except.error "MatrixMFD: unexpected discretization methods") := by
  refine ⟨InitializeFromPList_ok_iff have_hypre, ?_, ⟨by decide, by decide⟩, ?_⟩
  · intro plist_ r h
    unfold InitializeFromPList_ at h
    cases hm : plist_.entry_MFD_method with
    | none => simp [hm] at h
    | some m =>
      cases hv : methodFromString m with
      | none => simp [hm, hv] at h
      | some v =>
        cases hp : plist_.entry_preconditioner with
        | none =>
          simp only [hm, hv, hp] at h
          injection h with h'
          rw [← h']
          simp [hv]
        | some p =>
          cases hq : precFromString have_hypre p with
          | none => simp [hm, hv, hp, hq] at h
          | some w =>
            simp only [hm, hv, hp, hq] at h
            injection h with h'
            rw [← h']
            simp [hv]
  · intro m p hnot
    unfold InitializeFromPList_
    cases hv : methodFromString m with
    | none => simp [hv]
    | some v => exact absurd ((methodFromString_isSome_iff m).mp ⟨v, hv⟩) hnot

/-- C15 (counterexample): "polyhedra" is one of the seven method names, yet construction
with the preconditioner name "Jacobi" ends with an error. -/
theorem C15_counterexample :
    "polyhedra" ∈ methodNames
    ∧ InitializeFromPList_ false ⟨some "polyhedra", some "Jacobi"⟩
      = Except.error ("Matrix_MFD: The specified preconditioner Jacobi is not supported, "
          ++ "we only support ML, and ILU") :=
  ⟨by decide, rfl⟩


/-- C16 (divergence): `CreateMFDstiffnessMatrices` leaves the member `Krel_` as it was when
the call has no face relative conductivity. On `opStale` (a call with `krelFace`, then a
call with `Teuchos::null`) the blocks are those of multiplier `1`
(`Acf_cells_[0](n) = -sum_m Aff_cells_[0](m,n)` and `Aff_cells_[0] = Mff_cells_[0]`), but
`Krel_` still holds `2` and `3`: the flux-type adjustment at face `1` with value `7` and
area `1` is `-7/3` and not `-7`, and `DeriveFlux` multiplies the flux at face `0` by `2`. -/
theorem C16_stale_Krel :
    (∀ s : MatrixMFD, (CreateMFDstiffnessMatrices none s).Krel_ = s.Krel_)
    ∧ opStale.Krel_ 0 = 2 ∧ opStale.Krel_ 1 = 3
    ∧ opStale.Aff_cells_ 0 = opStale.Mff_cells_ 0
    ∧ opStale.Acf_cells_ 0 0 = -∑ m in range (opStale.mesh_.nfaces 0), opStale.Aff_cells_ 0 m 0
    ∧ opStale.Acf_cells_ 0 1 = -∑ m in range (opStale.mesh_.nfaces 0), opStale.Aff_cells_ 0 m 1
    ∧ opStale.Ff_cells_ 0 1 = 0
    ∧ valuesSeven 1 * opStale.mesh_.face_area 1 = 7
    ∧ (ApplyBoundaryConditions fluxAt1 valuesSeven opStale).Ff_cells_ 0 1 = -(7 / 3)
    ∧ (∑ m in range (opStale.mesh_.nfaces 0),
        opStale.Aff_cells_ 0 0 m * (cellOne.cell 0 - cellOne.face (opStale.mesh_.face 0 m)))
          * (opStale.mesh_.dir 0 0 : ℚ) = -1
    ∧ (DeriveFlux_loop opStale cellOne).flux_v 0 = -2 := by
  have hgen : ∀ s : MatrixMFD, (CreateMFDstiffnessMatrices none s).Krel_ = s.Krel_ := by
    intro s
    rw [CreateMFDstiffnessMatrices_eq]
    rfl
  have hm1 : opFlux.mesh_ = meshOne := by
    unfold opFlux
    rw [CreateMFDstiffnessMatrices_mesh]
    rfl
  have hm : opStale.mesh_ = meshOne := by
    unfold opStale
    rw [CreateMFDstiffnessMatrices_mesh, hm1]
  have hMff1 : opFlux.Mff_cells_ = fun _ n m => if n = m then 1 else 0 := by
    unfold opFlux
    rw [CreateMFDstiffnessMatrices_eq]
    rfl
  have hMff : opStale.Mff_cells_ = fun _ n m => if n = m then 1 else 0 := by
    unfold opStale
    rw [CreateMFDstiffnessMatrices_eq]
    exact hMff1
  have hFf1 : opFlux.Ff_cells_ = fun _ _ => 0 := by
    unfold opFlux
    rw [CreateMFDstiffnessMatrices_eq]
    rfl
  have hFf : opStale.Ff_cells_ = fun _ _ => 0 := by
    unfold opStale
    rw [CreateMFDstiffnessMatrices_eq]
    exact hFf1
  have hK : opStale.Krel_ = fun f => if f = 0 then 2 else 3 := by
    unfold opStale
    rw [hgen]
    unfold opFlux
    rw [CreateMFDstiffnessMatrices_eq]
    rfl
  have hc1 : 0 < opFlux.mesh_.ncells := by rw [hm1]; decide
  have hA : opStale.Aff_cells_ 0 = fun n m => if n = m then 1 else 0 := by
    unfold opStale
    rw [CreateMFDstiffnessMatrices_Aff_cells _ _ 0 hc1, hMff1]
    funext n m
    simp [stiffnessBff]
  have hAcf : ∀ n, opStale.Acf_cells_ 0 n
      = -∑ m in range (meshOne.nfaces 0), opStale.Aff_cells_ 0 m n := by
    intro n
    rw [hA]
    unfold opStale
    rw [CreateMFDstiffnessMatrices_Acf_cells _ _ 0 hc1, hMff1, hm1]
    simp [stiffnessColsum, stiffnessBff]
  have hnf : meshOne.nfaces 0 = 2 := rfl
  have hflux : isFluxNonzero opStale.mesh_ fluxAt1 valuesSeven 0 1 := by
    rw [hm]
    unfold isFluxNonzero fluxAt1 valuesSeven
    simp [meshOne, Mesh.face]
  have hnD : ∀ d, ¬ isDirichlet opStale.mesh_ fluxAt1 0 d := by
    intro d h
    unfold isDirichlet fluxAt1 at h
    split_ifs at h
  refine ⟨hgen, ?_, ?_, ?_, ?_, ?_, ?_, ?_, ?_, ?_, ?_⟩
  · rw [hK]; rfl
  · rw [hK]; rfl
  · rw [hA, hMff]
  · rw [hm]; exact hAcf 0
  · rw [hm]; exact hAcf 1
  · rw [hFf]
  · rw [hm]; unfold valuesSeven meshOne; norm_num
  · rw [ApplyBoundaryConditions_Ff_cells _ _ opStale 0 (by rw [hm]; decide),
      bcCell_Ff _ _ opStale 0 1 (by rw [hm]; decide), if_neg (hnD 1), if_pos hflux]
    have hnD1 : ∀ d, isDirichlet meshOne fluxAt1 0 d ↔ False := by
      intro d
      rw [← hm]
      exact iff_false_intro (hnD d)
    simp only [hm, hnD1, if_false, Finset.sum_const_zero, hFf, hK,
      show meshOne.face 0 1 = 1 from rfl, show meshOne.face_area 1 = 1 from rfl, valuesSeven]
    norm_num
  · rw [hA, hm, hnf]
    simp only [Finset.sum_range_succ, Finset.sum_range_zero, cellOne,
      show meshOne.dir 0 0 = -1 from rfl]
    norm_num
  · have h := DeriveFlux_loop_value opStale cellOne 0 0
      (by rw [hm]; decide) (by rw [hm]; decide) (by rw [hm]; decide)
      (by intro i hi; exact absurd hi (Nat.not_lt_zero i))
      (by intro b hb; exact absurd hb (Nat.not_lt_zero b))
    simp only [hm] at h
    have hf : meshOne.face 0 0 = 0 := rfl
    rw [hf] at h
    rw [h]
    unfold fluxValue
    simp only [hm, hK, hA, hnf, Finset.sum_range_succ, Finset.sum_range_zero, cellOne,
      show meshOne.dir 0 0 = -1 from rfl, hf]
    norm_num

/-- C17 (amended): for every owned cell whose least-squares matrix is positive definite (and
a `POSV` that solves symmetric positive definite systems), the velocity written by
`DeriveCellVelocity` solves `M * v = b`, where `M` is symmetric with
`M(i,j) = sum over the cell's faces f of normal_f[i] * normal_f[j]` (no factor
`face_area(f)`), and `b[i] = sum over the cell's faces f of normal_f[i] * flux[f]`. -/
theorem C17_cell_velocity (POSV : Nat → Mat → Vec → Vec) (s : MatrixMFD)
    (flux : CompositeVector) (velocity : Mat) (c : Nat) (hc : c < s.mesh_.ncells)
    (hposv : POSV_contract POSV s.mesh_.space_dimension)
    (hpd : PositiveDefinite s.mesh_.space_dimension
      (DeriveCellVelocity_system s.mesh_ flux c).matrix) :
    (∀ i j, i < s.mesh_.space_dimension → j < s.mesh_.space_dimension →
      (DeriveCellVelocity_system s.mesh_ flux c).matrix i j
        = ∑ n in range (s.mesh_.nfaces c),
            s.mesh_.face_normal (s.mesh_.face c n) i
              * s.mesh_.face_normal (s.mesh_.face c n) j)
    ∧ (∀ i, i < s.mesh_.space_dimension →
      (DeriveCellVelocity_system s.mesh_ flux c).rhs_cell i
        = ∑ n in range (s.mesh_.nfaces c),
            s.mesh_.face_normal (s.mesh_.face c n) i * flux.face (s.mesh_.face c n))
    ∧ (∀ i j, (DeriveCellVelocity_system s.mesh_ flux c).matrix i j
        = (DeriveCellVelocity_system s.mesh_ flux c).matrix j i)
    ∧ ∀ i, i < s.mesh_.space_dimension →
      ∑ j in range s.mesh_.space_dimension,
        (∑ n in range (s.mesh_.nfaces c),
            s.mesh_.face_normal (s.mesh_.face c n) i
              * s.mesh_.face_normal (s.mesh_.face c n) j)
          * DeriveCellVelocity POSV s flux velocity j c
      = ∑ n in range (s.mesh_.nfaces c),
          s.mesh_.face_normal (s.mesh_.face c n) i * flux.face (s.mesh_.face c n) := by
  have hM : ∀ i j, i < s.mesh_.space_dimension → j < s.mesh_.space_dimension →
      (DeriveCellVelocity_system s.mesh_ flux c).matrix i j
        = ∑ n in range (s.mesh_.nfaces c),
            s.mesh_.face_normal (s.mesh_.face c n) i
              * s.mesh_.face_normal (s.mesh_.face c n) j := by
    intro i j hi hj
    rw [DeriveCellVelocity_system_matrix, if_pos ⟨hi, hj⟩]
  have hb : ∀ i, i < s.mesh_.space_dimension →
      (DeriveCellVelocity_system s.mesh_ flux c).rhs_cell i
        = ∑ n in range (s.mesh_.nfaces c),
            s.mesh_.face_normal (s.mesh_.face c n) i * flux.face (s.mesh_.face c n) := by
    intro i hi
    rw [DeriveCellVelocity_system_rhs, if_pos hi]
  have hsym : ∀ i j, (DeriveCellVelocity_system s.mesh_ flux c).matrix i j
      = (DeriveCellVelocity_system s.mesh_ flux c).matrix j i := by
    intro i j
    rw [DeriveCellVelocity_system_matrix, DeriveCellVelocity_system_matrix]
    by_cases h : i < s.mesh_.space_dimension ∧ j < s.mesh_.space_dimension
    · rw [if_pos h, if_pos ⟨h.2, h.1⟩]
      exact Finset.sum_congr rfl (fun n _ => mul_comm _ _)
    · rw [if_neg h, if_neg (fun h2 => h ⟨h2.2, h2.1⟩)]
  refine ⟨hM, hb, hsym, ?_⟩
  intro i hi
  rw [← hb i hi, ← hposv (DeriveCellVelocity_system s.mesh_ flux c).matrix
    (DeriveCellVelocity_system s.mesh_ flux c).rhs_cell (fun a b _ _ => hsym a b) hpd i hi]
  refine Finset.sum_congr rfl (fun j hj => ?_)
  have hj1 : j < s.mesh_.space_dimension := Finset.mem_range.mp hj
  rw [DeriveCellVelocity_apply, if_pos ⟨hj1, hc⟩, hM i j hi hj1]

/-- C17 (witness): on `meshOne` (dimension one, normals `-1` and `1`) with the exact solver
`posvOne` the velocity of cell `0` solves the normal equation. -/
theorem C17_witness :
    ∑ j in range (opOne false).mesh_.space_dimension,
        (∑ n in range ((opOne false).mesh_.nfaces 0),
            (opOne false).mesh_.face_normal ((opOne false).mesh_.face 0 n) 0
              * (opOne false).mesh_.face_normal ((opOne false).mesh_.face 0 n) j)
          * DeriveCellVelocity posvOne (opOne false) faceData (fun _ _ => 0) j 0
      = ∑ n in range ((opOne false).mesh_.nfaces 0),
          (opOne false).mesh_.face_normal ((opOne false).mesh_.face 0 n) 0
            * faceData.face ((opOne false).mesh_.face 0 n) :=
  (C17_cell_velocity posvOne (opOne false) faceData (fun _ _ => 0) 0 (by decide)
    posvOne_contract
    (positiveDefinite_one _ (by rw [systemOne_matrix]; norm_num))).2.2.2 0 (by decide)

/-- C17 (counterexample): on `meshLine` (one face of area `2` with normal `2`, flux `4`) the
least-squares matrix of `DeriveCellVelocity` is `4`, the velocity is `2`, and with the matrix
weighted by the face area, `area * normal * normal = 8`, the velocity does not solve the
system: `8 * 2` is not `8`. -/
theorem C17_counterexample :
    POSV_contract posvOne opLine.mesh_.space_dimension
    ∧ PositiveDefinite opLine.mesh_.space_dimension
        (DeriveCellVelocity_system opLine.mesh_ fluxFour 0).matrix
    ∧ DeriveCellVelocity posvOne opLine fluxFour (fun _ _ => 0) 0 0 = 2
    ∧ ∑ j in range opLine.mesh_.space_dimension,
        (∑ n in range (opLine.mesh_.nfaces 0),
            opLine.mesh_.face_area (opLine.mesh_.face 0 n)
              * opLine.mesh_.face_normal (opLine.mesh_.face 0 n) 0
              * opLine.mesh_.face_normal (opLine.mesh_.face 0 n) j)
          * DeriveCellVelocity posvOne opLine fluxFour (fun _ _ => 0) j 0
      ≠ ∑ n in range (opLine.mesh_.nfaces 0),
          opLine.mesh_.face_normal (opLine.mesh_.face 0 n) 0
            * fluxFour.face (opLine.mesh_.face 0 n) := by
  have hv : DeriveCellVelocity posvOne opLine fluxFour (fun _ _ => 0) 0 0 = 2 := by
    rw [DeriveCellVelocity_apply, if_pos ⟨by decide, by decide⟩]
    simp only [posvOne, if_true, systemLine_matrix, systemLine_rhs]
    norm_num
  refine ⟨posvOne_contract,
    positiveDefinite_one _ (by rw [systemLine_matrix]; norm_num), hv, ?_⟩
  have hd : opLine.mesh_.space_dimension = 1 := rfl
  have hn : opLine.mesh_.nfaces 0 = 1 := rfl
  rw [hd, hn]
  simp only [Finset.sum_range_succ, Finset.sum_range_zero, zero_add, hv]
  simp [opLine, meshLine, Mesh.face, fluxFour]
  norm_num

/-- C18: `AssembleGlobalMatrices` is a function of the elemental data only. Whatever the
globals held before, afterwards `rhs_cell[c] = Fc_cells_[c]` and `Acc[c] = Acc_cells_[c]`
for every owned cell, `rhs_face[f]` is the sum of `Ff_cells_[c][n]` over the owned cells
`c` and local `n` with `faces_c[n] = f`, `Aff` is the sum of the elemental blocks, the entry
of `Acf` in row `c` at the face `faces_c[n]` is `Acf_cells_[c](n)` and the entry of `Afc` is
`Afc_cells_[c](n)` (`Acf_cells_[c](n)` when `Afc_` is `Acf_`), for a cell with pairwise
distinct faces; and a second call in a row leaves all the globals as the first call left
them. -/
theorem C18_assembly_idempotent (s : MatrixMFD) :
    (∀ c, (AssembleGlobalMatrices s).rhs_cell c
        = if c < s.mesh_.ncells then s.Fc_cells_ c else s.rhs_cell c)
    ∧ (∀ f, (AssembleGlobalMatrices s).rhs_face f
        = ∑ c in range s.mesh_.ncells, ∑ n in range (s.mesh_.nfaces c),
            if s.mesh_.face c n = f then s.Ff_cells_ c n else 0)
    ∧ (∀ c, (AssembleGlobalMatrices s).Acc_ c
        = if c < s.mesh_.ncells then s.Acc_cells_ c else s.Acc_ c)
    ∧ (∀ i j, (AssembleGlobalMatrices s).Aff_ i j
        = ∑ c in range s.mesh_.ncells, ∑ n in range (s.mesh_.nfaces c),
            ∑ m in range (s.mesh_.nfaces c),
              if s.mesh_.face c n = i ∧ s.mesh_.face c m = j then s.Aff_cells_ c n m else 0)
    ∧ (∀ c n, c < s.mesh_.ncells → n < s.mesh_.nfaces c → (s.mesh_.cell_faces c).Nodup →
        (AssembleGlobalMatrices s).Acf_ c (s.mesh_.face c n) = s.Acf_cells_ c n)
    ∧ (∀ c n, c < s.mesh_.ncells → n < s.mesh_.nfaces c → (s.mesh_.cell_faces c).Nodup →
        (AssembleGlobalMatrices s).Afc_ c (s.mesh_.face c n)
          = if s.flag_symmetry_ then s.Acf_cells_ c n else s.Afc_cells_ c n)
    ∧ (∀ (A0 : Mat) (c n : Nat), c < s.mesh_.ncells → n < s.mesh_.nfaces c →
        (s.mesh_.cell_faces c).Nodup →
        (AssembleGlobalMatrices { s with Acf_ := A0 }).Acf_ c (s.mesh_.face c n)
            = (AssembleGlobalMatrices s).Acf_ c (s.mesh_.face c n)
          ∧ (AssembleGlobalMatrices { s with Afc_alloc := A0 }).Afc_ c (s.mesh_.face c n)
            = (AssembleGlobalMatrices s).Afc_ c (s.mesh_.face c n))
    ∧ AssembleGlobalMatrices (AssembleGlobalMatrices s) = AssembleGlobalMatrices s := by
  refine ⟨?_, AssembleGlobalMatrices_rhs_face s, ?_, AssembleGlobalMatrices_Aff s,
    fun c n hc hn hnd => AssembleGlobalMatrices_Acf s c n hc hn hnd,
    fun c n hc hn hnd => AssembleGlobalMatrices_Afc s c n hc hn hnd, ?_,
    AssembleGlobalMatrices_idem s⟩
  · intro c
    rw [AssembleGlobalMatrices_eq]
    exact setLoop_apply _ _ _ _
  · intro c
    rw [AssembleGlobalMatrices_eq]
    exact setLoop_apply _ _ _ _
  · intro A0 c n hc hn hnd
    constructor
    · rw [AssembleGlobalMatrices_Acf s c n hc hn hnd]
      exact AssembleGlobalMatrices_Acf { s with Acf_ := A0 } c n hc hn hnd
    · rw [AssembleGlobalMatrices_Afc s c n hc hn hnd]
      exact AssembleGlobalMatrices_Afc { s with Afc_alloc := A0 } c n hc hn hnd

/-- C18 (witness): on `opFlux` the entry of `Acf` at cell `0` and face `1` after
`AssembleGlobalMatrices` is `Acf_cells_[0](1)`, whatever `Acf` held before. -/
theorem C18_witness :
    (AssembleGlobalMatrices opFlux).Acf_ 0 (opFlux.mesh_.face 0 1) = opFlux.Acf_cells_ 0 1 :=
  (C18_assembly_idempotent opFlux).2.2.2.2.1 0 1 (by decide) (by decide) (by decide)

/-- C19 (amended): after `CreateMFDstiffnessMatrices`, for every owned cell `c`: with a
relative conductivity that has no face component (null, or with a cell component only),
`sum_m Aff_cells_[c](m,n) + Acf_cells_[c](n) = 0` for every local face `n` and
`sum_n Afc_cells_[c](n) + Acc_cells_[c] = 0`; with a face component `Krel_face` the two sums
are `sum_m Aff_cells_[c](m,n) * (1 - Krel_face[faces[m]])` and
`sum_n sum_m Aff_cells_[c](m,n) * (Krel_face[faces[m]] - 1)`. -/
theorem C19_column_closure (Krel : Option KrelVector) (s : MatrixMFD) (c : Nat)
    (hc : c < s.mesh_.ncells) :
    (Krel.bind (fun K => K.face) = none →
      (∀ n, n < s.mesh_.nfaces c →
        ∑ m in range (s.mesh_.nfaces c), (CreateMFDstiffnessMatrices Krel s).Aff_cells_ c m n
          + (CreateMFDstiffnessMatrices Krel s).Acf_cells_ c n = 0)
      ∧ ∑ n in range (s.mesh_.nfaces c), (CreateMFDstiffnessMatrices Krel s).Afc_cells_ c n
          + (CreateMFDstiffnessMatrices Krel s).Acc_cells_ c = 0)
    ∧ (∀ Krel_face : Vec, Krel.bind (fun K => K.face) = some Krel_face →
      (∀ n, n < s.mesh_.nfaces c →
        ∑ m in range (s.mesh_.nfaces c), (CreateMFDstiffnessMatrices Krel s).Aff_cells_ c m n
          + (CreateMFDstiffnessMatrices Krel s).Acf_cells_ c n
        = ∑ m in range (s.mesh_.nfaces c),
            (CreateMFDstiffnessMatrices Krel s).Aff_cells_ c m n
              * (1 - Krel_face (s.mesh_.face c m)))
      ∧ ∑ n in range (s.mesh_.nfaces c), (CreateMFDstiffnessMatrices Krel s).Afc_cells_ c n
          + (CreateMFDstiffnessMatrices Krel s).Acc_cells_ c
        = ∑ n in range (s.mesh_.nfaces c), ∑ m in range (s.mesh_.nfaces c),
            (CreateMFDstiffnessMatrices Krel s).Aff_cells_ c m n
              * (Krel_face (s.mesh_.face c m) - 1)) := by
  have eAfc : ∀ n, (CreateMFDstiffnessMatrices Krel s).Afc_cells_ c n
      = -stiffnessRowsum s.mesh_ c
        (stiffnessBff (Krel.bind (fun K => K.cell)) (s.Mff_cells_ c) c) n :=
    fun n => CreateMFDstiffnessMatrices_Afc_cells _ _ c hc n
  refine ⟨?_, ?_⟩
  · intro hface
    constructor
    · intro n _
      rw [CreateMFDstiffnessMatrices_Aff_cells _ _ c hc,
        CreateMFDstiffnessMatrices_Acf_cells _ _ c hc, hface]
      unfold stiffnessColsum
      simp
    · rw [CreateMFDstiffnessMatrices_Acc_cells _ _ c hc, hface]
      simp only [eAfc]
      unfold stiffnessColsum stiffnessRowsum
      simp only [Finset.sum_neg_distrib]
      rw [Finset.sum_comm]
      simp
  · intro Krel_face hface
    constructor
    · intro n _
      rw [CreateMFDstiffnessMatrices_Aff_cells _ _ c hc,
        CreateMFDstiffnessMatrices_Acf_cells _ _ c hc, hface]
      unfold stiffnessColsum
      simp only []
      rw [← Finset.sum_neg_distrib, ← Finset.sum_add_distrib]
      exact Finset.sum_congr rfl (fun m _ => by ring)
    · rw [CreateMFDstiffnessMatrices_Aff_cells _ _ c hc,
        CreateMFDstiffnessMatrices_Acc_cells _ _ c hc, hface]
      simp only [eAfc]
      unfold stiffnessColsum stiffnessRowsum
      simp only [Finset.sum_neg_distrib]
      rw [Finset.sum_comm, ← Finset.sum_neg_distrib, ← Finset.sum_add_distrib]
      refine Finset.sum_congr rfl (fun n _ => ?_)
      rw [← Finset.sum_neg_distrib, ← Finset.sum_add_distrib]
      exact Finset.sum_congr rfl (fun m _ => by ring)

/-- C19 (witness): the two sums vanish on `opOne false` built without relative
conductivity. -/
theorem C19_witness :
    (∑ m in range ((opOne false).mesh_.nfaces 0),
        (CreateMFDstiffnessMatrices none (opOne false)).Aff_cells_ 0 m 1
      + (CreateMFDstiffnessMatrices none (opOne false)).Acf_cells_ 0 1 = 0)
    ∧ ∑ n in range ((opOne false).mesh_.nfaces 0),
        (CreateMFDstiffnessMatrices none (opOne false)).Afc_cells_ 0 n
      + (CreateMFDstiffnessMatrices none (opOne false)).Acc_cells_ 0 = 0 :=
  ⟨((C19_column_closure none (opOne false) 0 (by decide)).1 rfl).1 1 (by decide),
    ((C19_column_closure none (opOne false) 0 (by decide)).1 rfl).2⟩

/-- C19 (counterexample): with the face relative conductivity `krelFace` neither sum
vanishes in cell `0` of `meshOne`. -/
theorem C19_counterexample :
    (∑ m in range ((opOne false).mesh_.nfaces 0),
        (CreateMFDstiffnessMatrices (some krelFace) (opOne false)).Aff_cells_ 0 m 0
      + (CreateMFDstiffnessMatrices (some krelFace) (opOne false)).Acf_cells_ 0 0 = -1)
    ∧ ∑ n in range ((opOne false).mesh_.nfaces 0),
        (CreateMFDstiffnessMatrices (some krelFace) (opOne false)).Afc_cells_ 0 n
      + (CreateMFDstiffnessMatrices (some krelFace) (opOne false)).Acc_cells_ 0 = 3 := by
  have hnf : (opOne false).mesh_.nfaces 0 = 2 := rfl
  constructor
  · rw [CreateMFDstiffnessMatrices_Aff_cells _ _ 0 (by decide),
      CreateMFDstiffnessMatrices_Acf_cells _ _ 0 (by decide), hnf]
    simp [stiffnessColsum, stiffnessBff, krelFace, opOne, meshOne, Mesh.nfaces, Mesh.face,
      Finset.sum_range_succ]
    norm_num
  · rw [CreateMFDstiffnessMatrices_Acc_cells _ _ 0 (by decide), hnf]
    simp only [Finset.sum_range_succ, Finset.sum_range_zero,
      CreateMFDstiffnessMatrices_Afc_cells _ _ 0 (show 0 < (opOne false).mesh_.ncells by decide)]
    simp [stiffnessColsum, stiffnessRowsum, stiffnessBff, krelFace, opOne, meshOne,
      Mesh.nfaces, Mesh.face, Finset.sum_range_succ]
    norm_num

/-- C20 (divergence): with HYPRE support, `InitializeFromPList_` resolves the names
"HYPRE ParaSails" and "HYPRE Euclid" to the same variant `HYPRE_EUCLID`, and no name
resolves to `HYPRE_PARASAILS`, although `InitPreconditioner` reads a sublist of its own for
`HYPRE_PARASAILS`. -/
theorem C20_parasails_alias :
    InitializeFromPList_ true ⟨some "polyhedra", some "HYPRE ParaSails"⟩
      = Except.ok (MFD_method.MFD3D_POLYHEDRA, Prec_method.HYPRE_EUCLID)
    ∧ InitializeFromPList_ true ⟨some "polyhedra", some "HYPRE Euclid"⟩
      = Except.ok (MFD_method.MFD3D_POLYHEDRA, Prec_method.HYPRE_EUCLID)
    ∧ (∀ (have_hypre : Bool) (p : String),
        precFromString have_hypre p ≠ some Prec_method.HYPRE_PARASAILS)
    ∧ InitPreconditioner_sublist true Prec_method.HYPRE_PARASAILS
      = some "HYPRE ParaSails Parameters"
    ∧ InitPreconditioner_sublist true Prec_method.HYPRE_EUCLID
      = some "HYPRE Euclid Parameters" := by
  refine ⟨rfl, rfl, ?_, by decide, by decide⟩
  intro have_hypre p
  unfold precFromString
  split_ifs <;> simp


/-- C21: `ApplyBoundaryConditions` is idempotent on the elemental data when no flux-type
face carries a nonzero value: if every flux-type face of every owned cell has value zero
(the other faces being unmarked or Dirichlet), a second application with the same markers
and values leaves `Aff_cells_`, `Acf_cells_`, `Afc_cells_`, `Ff_cells_` and `Fc_cells_`, and
the whole operator state, exactly as the first application left them. -/
theorem C21_bc_idempotent (s : MatrixMFD) (bc_markers : Nat → Matrix_bc) (bc_values : Vec)
    (hflux : ∀ c, c < s.mesh_.ncells → ∀ n, n < s.mesh_.nfaces c →
      bc_markers (s.mesh_.face c n) = Matrix_bc.MATRIX_BC_FLUX →
        bc_values (s.mesh_.face c n) = 0) :
    (ApplyBoundaryConditions bc_markers bc_values
        (ApplyBoundaryConditions bc_markers bc_values s)).Aff_cells_
      = (ApplyBoundaryConditions bc_markers bc_values s).Aff_cells_
    ∧ (ApplyBoundaryConditions bc_markers bc_values
        (ApplyBoundaryConditions bc_markers bc_values s)).Acf_cells_
      = (ApplyBoundaryConditions bc_markers bc_values s).Acf_cells_
    ∧ (ApplyBoundaryConditions bc_markers bc_values
        (ApplyBoundaryConditions bc_markers bc_values s)).Afc_cells_
      = (ApplyBoundaryConditions bc_markers bc_values s).Afc_cells_
    ∧ (ApplyBoundaryConditions bc_markers bc_values
        (ApplyBoundaryConditions bc_markers bc_values s)).Ff_cells_
      = (ApplyBoundaryConditions bc_markers bc_values s).Ff_cells_
    ∧ (ApplyBoundaryConditions bc_markers bc_values
        (ApplyBoundaryConditions bc_markers bc_values s)).Fc_cells_
      = (ApplyBoundaryConditions bc_markers bc_values s).Fc_cells_
    ∧ ApplyBoundaryConditions bc_markers bc_values
        (ApplyBoundaryConditions bc_markers bc_values s)
      = ApplyBoundaryConditions bc_markers bc_values s := by
  have h := ApplyBoundaryConditions_idem bc_markers bc_values s
    (fun c hc n hn hF => by
      unfold isFluxNonzero at hF
      have hz := hflux c hc n hn hF.1
      have hpos := hF.2
      rw [hz, abs_zero] at hpos
      exact lt_irrefl _ hpos)
  exact ⟨by rw [h], by rw [h], by rw [h], by rw [h], by rw [h], h⟩

/-- C21 (witness): on `opDense` with a Dirichlet condition of value `7` on face `0` and a
flux condition of value `0` on face `1`, a second `ApplyBoundaryConditions` changes
nothing. -/
theorem C21_witness :
    (ApplyBoundaryConditions dirichletFlux valuesAt0
        (ApplyBoundaryConditions dirichletFlux valuesAt0 opDense)).Aff_cells_
      = (ApplyBoundaryConditions dirichletFlux valuesAt0 opDense).Aff_cells_
    ∧ (ApplyBoundaryConditions dirichletFlux valuesAt0
        (ApplyBoundaryConditions dirichletFlux valuesAt0 opDense)).Acf_cells_
      = (ApplyBoundaryConditions dirichletFlux valuesAt0 opDense).Acf_cells_
    ∧ (ApplyBoundaryConditions dirichletFlux valuesAt0
        (ApplyBoundaryConditions dirichletFlux valuesAt0 opDense)).Afc_cells_
      = (ApplyBoundaryConditions dirichletFlux valuesAt0 opDense).Afc_cells_
    ∧ (ApplyBoundaryConditions dirichletFlux valuesAt0
        (ApplyBoundaryConditions dirichletFlux valuesAt0 opDense)).Ff_cells_
      = (ApplyBoundaryConditions dirichletFlux valuesAt0 opDense).Ff_cells_
    ∧ (ApplyBoundaryConditions dirichletFlux valuesAt0
        (ApplyBoundaryConditions dirichletFlux valuesAt0 opDense)).Fc_cells_
      = (ApplyBoundaryConditions dirichletFlux valuesAt0 opDense).Fc_cells_
    ∧ ApplyBoundaryConditions dirichletFlux valuesAt0
        (ApplyBoundaryConditions dirichletFlux valuesAt0 opDense)
      = ApplyBoundaryConditions dirichletFlux valuesAt0 opDense :=
  C21_bc_idempotent opDense dirichletFlux valuesAt0
    (by
      intro c _ n _ hF
      unfold dirichletFlux at hF
      unfold valuesAt0
      split_ifs at hF ⊢
      rfl)


end Claims

end Operators
end Amanzi
